import Mathlib

/-!
# PIIX4 SMBus host-controller driver (`src/adapter/smbus/piix4.c`)

A shallow embedding of the transaction engine (`smbus_piix4_transaction`) and of the
transfer orchestrator (`smbus_piix4_transfer`), followed by theorems about them.

* Port I/O is an arbitrary deterministic device: a state type `σ` with a read and a
  write function.  Every port access is also appended to a recorder (`Sys.log`).
* The caller-owned `union i2c_smbus_data` is a list of bytes (`Sys.block`); the field
  `byte` is byte 0 and `word` is bytes 0 and 1, low byte first (x86).  Every index
  at which the union is accessed is appended to `Sys.idx`.
* `int` values are `Int`, unsigned bytes are `Nat` reduced `% 256` where the C type
  truncates (the value parameter of `outb_p`, the result of `inb_p`, a `__u8` store).
* `usleep_range` and the `dev_dbg`/`dev_err` calls have no effect on the state.
-/

namespace Piix4

/-! ## Constants of the source -/

/-- Line 12: `#define SMBHSTSTS (0 + smba)`. -/
def SMBHSTSTS (smba : Nat) : Nat := 0 + smba
/-- Line 13: `#define SMBHSTCNT (2 + smba)`. -/
def SMBHSTCNT (smba : Nat) : Nat := 2 + smba
/-- Line 14: `#define SMBHSTCMD (3 + smba)`. -/
def SMBHSTCMD (smba : Nat) : Nat := 3 + smba
/-- Line 15: `#define SMBHSTADD (4 + smba)`. -/
def SMBHSTADD (smba : Nat) : Nat := 4 + smba
/-- Line 16: `#define SMBHSTDAT0 (5 + smba)`. -/
def SMBHSTDAT0 (smba : Nat) : Nat := 5 + smba
/-- Line 17: `#define SMBHSTDAT1 (6 + smba)`. -/
def SMBHSTDAT1 (smba : Nat) : Nat := 6 + smba
/-- Line 18: `#define SMBBLKDAT (7 + smba)`. -/
def SMBBLKDAT (smba : Nat) : Nat := 7 + smba

abbrev PIIX4_QUICK : Nat := 0x00
abbrev PIIX4_BYTE : Nat := 0x04
abbrev PIIX4_BYTE_DATA : Nat := 0x08
abbrev PIIX4_WORD_DATA : Nat := 0x0C
abbrev PIIX4_BLOCK_DATA : Nat := 0x14

abbrev SMBIOSIZE : Nat := 7
abbrev MAX_TIMEOUT : Nat := 500
abbrev ENABLE_INT9 : Nat := 0

/-! ## Constants of the kernel headers (`linux/i2c.h`, `errno.h`) -/

abbrev I2C_SMBUS_READ : Nat := 1
abbrev I2C_SMBUS_WRITE : Nat := 0
abbrev I2C_SMBUS_QUICK : Int := 0
abbrev I2C_SMBUS_BYTE : Int := 1
abbrev I2C_SMBUS_BYTE_DATA : Int := 2
abbrev I2C_SMBUS_WORD_DATA : Int := 3
abbrev I2C_SMBUS_BLOCK_DATA : Int := 5
abbrev I2C_SMBUS_BLOCK_MAX : Nat := 32

abbrev EIO : Int := 5
abbrev ENXIO : Int := 6
abbrev EBUSY : Int := 16
abbrev ENODEV : Int := 19
abbrev EINVAL : Int := 22
abbrev EPROTO : Int := 71
abbrev EOPNOTSUPP : Int := 95
abbrev ETIMEDOUT : Int := 110

abbrev ENOMEM : Int := 12

/-- Line 9: `#define SB800_PIIX4_SMB_IDX 0xcd6`. -/
abbrev SB800_PIIX4_SMB_IDX : Nat := 0xcd6

/-! ## More constants of the kernel headers (`linux/pci_ids.h`, `linux/i2c.h`) -/

/-- The value noted in the comment of line 42. -/
abbrev PCI_VENDOR_ID_AMD : Nat := 0x1022
/-- The value noted in the comment of line 42. -/
abbrev PCI_DEVICE_ID_AMD_KERNCZ_SMBUS : Nat := 0x790b

abbrev I2C_SMBUS_PROC_CALL : Int := 4
abbrev I2C_SMBUS_I2C_BLOCK_BROKEN : Int := 6
abbrev I2C_SMBUS_BLOCK_PROC_CALL : Int := 7
abbrev I2C_SMBUS_I2C_BLOCK_DATA : Int := 8

abbrev I2C_FUNC_SMBUS_BLOCK_PROC_CALL : Nat := 0x00008000
abbrev I2C_FUNC_SMBUS_QUICK : Nat := 0x00010000
abbrev I2C_FUNC_SMBUS_READ_BYTE : Nat := 0x00020000
abbrev I2C_FUNC_SMBUS_WRITE_BYTE : Nat := 0x00040000
abbrev I2C_FUNC_SMBUS_READ_BYTE_DATA : Nat := 0x00080000
abbrev I2C_FUNC_SMBUS_WRITE_BYTE_DATA : Nat := 0x00100000
abbrev I2C_FUNC_SMBUS_READ_WORD_DATA : Nat := 0x00200000
abbrev I2C_FUNC_SMBUS_WRITE_WORD_DATA : Nat := 0x00400000
abbrev I2C_FUNC_SMBUS_PROC_CALL : Nat := 0x00800000
abbrev I2C_FUNC_SMBUS_READ_BLOCK_DATA : Nat := 0x01000000
abbrev I2C_FUNC_SMBUS_WRITE_BLOCK_DATA : Nat := 0x02000000
abbrev I2C_FUNC_SMBUS_READ_I2C_BLOCK : Nat := 0x04000000
abbrev I2C_FUNC_SMBUS_WRITE_I2C_BLOCK : Nat := 0x08000000
abbrev I2C_FUNC_SMBUS_BYTE : Nat := I2C_FUNC_SMBUS_READ_BYTE ||| I2C_FUNC_SMBUS_WRITE_BYTE
abbrev I2C_FUNC_SMBUS_BYTE_DATA : Nat :=
  I2C_FUNC_SMBUS_READ_BYTE_DATA ||| I2C_FUNC_SMBUS_WRITE_BYTE_DATA
abbrev I2C_FUNC_SMBUS_WORD_DATA : Nat :=
  I2C_FUNC_SMBUS_READ_WORD_DATA ||| I2C_FUNC_SMBUS_WRITE_WORD_DATA
abbrev I2C_FUNC_SMBUS_BLOCK_DATA : Nat :=
  I2C_FUNC_SMBUS_READ_BLOCK_DATA ||| I2C_FUNC_SMBUS_WRITE_BLOCK_DATA
abbrev I2C_FUNC_SMBUS_I2C_BLOCK : Nat :=
  I2C_FUNC_SMBUS_READ_I2C_BLOCK ||| I2C_FUNC_SMBUS_WRITE_I2C_BLOCK

/-! ## Ports, recorder and caller memory -/

/-- One recorded port access. -/
inductive PortEvent where
  | read (port value : Nat)
  | write (port value : Nat)
  deriving DecidableEq, Repr

/-- The port of a recorded access. -/
def PortEvent.port : PortEvent → Nat
  | .read p _ => p
  | .write p _ => p

/-- The byte of a recorded access. -/
def PortEvent.value : PortEvent → Nat
  | .read _ v => v
  | .write _ v => v

/-- True for a write to port `p`. -/
def PortEvent.isWriteTo (p : Nat) : PortEvent → Bool
  | .read _ _ => false
  | .write q _ => q == p

/-- True for a read of port `p`. -/
def PortEvent.isReadOf (p : Nat) : PortEvent → Bool
  | .read q _ => q == p
  | .write _ _ => false

/-- The hardware behind the ports: any deterministic device with state `σ`. -/
structure Ports (σ : Type) where
  /-- A port read: the value presented and the next device state. -/
  inb : σ → Nat → Nat × σ
  /-- A port write of `value` to `port`: the next device state. -/
  outb : σ → Nat → Nat → σ

/-- Everything a call can observe or change. -/
structure Sys (σ : Type) where
  /-- Device state. -/
  dev : σ
  /-- Recorder: every port access so far, oldest first. -/
  log : List PortEvent
  /-- The bytes of the caller-owned `union i2c_smbus_data`. -/
  block : List Nat
  /-- Indices of the union accessed so far, oldest first. -/
  idx : List Nat

/-- `struct smbus_context`: only `smba` is used by the transfer path. -/
structure smbus_context where
  smba : Nat
  deriving DecidableEq, Repr

/-- `inb_p(port)` (and `inb(port)`): an unsigned byte. -/
def inb_p {σ : Type} (p : Ports σ) (port : Nat) (s : Sys σ) : Nat × Sys σ :=
  let r := p.inb s.dev port
  (r.1 % 256, { s with dev := r.2, log := s.log ++ [PortEvent.read port (r.1 % 256)] })

/-- `outb_p(value, port)`: the value parameter is an unsigned byte. -/
def outb_p {σ : Type} (p : Ports σ) (value port : Nat) (s : Sys σ) : Sys σ :=
  { s with dev := p.outb s.dev port (value % 256),
           log := s.log ++ [PortEvent.write port (value % 256)] }

/-- Read of `data->block[i]` (a `__u8`). -/
def rd_block {σ : Type} (i : Nat) (s : Sys σ) : Nat × Sys σ :=
  (s.block.getD i 0 % 256, { s with idx := s.idx ++ [i] })

/-- Store `data->block[i] = v` (truncated to a `__u8`). -/
def wr_block {σ : Type} (i v : Nat) (s : Sys σ) : Sys σ :=
  { s with block := s.block.set i (v % 256), idx := s.idx ++ [i] }

/-- Read of `data->word` (a `__u16` over bytes 0 and 1, low byte first). -/
def rd_word {σ : Type} (s : Sys σ) : Nat × Sys σ :=
  (s.block.getD 0 0 % 256 + 256 * (s.block.getD 1 0 % 256), { s with idx := s.idx ++ [0, 1] })

/-- Store `data->word = v` (truncated to a `__u16`, low byte first). -/
def wr_word {σ : Type} (v : Nat) (s : Sys σ) : Sys σ :=
  { s with block := (s.block.set 0 (v % 256)).set 1 (v / 256 % 256), idx := s.idx ++ [0, 1] }

/-! ## `smbus_piix4_transaction` (lines 62-123) -/

/-- Lines 71-80: read the status register; when it is non-zero write the value back and
read again.  Returns the last `temp`; the host is ready iff it is zero. -/
def host_ready {σ : Type} (p : Ports σ) (smba : Nat) (s : Sys σ) : Nat × Sys σ :=
  let r := inb_p p (SMBHSTSTS smba) s
  if r.1 ≠ 0x00 then
    inb_p p (SMBHSTSTS smba) (outb_p p r.1 (SMBHSTSTS smba) r.2)
  else r

/-- Line 83: `outb_p(inb(SMBHSTCNT) | 0x040, SMBHSTCNT)`. -/
def start_transaction {σ : Type} (p : Ports σ) (smba : Nat) (s : Sys σ) : Sys σ :=
  let r := inb_p p (SMBHSTCNT smba) s
  outb_p p (r.1 ||| 0x040) (SMBHSTCNT smba) r.2

/-- Lines 88-89: `while ((++timeout < MAX_TIMEOUT) && ((temp = inb_p(SMBHSTSTS)) & 0x01))`.
One unit of fuel per evaluation of the loop condition; `MAX_TIMEOUT` units are always
enough (`poll_loop_fuel`).  Returns `timeout`, `temp` and the state at loop exit. -/
def poll_loop {σ : Type} (p : Ports σ) (smba : Nat) :
    Nat → Nat → Nat → Sys σ → Nat × Nat × Sys σ
  | 0, timeout, temp, s => (timeout, temp, s)
  | fuel + 1, timeout, temp, s =>
    if timeout + 1 < MAX_TIMEOUT then
      let r := inb_p p (SMBHSTSTS smba) s
      if r.1 &&& 0x01 ≠ 0 then poll_loop p smba fuel (timeout + 1) r.1 r.2
      else (timeout + 1, r.1, r.2)
    else (timeout + 1, temp, s)

/-- Lines 67 and 91-112: the four `if` statements that assign `result`, in order. -/
def decode_status (timeout temp : Nat) : Int :=
  let result : Int := 0
  let result := if timeout = MAX_TIMEOUT then -ETIMEDOUT else result
  let result := if temp &&& 0x10 ≠ 0 then - EIO else result
  let result := if temp &&& 0x08 ≠ 0 then - EIO else result
  let result := if temp &&& 0x04 ≠ 0 then - ENXIO else result
  result

/-- Lines 114-120: clear the status register at the end and read it once more. -/
def end_reset {σ : Type} (p : Ports σ) (smba : Nat) (s : Sys σ) : Sys σ :=
  let r := inb_p p (SMBHSTSTS smba) s
  let s1 := if r.1 ≠ 0x00 then
      let r2 := inb_p p (SMBHSTSTS smba) r.2
      outb_p p r2.1 (SMBHSTSTS smba) r2.2
    else r.2
  (inb_p p (SMBHSTSTS smba) s1).2

/-- The state in which the poll loop starts: host ready and start bit written. -/
def armed {σ : Type} (p : Ports σ) (smba : Nat) (s : Sys σ) : Sys σ :=
  start_transaction p smba (host_ready p smba s).2

/-- The poll loop of one transaction, run from the armed state. -/
def polled {σ : Type} (p : Ports σ) (smba : Nat) (s : Sys σ) : Nat × Nat × Sys σ :=
  poll_loop p smba MAX_TIMEOUT 0 (host_ready p smba s).1 (armed p smba s)

/-- Lines 62-123.  The `adapter` argument is used for logging only. -/
def smbus_piix4_transaction {σ : Type} (p : Ports σ) (smba : Nat) (s : Sys σ) : Int × Sys σ :=
  if (host_ready p smba s).1 ≠ 0x00 then (-EBUSY, (host_ready p smba s).2)
  else
    let pl := polled p smba s
    (decode_status pl.1 pl.2.1, end_reset p smba pl.2.2)

/-! ## `smbus_piix4_transfer` (lines 125-218) -/

/-- Lines 180-181: `for (i = 1; i <= len; i++) outb_p(data->block[i], SMBBLKDAT)`.
One unit of fuel per evaluation of the loop condition; the `I2C_SMBUS_BLOCK_MAX + 1`
units given by the caller are always enough (`block_out_loop_fuel`). -/
def block_out_loop {σ : Type} (p : Ports σ) (smba len : Nat) : Nat → Nat → Sys σ → Sys σ
  | 0, _, s => s
  | fuel + 1, i, s =>
    if i ≤ len then
      let r := rd_block i s
      block_out_loop p smba len fuel (i + 1) (outb_p p r.1 (SMBBLKDAT smba) r.2)
    else s

/-- Lines 212-213: `for (i = 1; i <= data->block[0]; i++) data->block[i] = inb_p(SMBBLKDAT)`.
One unit of fuel per evaluation of the loop condition; the `I2C_SMBUS_BLOCK_MAX + 1`
units given by the caller are always enough (`block_in_loop_fuel`). -/
def block_in_loop {σ : Type} (p : Ports σ) (smba : Nat) : Nat → Nat → Sys σ → Sys σ
  | 0, _, s => s
  | fuel + 1, i, s =>
    let b := rd_block 0 s
    if i ≤ b.1 then
      let r := inb_p p (SMBBLKDAT smba) b.2
      block_in_loop p smba fuel (i + 1) (wr_block i r.1 r.2)
    else b.2

/-- Lines 144-188: the first `switch`.  `Except.error e` is `return e`; `Except.ok c` is
the new value of `size`. -/
def transfer_setup {σ : Type} (p : Ports σ) (smba addr read_write command : Nat) (size : Int)
    (s : Sys σ) : Except Int Nat × Sys σ :=
  if size = I2C_SMBUS_QUICK then
    (.ok PIIX4_QUICK, outb_p p ((addr <<< 1) ||| read_write) (SMBHSTADD smba) s)
  else if size = I2C_SMBUS_BYTE then
    let s1 := outb_p p ((addr <<< 1) ||| read_write) (SMBHSTADD smba) s
    let s2 := if read_write = I2C_SMBUS_WRITE then outb_p p command (SMBHSTCMD smba) s1 else s1
    (.ok PIIX4_BYTE, s2)
  else if size = I2C_SMBUS_BYTE_DATA then
    let s1 := outb_p p ((addr <<< 1) ||| read_write) (SMBHSTADD smba) s
    let s2 := outb_p p command (SMBHSTCMD smba) s1
    let s3 := if read_write = I2C_SMBUS_WRITE then
        let b := rd_block 0 s2
        outb_p p b.1 (SMBHSTDAT0 smba) b.2
      else s2
    (.ok PIIX4_BYTE_DATA, s3)
  else if size = I2C_SMBUS_WORD_DATA then
    let s1 := outb_p p ((addr <<< 1) ||| read_write) (SMBHSTADD smba) s
    let s2 := outb_p p command (SMBHSTCMD smba) s1
    let s3 := if read_write = I2C_SMBUS_WRITE then
        let w := rd_word s2
        let s3 := outb_p p (w.1 &&& 0xff) (SMBHSTDAT0 smba) w.2
        let w2 := rd_word s3
        outb_p p ((w2.1 &&& 0xff00) >>> 8) (SMBHSTDAT1 smba) w2.2
      else s2
    (.ok PIIX4_WORD_DATA, s3)
  else if size = I2C_SMBUS_BLOCK_DATA then
    let s1 := outb_p p ((addr <<< 1) ||| read_write) (SMBHSTADD smba) s
    let s2 := outb_p p command (SMBHSTCMD smba) s1
    if read_write = I2C_SMBUS_WRITE then
      let len := rd_block 0 s2
      if len.1 = 0 ∨ len.1 > I2C_SMBUS_BLOCK_MAX then (.error (-EINVAL), len.2)
      else
        let s3 := outb_p p len.1 (SMBHSTDAT0 smba) len.2
        let s4 := (inb_p p (SMBHSTCNT smba) s3).2
        (.ok PIIX4_BLOCK_DATA, block_out_loop p smba len.1 (I2C_SMBUS_BLOCK_MAX + 1) 1 s4)
    else (.ok PIIX4_BLOCK_DATA, s2)
  else (.error (-EOPNOTSUPP), s)

/-- Lines 199-217: the second `switch` and the final `return 0`.  In line 205 the two
port reads are taken left to right. -/
def transfer_readback {σ : Type} (p : Ports σ) (smba size : Nat) (s : Sys σ) : Int × Sys σ :=
  if size = PIIX4_BYTE ∨ size = PIIX4_BYTE_DATA then
    let r := inb_p p (SMBHSTDAT0 smba) s
    (0, wr_block 0 r.1 r.2)
  else if size = PIIX4_WORD_DATA then
    let r0 := inb_p p (SMBHSTDAT0 smba) s
    let r1 := inb_p p (SMBHSTDAT1 smba) r0.2
    (0, wr_word (r0.1 + (r1.1 <<< 8)) r1.2)
  else if size = PIIX4_BLOCK_DATA then
    let r := inb_p p (SMBHSTDAT0 smba) s
    let s1 := wr_block 0 r.1 r.2
    let b := rd_block 0 s1
    if b.1 = 0 then (-EPROTO, b.2)
    else
      let b2 := rd_block 0 b.2
      if b2.1 > I2C_SMBUS_BLOCK_MAX then (-EPROTO, b2.2)
      else
        let s2 := (inb_p p (SMBHSTCNT smba) b2.2).2
        (0, block_in_loop p smba (I2C_SMBUS_BLOCK_MAX + 1) 1 s2)
  else (0, s)

/-- Line 190 and the state in which `smbus_piix4_transaction` is called. -/
def transfer_program {σ : Type} (p : Ports σ) (smba size : Nat) (s : Sys σ) : Sys σ :=
  outb_p p ((size &&& 0x1C) + (ENABLE_INT9 &&& 1)) (SMBHSTCNT smba) s

/-- Lines 125-218.  `adapter` is `none` for a null pointer (`IS_NULL(adapter)`), else the
context returned by `i2c_get_adapdata`.  `_flags` is the unused `flags` argument. -/
def smbus_piix4_transfer {σ : Type} (p : Ports σ) (adapter : Option smbus_context)
    (addr _flags read_write command : Nat) (size : Int) (s : Sys σ) : Int × Sys σ :=
  match adapter with
  | none => (-ENODEV, s)
  | some context =>
    let smba := context.smba
    match transfer_setup p smba addr read_write command size s with
    | (.error e, s1) => (e, s1)
    | (.ok size, s1) =>
      let t := smbus_piix4_transaction p smba (transfer_program p smba size s1)
      if t.1 ≠ 0 then t
      else if read_write = I2C_SMBUS_WRITE ∨ size = PIIX4_QUICK then (0, t.2)
      else transfer_readback p smba size t.2

/-! ## `smbus_piix4_func` (lines 220-226) -/

/-- Lines 220-226: the adapter argument is not used and no port is accessed. -/
def smbus_piix4_func (_adapter : Option smbus_context) : Nat :=
  I2C_FUNC_SMBUS_QUICK ||| I2C_FUNC_SMBUS_BYTE |||
    I2C_FUNC_SMBUS_BYTE_DATA ||| I2C_FUNC_SMBUS_WORD_DATA |||
    I2C_FUNC_SMBUS_BLOCK_DATA

/-! ## `smbus_piix4_context_create` (lines 233-283) -/

/-- `struct pci_dev`: the identity fields read by `smbus_piix4_context_create`. -/
structure pci_dev where
  vendor : Nat
  device : Nat
  revision : Nat
  deriving DecidableEq, Repr

/-- The kernel services called by `smbus_piix4_context_create`; they are not part of
the repository and are taken as parameters. -/
structure Kernel where
  /-- `request_muxed_region(start, n, name)`: true when the region was acquired. -/
  request_muxed_region : Nat → Nat → Bool
  /-- `acpi_check_region(start, n, name)`: non-zero when the range conflicts with a
  region reserved by the firmware. -/
  acpi_check_region : Nat → Nat → Int
  /-- `kzalloc`: true when the allocation succeeded. -/
  kzalloc : Bool

/-- Lines 241-246: the enable selector, a `uint8_t`. -/
def select_smb_en (dev : pci_dev) : Nat :=
  if dev.vendor = PCI_VENDOR_ID_AMD ∧
      dev.device = PCI_DEVICE_ID_AMD_KERNCZ_SMBUS ∧
      dev.revision ≥ 0x49 then 0x00
  else 0x28

/-- Lines 260-266: `smb_en_status` (a `uint8_t`) and `smba` (a `uint16_t`) from the
selector and the two bytes read. -/
def resolve_smba (smb_en smba_en_lo smba_en_hi : Nat) : Nat × Nat :=
  if smb_en = 0 then
    ((smba_en_lo &&& 0x10) % 256, ((smba_en_hi <<< 8) ||| 0x20) % 65536)
  else
    ((smba_en_lo &&& 0x01) % 256, (((smba_en_hi <<< 8) ||| smba_en_lo) &&& 0xffe0) % 65536)

/-- Lines 233-283.  `Except.error e` is `return ERR_PTR(e)`; `Except.ok c` is the
context returned.  `release_region` has no effect on the state modelled. -/
def smbus_piix4_context_create {σ : Type} (k : Kernel) (p : Ports σ) (dev : pci_dev)
    (s : Sys σ) : Except Int smbus_context × Sys σ :=
  let smb_en := select_smb_en dev
  if k.request_muxed_region SB800_PIIX4_SMB_IDX 2 = false then (.error (-EBUSY), s)
  else
    let s1 := outb_p p smb_en SB800_PIIX4_SMB_IDX s
    let lo := inb_p p (SB800_PIIX4_SMB_IDX + 1) s1
    let s2 := outb_p p (smb_en + 1) SB800_PIIX4_SMB_IDX lo.2
    let hi := inb_p p (SB800_PIIX4_SMB_IDX + 1) s2
    let r := resolve_smba smb_en lo.1 hi.1
    if r.1 = 0 then (.error (-ENODEV), hi.2)
    else if k.acpi_check_region r.2 SMBIOSIZE ≠ 0 then (.error (-ENODEV), hi.2)
    else if k.kzalloc = false then (.error (-ENOMEM), hi.2)
    else (.ok { smba := r.2 }, hi.2)

/-! ## Derived notions used in the statements -/

/-- The result of the transaction of a transfer that the first switch accepted with
code `c`: lines 190-192. -/
def transfer_transaction {σ : Type} (p : Ports σ) (smba addr read_write command : Nat)
    (size : Int) (c : Nat) (s : Sys σ) : Int × Sys σ :=
  smbus_piix4_transaction p smba (transfer_program p smba c
    (transfer_setup p smba addr read_write command size s).2)

/-- The recorder `l1` is `l0` followed by accesses that all satisfy `Q`. -/
def Extends (Q : PortEvent → Prop) (l0 l1 : List PortEvent) : Prop :=
  ∃ evs, l1 = l0 ++ evs ∧ ∀ e ∈ evs, Q e

/-- An access to the status or to the control register of the block at `smba`. -/
def EnginePort (smba : Nat) (e : PortEvent) : Prop :=
  e.port = SMBHSTSTS smba ∨ e.port = SMBHSTCNT smba

/-- The byte values of the read events of a recorder, in order. -/
def read_values (l : List PortEvent) : List Nat :=
  l.filterMap fun e => match e with
    | PortEvent.read _ v => some v
    | PortEvent.write _ _ => none

/-- The status bytes read by the poll loop of one transaction: the recorder entries the
loop adds after arming. -/
def polls {σ : Type} (p : Ports σ) (smba : Nat) (s : Sys σ) : List Nat :=
  read_values ((polled p smba s).2.2.log.drop (armed p smba s).log.length)

/-- The recorder at the point where the status of a transaction is decided: after the
second status read when the host is stuck, else after the last poll. -/
def decided_log {σ : Type} (p : Ports σ) (smba : Nat) (s : Sys σ) : List PortEvent :=
  if (host_ready p smba s).1 ≠ 0x00 then (host_ready p smba s).2.log
  else (polled p smba s).2.2.log

/-- The union indices `l1` are `l0` followed by indices that all satisfy `Q`. -/
def IdxExtends (Q : Nat → Prop) (l0 l1 : List Nat) : Prop :=
  ∃ new, l1 = l0 ++ new ∧ ∀ i ∈ new, Q i

/-- The resolver arithmetic in the words of the specification (section 4.1): the
`enabled` flag and the base address from the scheme and the two bytes read. -/
def spec_resolve (new_scheme : Bool) (low high : Nat) : Bool × Nat :=
  if new_scheme then (decide ((low &&& 0x10) ≠ 0), (high <<< 8) ||| 0x20)
  else (decide ((low &&& 0x01) ≠ 0), ((high <<< 8) ||| low) &&& 0xFFE0)

/-- The outcome of `smbus_piix4_context_create` once the region is acquired, from the
`enabled` flag and the base address. -/
def spec_create (k : Kernel) (r : Bool × Nat) : Except Int smbus_context :=
  if r.1 = false then Except.error (-ENODEV)
  else if k.acpi_check_region r.2 SMBIOSIZE ≠ 0 then Except.error (-ENODEV)
  else if k.kzalloc = false then Except.error (-ENOMEM)
  else Except.ok { smba := r.2 }

/-- The `enabled` flag and the base address, in the words of the specification, for the
two bytes that a run of `smbus_piix4_context_create` reads from the data port. -/
def create_resolved {σ : Type} (p : Ports σ) (dev : pci_dev) (s : Sys σ) : Bool × Nat :=
  spec_resolve (decide (select_smb_en dev = 0))
    (inb_p p (SB800_PIIX4_SMB_IDX + 1)
      (outb_p p (select_smb_en dev) SB800_PIIX4_SMB_IDX s)).1
    (inb_p p (SB800_PIIX4_SMB_IDX + 1) (outb_p p (select_smb_en dev + 1)
      SB800_PIIX4_SMB_IDX (inb_p p (SB800_PIIX4_SMB_IDX + 1)
        (outb_p p (select_smb_en dev) SB800_PIIX4_SMB_IDX s)).2)).1

/-- The transaction kinds of `linux/i2c.h` with the functionality bits that announce
them. -/
def smbus_kinds : List (Int × Nat) :=
  [(I2C_SMBUS_QUICK, I2C_FUNC_SMBUS_QUICK),
   (I2C_SMBUS_BYTE, I2C_FUNC_SMBUS_BYTE),
   (I2C_SMBUS_BYTE_DATA, I2C_FUNC_SMBUS_BYTE_DATA),
   (I2C_SMBUS_WORD_DATA, I2C_FUNC_SMBUS_WORD_DATA),
   (I2C_SMBUS_PROC_CALL, I2C_FUNC_SMBUS_PROC_CALL),
   (I2C_SMBUS_BLOCK_DATA, I2C_FUNC_SMBUS_BLOCK_DATA),
   (I2C_SMBUS_BLOCK_PROC_CALL, I2C_FUNC_SMBUS_BLOCK_PROC_CALL),
   (I2C_SMBUS_I2C_BLOCK_DATA, I2C_FUNC_SMBUS_I2C_BLOCK)]

/-- The five kinds of the specification: Quick, Byte, ByteData, WordData, BlockData. -/
def five_kinds : List Int :=
  [I2C_SMBUS_QUICK, I2C_SMBUS_BYTE, I2C_SMBUS_BYTE_DATA, I2C_SMBUS_WORD_DATA,
   I2C_SMBUS_BLOCK_DATA]

/-! ## Test doubles -/

/-- A fresh system: device state `d`, empty recorder, caller bytes `b`, nothing accessed. -/
def Sys.init {σ : Type} (d : σ) (b : List Nat) : Sys σ :=
  { dev := d, log := [], block := b, idx := [] }

/-- A scripted device at base `smba`.  Its state says whether the start bit has been
written to the control register.  The status register reads 0 before that and `v`
afterwards; every other port reads 0. -/
def fixedStatus (smba v : Nat) : Ports Bool where
  inb st port := (if port = SMBHSTSTS smba ∧ st = true then v else 0, st)
  outb st port value := if port = SMBHSTCNT smba ∧ value &&& 0x40 ≠ 0 then true else st

/-- The state of the loopback double. -/
structure LoopDev where
  cnt : Nat
  cmd : Nat
  add : Nat
  dat0 : Nat
  dat1 : Nat
  fifo : Nat → Nat
  ptr : Nat

/-- Loopback double of the testable properties, at base `smba`: the Control, Command,
Address, Data0 and Data1 registers return the last value written; the BlockData
register is a FIFO whose pointer advances on every access and is reset to the start by
a read of Control; the Status register always reads 0, so every transaction succeeds at
its first poll. -/
def loopback (smba : Nat) : Ports LoopDev where
  inb d port :=
    if port = SMBHSTCNT smba then (d.cnt, { d with ptr := 0 })
    else if port = SMBHSTCMD smba then (d.cmd, d)
    else if port = SMBHSTADD smba then (d.add, d)
    else if port = SMBHSTDAT0 smba then (d.dat0, d)
    else if port = SMBHSTDAT1 smba then (d.dat1, d)
    else if port = SMBBLKDAT smba then (d.fifo d.ptr, { d with ptr := d.ptr + 1 })
    else (0, d)
  outb d port v :=
    if port = SMBHSTCNT smba then { d with cnt := v }
    else if port = SMBHSTCMD smba then { d with cmd := v }
    else if port = SMBHSTADD smba then { d with add := v }
    else if port = SMBHSTDAT0 smba then { d with dat0 := v }
    else if port = SMBHSTDAT1 smba then { d with dat1 := v }
    else if port = SMBBLKDAT smba then
      { d with fifo := fun j => if j = d.ptr then v else d.fifo j, ptr := d.ptr + 1 }
    else d

/-- A loopback state in which a device has answered a block read with the three bytes
0x0A, 0x0B, 0x0C: Data0 holds the length 3 and the FIFO holds the bytes. -/
def loopAnswer3 : LoopDev :=
  { cnt := 0, cmd := 0, add := 0, dat0 := 3, dat1 := 0, fifo := fun j => 0x0A + j, ptr := 0 }

/-- A loopback double in its reset state. -/
def loopZero : LoopDev :=
  { cnt := 0, cmd := 0, add := 0, dat0 := 0, dat1 := 0, fifo := fun _ => 0, ptr := 0 }

/-- A device at base `smba` whose status register replays a script: each read of the
status register returns the next byte of the script (0 once the script is used up);
writes are ignored and every other port reads 0. -/
def statusScript (smba : Nat) : Ports (List Nat) where
  inb st port := if port = SMBHSTSTS smba then (st.headD 0, st.tail) else (0, st)
  outb st _ _ := st

/-- The indexed configuration pair at `SB800_PIIX4_SMB_IDX`: a write to the index port
selects a register of the configuration space `regs`, a read of the data port returns
it.  The state is the selected index. -/
def cfgPair (regs : Nat → Nat) : Ports Nat where
  inb st port := (if port = SB800_PIIX4_SMB_IDX + 1 then regs st else 0, st)
  outb st port value := if port = SB800_PIIX4_SMB_IDX then value else st

/-- A configuration space with low byte 0x10 and high byte 0x0B at selector 0x00 and
low byte 0x29 and high byte 0x0B at selector 0x28. -/
def cfgSample (i : Nat) : Nat :=
  if i = 0x00 then 0x10 else if i = 0x01 then 0x0B
  else if i = 0x28 then 0x29 else if i = 0x29 then 0x0B else 0

/-- Kernel services that always succeed: region acquired, no firmware conflict,
allocation succeeds. -/
def kernelOk : Kernel :=
  { request_muxed_region := fun _ _ => true, acpi_check_region := fun _ _ => 0, kzalloc := true }

/-- Kernel services that succeed, with a firmware that reserves the single port
`port`: `acpi_check_region` reports a conflict exactly for the ranges that contain it. -/
def kernelReserving (port : Nat) : Kernel :=
  { request_muxed_region := fun _ _ => true,
    acpi_check_region := fun start n => if start ≤ port ∧ port < start + n then 1 else 0,
    kzalloc := true }

/-- A KERNCZ controller of revision 0x51 (new scheme). -/
def pciNew : pci_dev := { vendor := 0x1022, device := 0x790b, revision := 0x51 }

/-- A KERNCZ controller of revision 0x40 (legacy scheme). -/
def pciLegacy : pci_dev := { vendor := 0x1022, device := 0x790b, revision := 0x40 }

/-- Kernel services in which the index region cannot be acquired. -/
def kernelBusy : Kernel :=
  { request_muxed_region := fun _ _ => false, acpi_check_region := fun _ _ => 0,
    kzalloc := true }

/-! ## Basic facts about single accesses -/

@[simp] theorem inb_p_log {σ : Type} (p : Ports σ) (port : Nat) (s : Sys σ) :
    (inb_p p port s).2.log = s.log ++ [PortEvent.read port (inb_p p port s).1] := rfl

@[simp] theorem inb_p_block {σ : Type} (p : Ports σ) (port : Nat) (s : Sys σ) :
    (inb_p p port s).2.block = s.block := rfl

@[simp] theorem inb_p_idx {σ : Type} (p : Ports σ) (port : Nat) (s : Sys σ) :
    (inb_p p port s).2.idx = s.idx := rfl

theorem inb_p_lt {σ : Type} (p : Ports σ) (port : Nat) (s : Sys σ) :
    (inb_p p port s).1 < 256 := Nat.mod_lt _ (by decide)

@[simp] theorem outb_p_log {σ : Type} (p : Ports σ) (v port : Nat) (s : Sys σ) :
    (outb_p p v port s).log = s.log ++ [PortEvent.write port (v % 256)] := rfl

@[simp] theorem outb_p_block {σ : Type} (p : Ports σ) (v port : Nat) (s : Sys σ) :
    (outb_p p v port s).block = s.block := rfl

@[simp] theorem outb_p_idx {σ : Type} (p : Ports σ) (v port : Nat) (s : Sys σ) :
    (outb_p p v port s).idx = s.idx := rfl

@[simp] theorem rd_block_log {σ : Type} (i : Nat) (s : Sys σ) :
    (rd_block i s).2.log = s.log := rfl

@[simp] theorem rd_block_block {σ : Type} (i : Nat) (s : Sys σ) :
    (rd_block i s).2.block = s.block := rfl

@[simp] theorem rd_block_dev {σ : Type} (i : Nat) (s : Sys σ) :
    (rd_block i s).2.dev = s.dev := rfl

@[simp] theorem rd_word_log {σ : Type} (s : Sys σ) : (rd_word s).2.log = s.log := rfl

@[simp] theorem rd_word_block {σ : Type} (s : Sys σ) : (rd_word s).2.block = s.block := rfl

@[simp] theorem wr_block_log {σ : Type} (i v : Nat) (s : Sys σ) :
    (wr_block i v s).log = s.log := rfl

@[simp] theorem wr_word_log {σ : Type} (v : Nat) (s : Sys σ) : (wr_word v s).log = s.log := rfl

/-! ## The engine never touches the caller bytes -/

theorem host_ready_block {σ : Type} (p : Ports σ) (smba : Nat) (s : Sys σ) :
    (host_ready p smba s).2.block = s.block := by
  simp only [host_ready]
  split_ifs <;> simp

theorem start_transaction_block {σ : Type} (p : Ports σ) (smba : Nat) (s : Sys σ) :
    (start_transaction p smba s).block = s.block := by
  simp [start_transaction]

theorem poll_loop_block {σ : Type} (p : Ports σ) (smba : Nat) (fuel : Nat) :
    ∀ (timeout temp : Nat) (s : Sys σ),
      (poll_loop p smba fuel timeout temp s).2.2.block = s.block := by
  induction fuel with
  | zero => intro timeout temp s; rfl
  | succ n ih =>
    intro timeout temp s
    simp only [poll_loop]
    split_ifs
    · rw [ih]; simp
    · simp
    · rfl

theorem end_reset_block {σ : Type} (p : Ports σ) (smba : Nat) (s : Sys σ) :
    (end_reset p smba s).block = s.block := by
  simp only [end_reset]
  split_ifs <;> simp

theorem transaction_block {σ : Type} (p : Ports σ) (smba : Nat) (s : Sys σ) :
    (smbus_piix4_transaction p smba s).2.block = s.block := by
  unfold smbus_piix4_transaction
  split_ifs
  · exact host_ready_block p smba s
  · simp only [end_reset_block, polled, armed, poll_loop_block, start_transaction_block,
      host_ready_block]

/-! ## The poll loop -/

/-- The poll loop only appends reads of the status register to the recorder. -/
theorem poll_loop_log {σ : Type} (p : Ports σ) (smba : Nat) (fuel : Nat) :
    ∀ (timeout temp : Nat) (s : Sys σ),
      ∃ vals : List Nat, (poll_loop p smba fuel timeout temp s).2.2.log
        = s.log ++ vals.map (PortEvent.read (SMBHSTSTS smba)) := by
  induction fuel with
  | zero => intro timeout temp s; exact ⟨[], by simp [poll_loop]⟩
  | succ n ih =>
    intro timeout temp s
    simp only [poll_loop]
    split_ifs
    · obtain ⟨vals, hv⟩ := ih (timeout + 1) (inb_p p (SMBHSTSTS smba) s).1
        (inb_p p (SMBHSTSTS smba) s).2
      exact ⟨(inb_p p (SMBHSTSTS smba) s).1 :: vals, by simp [hv]⟩
    · exact ⟨[(inb_p p (SMBHSTSTS smba) s).1], by simp⟩
    · exact ⟨[], by simp⟩

/-- If every status byte read by the poll loop has the in-progress bit set, the loop
leaves with `timeout = MAX_TIMEOUT`. -/
theorem poll_loop_all_busy {σ : Type} (p : Ports σ) (smba : Nat) (fuel : Nat) :
    ∀ (timeout temp : Nat) (s : Sys σ),
      MAX_TIMEOUT ≤ timeout + fuel → timeout < MAX_TIMEOUT →
      (∀ e ∈ (poll_loop p smba fuel timeout temp s).2.2.log.drop s.log.length,
        e.value &&& 0x01 ≠ 0) →
      (poll_loop p smba fuel timeout temp s).1 = MAX_TIMEOUT := by
  induction fuel with
  | zero => intro timeout temp s h1 h2; omega
  | succ n ih =>
    intro timeout temp s h1 h2 hall
    simp only [poll_loop] at hall ⊢
    split_ifs at hall ⊢ with hlt hbit
    · apply ih _ _ _ (by omega) hlt
      intro e he
      apply hall
      obtain ⟨vals, hv⟩ := poll_loop_log p smba n (timeout + 1) (inb_p p (SMBHSTSTS smba) s).1
        (inb_p p (SMBHSTSTS smba) s).2
      rw [hv] at he ⊢
      simp only [inb_p_log, List.append_assoc, List.drop_left, List.length_append,
        List.length_singleton] at he ⊢
      rw [← List.append_assoc, ← List.length_singleton (PortEvent.read (SMBHSTSTS smba)
        (inb_p p (SMBHSTSTS smba) s).1), ← List.length_append, List.drop_left] at he
      simp only [List.singleton_append, List.mem_cons]
      exact Or.inr he
    · exfalso
      have := hall (PortEvent.read (SMBHSTSTS smba) (inb_p p (SMBHSTSTS smba) s).1) (by simp)
      exact hbit this
    · show timeout + 1 = MAX_TIMEOUT
      omega

/-! ## Unfolding `smbus_piix4_transfer` along the first switch -/

theorem transfer_of_setup_error {σ : Type} (p : Ports σ) (context : smbus_context)
    (addr flags read_write command : Nat) (size : Int) (s : Sys σ) (e : Int)
    (h : (transfer_setup p context.smba addr read_write command size s).1 = Except.error e) :
    smbus_piix4_transfer p (some context) addr flags read_write command size s
      = (e, (transfer_setup p context.smba addr read_write command size s).2) := by
  simp only [smbus_piix4_transfer]
  generalize transfer_setup p context.smba addr read_write command size s = x at h ⊢
  obtain ⟨x1, x2⟩ := x
  cases x1 with
  | error e1 => simp only at h; cases h; rfl
  | ok c => cases h

theorem transfer_of_setup_ok {σ : Type} (p : Ports σ) (context : smbus_context)
    (addr flags read_write command : Nat) (size : Int) (s : Sys σ) (c : Nat)
    (h : (transfer_setup p context.smba addr read_write command size s).1 = Except.ok c) :
    smbus_piix4_transfer p (some context) addr flags read_write command size s
      = if (smbus_piix4_transaction p context.smba (transfer_program p context.smba c
            (transfer_setup p context.smba addr read_write command size s).2)).1 ≠ 0 then
          smbus_piix4_transaction p context.smba (transfer_program p context.smba c
            (transfer_setup p context.smba addr read_write command size s).2)
        else if read_write = I2C_SMBUS_WRITE ∨ c = PIIX4_QUICK then
          (0, (smbus_piix4_transaction p context.smba (transfer_program p context.smba c
            (transfer_setup p context.smba addr read_write command size s).2)).2)
        else transfer_readback p context.smba c
          (smbus_piix4_transaction p context.smba (transfer_program p context.smba c
            (transfer_setup p context.smba addr read_write command size s).2)).2 := by
  simp only [smbus_piix4_transfer]
  generalize transfer_setup p context.smba addr read_write command size s = x at h ⊢
  obtain ⟨x1, x2⟩ := x
  cases x1 with
  | error e1 => cases h
  | ok c1 => simp only at h; cases h; rfl

/-! ## Where the caller bytes can change -/

theorem getD_set_self (l : List Nat) (i v : Nat) (h : i < l.length) :
    (l.set i v).getD i 0 = v := by
  simp [List.getD_eq_getElem?_getD, List.getElem?_set, h]

theorem getD_set_ne (l : List Nat) (i j v : Nat) (h : i ≠ j) :
    (l.set i v).getD j 0 = l.getD j 0 := by
  simp [List.getD_eq_getElem?_getD, List.getElem?_set, h]

theorem block_out_loop_block {σ : Type} (p : Ports σ) (smba len : Nat) (fuel : Nat) :
    ∀ (i : Nat) (s : Sys σ), (block_out_loop p smba len fuel i s).block = s.block := by
  induction fuel with
  | zero => intro i s; rfl
  | succ n ih =>
    intro i s
    simp only [block_out_loop]
    split_ifs
    · rw [ih]; simp
    · rfl

theorem transfer_setup_block {σ : Type} (p : Ports σ) (smba addr read_write command : Nat)
    (size : Int) (s : Sys σ) :
    (transfer_setup p smba addr read_write command size s).2.block = s.block := by
  simp only [transfer_setup]
  split_ifs <;> simp [block_out_loop_block]

theorem transfer_setup_error {σ : Type} (p : Ports σ) (smba addr read_write command : Nat)
    (size : Int) (s : Sys σ) (e : Int)
    (h : (transfer_setup p smba addr read_write command size s).1 = Except.error e) :
    e = -EINVAL ∨ e = -EOPNOTSUPP := by
  simp only [transfer_setup] at h
  split_ifs at h <;> simp at h <;> simp [← h]

theorem transaction_status {σ : Type} (p : Ports σ) (smba : Nat) (s : Sys σ) :
    (smbus_piix4_transaction p smba s).1 = 0 ∨ (smbus_piix4_transaction p smba s).1 = -EBUSY ∨
    (smbus_piix4_transaction p smba s).1 = -ETIMEDOUT ∨
    (smbus_piix4_transaction p smba s).1 = - EIO ∨
    (smbus_piix4_transaction p smba s).1 = - ENXIO := by
  simp only [smbus_piix4_transaction, decode_status]
  split_ifs <;> simp

/-- The only failure of the second switch is -EPROTO, on a BlockData read whose length
byte read from Data0 is 0 or greater than 32; it is returned right after that byte has
been stored in `data->block[0]`. -/
theorem transfer_readback_failure {σ : Type} (p : Ports σ) (smba c : Nat) (s : Sys σ)
    (hbuf : 0 < s.block.length) (hfail : (transfer_readback p smba c s).1 ≠ 0) :
    (transfer_readback p smba c s).1 = -EPROTO ∧
    ((inb_p p (SMBHSTDAT0 smba) s).1 = 0 ∨
      I2C_SMBUS_BLOCK_MAX < (inb_p p (SMBHSTDAT0 smba) s).1) ∧
    (transfer_readback p smba c s).2.block = s.block.set 0 (inb_p p (SMBHSTDAT0 smba) s).1 ∧
    (transfer_readback p smba c s).2.log
      = s.log ++ [PortEvent.read (SMBHSTDAT0 smba) (inb_p p (SMBHSTDAT0 smba) s).1] := by
  have hn : (inb_p p (SMBHSTDAT0 smba) s).1 % 256 = (inb_p p (SMBHSTDAT0 smba) s).1 :=
    Nat.mod_eq_of_lt (inb_p_lt p _ s)
  have hget : ((s.block.set 0 (inb_p p (SMBHSTDAT0 smba) s).1).getD 0 0) % 256
      = (inb_p p (SMBHSTDAT0 smba) s).1 := by
    rw [getD_set_self _ _ _ hbuf, hn]
  simp only [transfer_readback, rd_block, wr_block, hn, inb_p_block, hget] at hfail ⊢
  split_ifs at hfail ⊢ with h1 h2 h3 h4 h5
  · simp at hfail
  · simp at hfail
  · exact ⟨rfl, Or.inl h4, rfl, by simp⟩
  · exact ⟨rfl, Or.inr h5, rfl, by simp⟩
  · simp at hfail
  · simp at hfail

/-! ## Which ports the engine touches -/

theorem Extends.refl (Q : PortEvent → Prop) (l : List PortEvent) : Extends Q l l :=
  ⟨[], by simp, by simp⟩

theorem Extends.trans {Q : PortEvent → Prop} {l0 l1 l2 : List PortEvent}
    (h1 : Extends Q l0 l1) (h2 : Extends Q l1 l2) : Extends Q l0 l2 := by
  obtain ⟨e1, rfl, q1⟩ := h1
  obtain ⟨e2, rfl, q2⟩ := h2
  refine ⟨e1 ++ e2, by simp, ?_⟩
  intro e he
  rcases List.mem_append.mp he with h | h
  · exact q1 e h
  · exact q2 e h

theorem Extends.mono {Q R : PortEvent → Prop} {l0 l1 : List PortEvent}
    (h : Extends Q l0 l1) (hQR : ∀ e, Q e → R e) : Extends R l0 l1 := by
  obtain ⟨evs, h1, h2⟩ := h
  exact ⟨evs, h1, fun e he => hQR e (h2 e he)⟩

theorem Extends.by_read {σ : Type} {Q : PortEvent → Prop} (p : Ports σ) (port : Nat) (s : Sys σ)
    (h : ∀ v, Q (PortEvent.read port v)) : Extends Q s.log (inb_p p port s).2.log :=
  ⟨[PortEvent.read port (inb_p p port s).1], rfl, by simpa using h _⟩

theorem Extends.by_write {σ : Type} {Q : PortEvent → Prop} (p : Ports σ) (v port : Nat)
    (s : Sys σ) (h : ∀ v, Q (PortEvent.write port v)) : Extends Q s.log (outb_p p v port s).log :=
  ⟨[PortEvent.write port (v % 256)], rfl, by simpa using h _⟩

theorem host_ready_log {σ : Type} (p : Ports σ) (smba : Nat) (s : Sys σ) :
    Extends (EnginePort smba) s.log (host_ready p smba s).2.log := by
  have hr : ∀ v, EnginePort smba (PortEvent.read (SMBHSTSTS smba) v) := fun _ => Or.inl rfl
  have hw : ∀ v, EnginePort smba (PortEvent.write (SMBHSTSTS smba) v) := fun _ => Or.inl rfl
  simp only [host_ready]
  split_ifs
  · exact ((Extends.by_read p _ s hr).trans (Extends.by_write p _ _ _ hw)).trans
      (Extends.by_read p _ _ hr)
  · exact Extends.by_read p _ s hr

theorem start_transaction_log {σ : Type} (p : Ports σ) (smba : Nat) (s : Sys σ) :
    Extends (EnginePort smba) s.log (start_transaction p smba s).log :=
  (Extends.by_read p _ s (fun _ => Or.inr rfl)).trans (Extends.by_write p _ _ _ (fun _ => Or.inr rfl))

theorem poll_loop_extends {σ : Type} (p : Ports σ) (smba fuel timeout temp : Nat) (s : Sys σ) :
    Extends (EnginePort smba) s.log (poll_loop p smba fuel timeout temp s).2.2.log := by
  obtain ⟨vals, hv⟩ := poll_loop_log p smba fuel timeout temp s
  refine ⟨_, hv, ?_⟩
  intro e he
  obtain ⟨v, _, rfl⟩ := List.mem_map.mp he
  exact Or.inl rfl

theorem end_reset_log {σ : Type} (p : Ports σ) (smba : Nat) (s : Sys σ) :
    Extends (EnginePort smba) s.log (end_reset p smba s).log := by
  have hr : ∀ v, EnginePort smba (PortEvent.read (SMBHSTSTS smba) v) := fun _ => Or.inl rfl
  have hw : ∀ v, EnginePort smba (PortEvent.write (SMBHSTSTS smba) v) := fun _ => Or.inl rfl
  simp only [end_reset]
  split_ifs
  · exact (((Extends.by_read p _ s hr).trans (Extends.by_read p _ _ hr)).trans
      (Extends.by_write p _ _ _ hw)).trans (Extends.by_read p _ _ hr)
  · exact (Extends.by_read p _ s hr).trans (Extends.by_read p _ _ hr)

/-- The engine only accesses the status and the control register. -/
theorem transaction_log {σ : Type} (p : Ports σ) (smba : Nat) (s : Sys σ) :
    Extends (EnginePort smba) s.log (smbus_piix4_transaction p smba s).2.log := by
  simp only [smbus_piix4_transaction]
  split_ifs
  · exact host_ready_log p smba s
  · exact (((host_ready_log p smba s).trans (start_transaction_log p smba _)).trans
      (poll_loop_extends p smba _ _ _ _)).trans (end_reset_log p smba _)

/-! ## The BlockData read loop -/

/-- Up to the end of its transaction, a BlockData read does not access the BlockData
register. -/
theorem block_read_prologue {σ : Type} (p : Ports σ) (smba addr command : Nat) (s : Sys σ) :
    Extends (fun e => e.port ≠ SMBBLKDAT smba) s.log
      (transfer_transaction p smba addr I2C_SMBUS_READ command I2C_SMBUS_BLOCK_DATA
        PIIX4_BLOCK_DATA s).2.log := by
  have hs : (transfer_setup p smba addr I2C_SMBUS_READ command I2C_SMBUS_BLOCK_DATA s).2
      = outb_p p command (SMBHSTCMD smba)
          (outb_p p ((addr <<< 1) ||| I2C_SMBUS_READ) (SMBHSTADD smba) s) := by
    simp [transfer_setup]
  unfold transfer_transaction
  rw [hs]
  refine (((Extends.by_write p _ _ s ?_).trans (Extends.by_write p _ _ _ ?_)).trans
    (Extends.by_write p _ _ _ ?_)).trans ((transaction_log p smba _).mono ?_)
  · intro v; show SMBHSTADD smba ≠ SMBBLKDAT smba; unfold SMBHSTADD SMBBLKDAT; omega
  · intro v; show SMBHSTCMD smba ≠ SMBBLKDAT smba; unfold SMBHSTCMD SMBBLKDAT; omega
  · intro v; show SMBHSTCNT smba ≠ SMBBLKDAT smba; unfold SMBHSTCNT SMBBLKDAT; omega
  · intro e he
    rcases he with h | h <;> rw [h]
    · unfold SMBHSTSTS SMBBLKDAT; omega
    · unfold SMBHSTCNT SMBBLKDAT; omega



@[simp] theorem wr_block_block {σ : Type} (i v : Nat) (s : Sys σ) :
    (wr_block i v s).block = s.block.set i (v % 256) := rfl

/-- The read loop of a BlockData read: started at index `i` with length byte `n` in
`block[0]`, it reads the BlockData register `n + 1 - i` times and stores the values at
`block[i], ..., block[n]`; bytes below `i` keep their value. -/
theorem block_in_loop_spec {σ : Type} (p : Ports σ) (smba : Nat) (fuel : Nat) :
    ∀ (i : Nat) (s : Sys σ), 1 ≤ i → i ≤ s.block.getD 0 0 % 256 + 1 →
      s.block.getD 0 0 % 256 + 1 - i < fuel → s.block.getD 0 0 % 256 < s.block.length →
      ∃ vals : List Nat, vals.length = s.block.getD 0 0 % 256 + 1 - i ∧
        (block_in_loop p smba fuel i s).log
          = s.log ++ vals.map (PortEvent.read (SMBBLKDAT smba)) ∧
        (block_in_loop p smba fuel i s).block.length = s.block.length ∧
        (∀ j < i, (block_in_loop p smba fuel i s).block.getD j 0 = s.block.getD j 0) ∧
        (∀ k < vals.length, (block_in_loop p smba fuel i s).block.getD (i + k) 0
          = vals.getD k 0) := by
  induction fuel with
  | zero => intro i s _ _ h; omega
  | succ n ih =>
    intro i s hi hle hfuel hlen
    simp only [block_in_loop, rd_block]
    by_cases hc : i ≤ s.block.getD 0 0 % 256
    · rw [if_pos hc]
      generalize hr : inb_p p (SMBBLKDAT smba) { s with idx := s.idx ++ [0] } = r
      have hrlt : r.1 < 256 := by rw [← hr]; exact inb_p_lt p _ _
      have hrblock : r.2.block = s.block := by rw [← hr]; rfl
      have hrlog : r.2.log = s.log ++ [PortEvent.read (SMBBLKDAT smba) r.1] := by
        rw [← hr]; rfl
      have h0 : (wr_block i r.1 r.2).block.getD 0 0 = s.block.getD 0 0 := by
        rw [wr_block_block, hrblock, getD_set_ne _ _ _ _ (by omega)]
      have hl : (wr_block i r.1 r.2).block.length = s.block.length := by
        rw [wr_block_block, hrblock, List.length_set]
      obtain ⟨vals, hv1, hv2, hv3, hv4, hv5⟩ := ih (i + 1) (wr_block i r.1 r.2) (by omega)
        (by rw [h0]; omega) (by rw [h0]; omega) (by rw [h0, hl]; exact hlen)
      refine ⟨r.1 :: vals, ?_, ?_, ?_, ?_, ?_⟩
      · rw [List.length_cons, hv1, h0]; omega
      · rw [hv2, wr_block_log, hrlog]; simp
      · rw [hv3, hl]
      · intro j hj
        rw [hv4 j (by omega), wr_block_block, hrblock, getD_set_ne _ _ _ _ (by omega)]
      · intro k hk
        cases k with
        | zero =>
          show (block_in_loop p smba n (i + 1) (wr_block i r.1 r.2)).block.getD i 0 = r.1
          rw [hv4 i (by omega), wr_block_block, hrblock,
            getD_set_self _ _ _ (by omega), Nat.mod_eq_of_lt hrlt]
        | succ k =>
          have := hv5 k (by simpa using hk)
          rw [show i + (k + 1) = i + 1 + k by omega, this]
          rfl
    · rw [if_neg hc]
      refine ⟨[], ?_, by simp, rfl, fun _ _ => rfl, by simp⟩
      simp only [List.length_nil]; omega

/-- The second switch on a BlockData read: the length byte `n` read from Data0 decides. -/
theorem transfer_readback_block {σ : Type} (p : Ports σ) (smba : Nat) (s : Sys σ)
    (hbuf : I2C_SMBUS_BLOCK_MAX < s.block.length) :
    ((inb_p p (SMBHSTDAT0 smba) s).1 = 0 ∨ I2C_SMBUS_BLOCK_MAX < (inb_p p (SMBHSTDAT0 smba) s).1 →
      (transfer_readback p smba PIIX4_BLOCK_DATA s).1 = -EPROTO ∧
      (transfer_readback p smba PIIX4_BLOCK_DATA s).2.log
        = s.log ++ [PortEvent.read (SMBHSTDAT0 smba) (inb_p p (SMBHSTDAT0 smba) s).1]) ∧
    (1 ≤ (inb_p p (SMBHSTDAT0 smba) s).1 ∧ (inb_p p (SMBHSTDAT0 smba) s).1 ≤ I2C_SMBUS_BLOCK_MAX →
      (transfer_readback p smba PIIX4_BLOCK_DATA s).1 = 0 ∧
      ∃ (c : Nat) (vals : List Nat), vals.length = (inb_p p (SMBHSTDAT0 smba) s).1 ∧
        (transfer_readback p smba PIIX4_BLOCK_DATA s).2.log
          = s.log ++ [PortEvent.read (SMBHSTDAT0 smba) (inb_p p (SMBHSTDAT0 smba) s).1,
              PortEvent.read (SMBHSTCNT smba) c] ++ vals.map (PortEvent.read (SMBBLKDAT smba)) ∧
        (transfer_readback p smba PIIX4_BLOCK_DATA s).2.block.getD 0 0
          = (inb_p p (SMBHSTDAT0 smba) s).1 ∧
        ∀ k < (inb_p p (SMBHSTDAT0 smba) s).1,
          (transfer_readback p smba PIIX4_BLOCK_DATA s).2.block.getD (k + 1) 0
            = vals.getD k 0) := by
  generalize hr : inb_p p (SMBHSTDAT0 smba) s = r
  have hrlt : r.1 < 256 := by rw [← hr]; exact inb_p_lt p _ _
  have hrblock : r.2.block = s.block := by rw [← hr]; rfl
  have hrlog : r.2.log = s.log ++ [PortEvent.read (SMBHSTDAT0 smba) r.1] := by rw [← hr]; rfl
  have hn : r.1 % 256 = r.1 := Nat.mod_eq_of_lt hrlt
  have hget : ((r.2.block.set 0 r.1).getD 0 0) % 256 = r.1 := by
    rw [getD_set_self _ _ _ (by rw [hrblock]; omega), hn]
  simp only [transfer_readback, rd_block, wr_block, hr, hn, hget]
  constructor
  · intro hbad
    rcases hbad with h0 | h32
    · simp [h0, hrlog]
    · have hne : r.1 ≠ 0 := by
        intro h; rw [h] at h32; exact absurd h32 (by decide)
      simp [hne, h32, hrlog]
  · intro hgood
    obtain ⟨h1, h32⟩ := hgood
    have hne : r.1 ≠ 0 := by omega
    have hnot : ¬ r.1 > I2C_SMBUS_BLOCK_MAX := by omega
    simp only [PIIX4_BLOCK_DATA, PIIX4_BYTE, PIIX4_BYTE_DATA, PIIX4_WORD_DATA]
    simp only [show ¬ ((20 : Nat) = 4 ∨ (20 : Nat) = 8) by decide, if_false,
      show ¬ ((20 : Nat) = 12) by decide, if_true, if_neg hne, if_neg hnot]
    generalize hs2 : (inb_p p (SMBHSTCNT smba)
      { dev := r.2.dev, log := r.2.log, block := r.2.block.set 0 r.1,
        idx := r.2.idx ++ [0] ++ [0] ++ [0] }) = r2
    have h2block : r2.2.block = r.2.block.set 0 r.1 := by rw [← hs2]; rfl
    have h2log : r2.2.log = r.2.log ++ [PortEvent.read (SMBHSTCNT smba) r2.1] := by
      rw [← hs2]; rfl
    have h20 : r2.2.block.getD 0 0 % 256 = r.1 := by rw [h2block]; exact hget
    have h2len : r2.2.block.length = s.block.length := by
      rw [h2block, List.length_set, hrblock]
    obtain ⟨vals, hv1, hv2, _, hv4, hv5⟩ := block_in_loop_spec p smba (I2C_SMBUS_BLOCK_MAX + 1)
      1 r2.2 (le_refl 1) (by omega) (by rw [h20]; omega) (by rw [h20, h2len]; omega)
    refine ⟨trivial, r2.1, vals, ?_, ?_, ?_, ?_⟩
    · rw [hv1, h20]; omega
    · rw [hv2, h2log, hrlog]; simp
    · rw [hv4 0 (by decide), h2block, getD_set_self _ _ _ (by rw [hrblock]; omega)]
    · intro k hk
      rw [Nat.add_comm k 1]
      exact hv5 k (by rw [hv1, h20]; omega)

theorem transfer_setup_block_read {σ : Type} (p : Ports σ) (smba addr command : Nat)
    (s : Sys σ) :
    (transfer_setup p smba addr I2C_SMBUS_READ command I2C_SMBUS_BLOCK_DATA s).1
      = Except.ok PIIX4_BLOCK_DATA := by
  simp [transfer_setup]

/-- A successful read transfer is the second switch run after the transaction. -/
theorem transfer_read_ok {σ : Type} (p : Ports σ) (context : smbus_context)
    (addr flags command : Nat) (size : Int) (s : Sys σ) (c : Nat)
    (hsetup : (transfer_setup p context.smba addr I2C_SMBUS_READ command size s).1
      = Except.ok c)
    (hc : c ≠ PIIX4_QUICK)
    (hok : (transfer_transaction p context.smba addr I2C_SMBUS_READ command size c s).1 = 0) :
    smbus_piix4_transfer p (some context) addr flags I2C_SMBUS_READ command size s
      = transfer_readback p context.smba c
          (transfer_transaction p context.smba addr I2C_SMBUS_READ command size c s).2 := by
  rw [transfer_of_setup_ok p context addr flags I2C_SMBUS_READ command size s c hsetup]
  unfold transfer_transaction at hok ⊢
  rw [if_neg (by simp [hok]), if_neg (by simp [hc])]

/-! ## The loopback double -/

theorem poll_loop_first {σ : Type} (p : Ports σ) (smba fuel temp : Nat) (s : Sys σ)
    (h : (inb_p p (SMBHSTSTS smba) s).1 &&& 0x01 = 0) :
    poll_loop p smba (fuel + 1) 0 temp s
      = (1, (inb_p p (SMBHSTSTS smba) s).1, (inb_p p (SMBHSTSTS smba) s).2) := by
  simp [poll_loop, h]

theorem loopback_sts (smba : Nat) (s : Sys LoopDev) :
    inb_p (loopback smba) (SMBHSTSTS smba) s
      = (0, { s with log := s.log ++ [PortEvent.read (SMBHSTSTS smba) 0] }) := by
  simp [inb_p, loopback, SMBHSTSTS, SMBHSTCNT, SMBHSTCMD, SMBHSTADD, SMBHSTDAT0, SMBHSTDAT1,
    SMBBLKDAT]

theorem loopback_transaction (smba : Nat) (s : Sys LoopDev) :
    (smbus_piix4_transaction (loopback smba) smba s).1 = 0 ∧
    (smbus_piix4_transaction (loopback smba) smba s).2.block = s.block ∧
    (smbus_piix4_transaction (loopback smba) smba s).2.dev
      = { s.dev with cnt := (s.dev.cnt % 256 ||| 0x40) % 256, ptr := 0 } := by
  have hpoll : ∀ (temp : Nat) (s1 : Sys LoopDev),
      poll_loop (loopback smba) smba MAX_TIMEOUT 0 temp s1
        = (1, 0, { s1 with log := s1.log ++ [PortEvent.read (SMBHSTSTS smba) 0] }) := by
    intro temp s1
    rw [show MAX_TIMEOUT = 499 + 1 from rfl, poll_loop_first _ _ _ _ _ (by rw [loopback_sts]; simp),
      loopback_sts]
  simp only [smbus_piix4_transaction, polled, armed, host_ready, loopback_sts, hpoll,
    decode_status, end_reset, start_transaction]
  simp [inb_p, outb_p, loopback, SMBHSTSTS, SMBHSTCNT, SMBHSTCMD, SMBHSTADD, SMBHSTDAT0,
    SMBHSTDAT1, SMBBLKDAT]


/-! ## Bytes and words -/

theorem and_ff (w : Nat) : w &&& 0xff = w % 256 :=
  Nat.and_pow_two_sub_one_eq_mod w 8

theorem and_ff00_shift (w : Nat) : (w &&& 0xff00) >>> 8 = w / 256 % 256 := by
  have h : (w &&& 0xff00) >>> 8 = (w >>> 8) &&& 0xff := by
    apply Nat.eq_of_testBit_eq
    intro i
    rw [Nat.testBit_shiftRight, Nat.testBit_and, Nat.testBit_and, Nat.testBit_shiftRight,
      ← Nat.testBit_shiftRight 0xff00]
    rfl
  rw [h, Nat.shiftRight_eq_div_pow]
  exact Nat.and_pow_two_sub_one_eq_mod (w / 2 ^ 8) 8

theorem shl8 (x : Nat) : x <<< 8 = x * 256 := by
  rw [Nat.shiftLeft_eq]

theorem shr8 (x : Nat) : x >>> 8 = x / 256 := by
  rw [Nat.shiftRight_eq_div_pow]

theorem rd_word_lt {σ : Type} (s : Sys σ) : (rd_word s).1 < 65536 := by
  simp only [rd_word]
  omega

theorem rd_word_wr_word {σ : Type} (v : Nat) (s : Sys σ) (hv : v < 65536)
    (hlen : 2 ≤ s.block.length) : (rd_word (wr_word v s)).1 = v := by
  simp only [rd_word, wr_word]
  rw [getD_set_ne _ 1 0 _ (by decide), getD_set_self _ _ _ (by omega),
    getD_set_self _ _ _ (by rw [List.length_set]; omega)]
  omega

/-- The first switch on a WordData write: four port writes, low byte first. -/
theorem transfer_setup_word_write {σ : Type} (p : Ports σ) (smba addr command : Nat)
    (s : Sys σ) :
    (transfer_setup p smba addr I2C_SMBUS_WRITE command I2C_SMBUS_WORD_DATA s).1
      = Except.ok PIIX4_WORD_DATA ∧
    (transfer_setup p smba addr I2C_SMBUS_WRITE command I2C_SMBUS_WORD_DATA s).2.log
      = s.log ++ [PortEvent.write (SMBHSTADD smba) (((addr <<< 1) ||| I2C_SMBUS_WRITE) % 256),
          PortEvent.write (SMBHSTCMD smba) (command % 256),
          PortEvent.write (SMBHSTDAT0 smba) ((rd_word s).1 &&& 0xFF),
          PortEvent.write (SMBHSTDAT1 smba) ((rd_word s).1 >>> 8)] := by
  have hw := rd_word_lt s
  have h0 : ((rd_word s).1 &&& 0xff) % 256 = (rd_word s).1 &&& 0xFF := by
    rw [and_ff]; omega
  have h1 : (((rd_word s).1 &&& 0xff00) >>> 8) % 256 = (rd_word s).1 >>> 8 := by
    rw [and_ff00_shift, shr8]; omega
  constructor
  · simp [transfer_setup]
  · simp only [transfer_setup]
    simp only [show ¬ (I2C_SMBUS_WORD_DATA = I2C_SMBUS_QUICK) by decide,
      show ¬ (I2C_SMBUS_WORD_DATA = I2C_SMBUS_BYTE) by decide,
      show ¬ (I2C_SMBUS_WORD_DATA = I2C_SMBUS_BYTE_DATA) by decide, if_false, if_true,
      outb_p_log, rd_word_log, List.append_assoc, List.singleton_append, List.cons_append,
      List.nil_append]
    have e1 : (rd_word (outb_p p command (SMBHSTCMD smba)
        (outb_p p (addr <<< 1 ||| I2C_SMBUS_WRITE) (SMBHSTADD smba) s))).1 = (rd_word s).1 := rfl
    have e2 : (rd_word (outb_p p ((rd_word s).1 &&& 0xff) (SMBHSTDAT0 smba)
        (rd_word (outb_p p command (SMBHSTCMD smba)
          (outb_p p (addr <<< 1 ||| I2C_SMBUS_WRITE) (SMBHSTADD smba) s))).2)).1
        = (rd_word s).1 := rfl
    rw [e1, e2, h0, h1]

/-- A write transfer that passes the first switch is its transaction. -/
theorem transfer_write {σ : Type} (p : Ports σ) (context : smbus_context)
    (addr flags command : Nat) (size : Int) (s : Sys σ) (c : Nat)
    (hsetup : (transfer_setup p context.smba addr I2C_SMBUS_WRITE command size s).1
      = Except.ok c) :
    smbus_piix4_transfer p (some context) addr flags I2C_SMBUS_WRITE command size s
      = transfer_transaction p context.smba addr I2C_SMBUS_WRITE command size c s := by
  rw [transfer_of_setup_ok p context addr flags I2C_SMBUS_WRITE command size s c hsetup]
  unfold transfer_transaction
  split_ifs with h1 h2
  · rfl
  · simp only [ne_eq, not_not] at h1
    exact Prod.ext h1.symm rfl
  · exact absurd (Or.inl rfl) h2

/-- On the loopback double, programming the size and running the transaction succeeds
and changes only the Control register and the FIFO pointer of the device. -/
theorem loopback_program_transaction (smba c : Nat) (s : Sys LoopDev) :
    (smbus_piix4_transaction (loopback smba) smba
      (transfer_program (loopback smba) smba c s)).1 = 0 ∧
    (smbus_piix4_transaction (loopback smba) smba
      (transfer_program (loopback smba) smba c s)).2.block = s.block ∧
    (smbus_piix4_transaction (loopback smba) smba
      (transfer_program (loopback smba) smba c s)).2.dev.dat0 = s.dev.dat0 ∧
    (smbus_piix4_transaction (loopback smba) smba
      (transfer_program (loopback smba) smba c s)).2.dev.dat1 = s.dev.dat1 ∧
    (smbus_piix4_transaction (loopback smba) smba
      (transfer_program (loopback smba) smba c s)).2.dev.fifo = s.dev.fifo ∧
    (smbus_piix4_transaction (loopback smba) smba
      (transfer_program (loopback smba) smba c s)).2.dev.ptr = 0 := by
  obtain ⟨h1, h2, h3⟩ := loopback_transaction smba (transfer_program (loopback smba) smba c s)
  refine ⟨h1, ?_, ?_, ?_, ?_, ?_⟩
  · rw [h2]; rfl
  · rw [h3]
    simp [transfer_program, outb_p, loopback, SMBHSTCNT]
  · rw [h3]
    simp [transfer_program, outb_p, loopback, SMBHSTCNT]
  · rw [h3]
    simp [transfer_program, outb_p, loopback, SMBHSTCNT]
  · rw [h3]

theorem transfer_setup_word_read {σ : Type} (p : Ports σ) (smba addr command : Nat)
    (s : Sys σ) :
    (transfer_setup p smba addr I2C_SMBUS_READ command I2C_SMBUS_WORD_DATA s).1
      = Except.ok PIIX4_WORD_DATA := by
  simp [transfer_setup]

/-- The second switch on a WordData read: Data0, then Data1, composed low byte first. -/
theorem transfer_readback_word {σ : Type} (p : Ports σ) (smba : Nat) (s : Sys σ)
    (hbuf : 2 ≤ s.block.length) :
    (transfer_readback p smba PIIX4_WORD_DATA s).1 = 0 ∧
    (transfer_readback p smba PIIX4_WORD_DATA s).2.log
      = s.log ++ [PortEvent.read (SMBHSTDAT0 smba) (inb_p p (SMBHSTDAT0 smba) s).1,
          PortEvent.read (SMBHSTDAT1 smba)
            (inb_p p (SMBHSTDAT1 smba) (inb_p p (SMBHSTDAT0 smba) s).2).1] ∧
    (rd_word (transfer_readback p smba PIIX4_WORD_DATA s).2).1
      = (inb_p p (SMBHSTDAT0 smba) s).1
        + ((inb_p p (SMBHSTDAT1 smba) (inb_p p (SMBHSTDAT0 smba) s).2).1 <<< 8) := by
  have h0 := inb_p_lt p (SMBHSTDAT0 smba) s
  have h1 := inb_p_lt p (SMBHSTDAT1 smba) (inb_p p (SMBHSTDAT0 smba) s).2
  have hr : transfer_readback p smba PIIX4_WORD_DATA s
      = ((0 : Int), wr_word ((inb_p p (SMBHSTDAT0 smba) s).1
          + ((inb_p p (SMBHSTDAT1 smba) (inb_p p (SMBHSTDAT0 smba) s).2).1 <<< 8))
          (inb_p p (SMBHSTDAT1 smba) (inb_p p (SMBHSTDAT0 smba) s).2).2) := by
    simp [transfer_readback]
  rw [hr]
  refine ⟨rfl, by simp, ?_⟩
  apply rd_word_wr_word
  · rw [shl8]; omega
  · simpa using hbuf

/-- Data registers of the loopback double after the first switch of a WordData write. -/
theorem loopback_setup_word_write (smba addr command : Nat) (s : Sys LoopDev) :
    (transfer_setup (loopback smba) smba addr I2C_SMBUS_WRITE command
      I2C_SMBUS_WORD_DATA s).2.dev.dat0 = (rd_word s).1 &&& 0xFF ∧
    (transfer_setup (loopback smba) smba addr I2C_SMBUS_WRITE command
      I2C_SMBUS_WORD_DATA s).2.dev.dat1 = (rd_word s).1 >>> 8 := by
  have hw := rd_word_lt s
  have h0 : ((rd_word s).1 &&& 0xff) % 256 = (rd_word s).1 &&& 0xFF := by
    rw [and_ff]; omega
  have h1 : (((rd_word s).1 &&& 0xff00) >>> 8) % 256 = (rd_word s).1 >>> 8 := by
    rw [and_ff00_shift, shr8]; omega
  constructor
  · rw [← h0]
    simp [transfer_setup, outb_p, rd_word, loopback, SMBHSTSTS, SMBHSTCNT, SMBHSTCMD,
      SMBHSTADD, SMBHSTDAT0, SMBHSTDAT1, SMBBLKDAT]
  · rw [← h1]
    simp [transfer_setup, outb_p, rd_word, loopback, SMBHSTSTS, SMBHSTCNT, SMBHSTCMD,
      SMBHSTADD, SMBHSTDAT0, SMBHSTDAT1, SMBBLKDAT]

/-- A WordData read on the loopback double returns the word held in Data0 and Data1. -/
theorem loopback_word_read (context : smbus_context) (addr flags command : Nat)
    (s : Sys LoopDev) (hbuf : 2 ≤ s.block.length) :
    (smbus_piix4_transfer (loopback context.smba) (some context) addr flags I2C_SMBUS_READ
      command I2C_SMBUS_WORD_DATA s).1 = 0 ∧
    (rd_word (smbus_piix4_transfer (loopback context.smba) (some context) addr flags
      I2C_SMBUS_READ command I2C_SMBUS_WORD_DATA s).2).1
      = s.dev.dat0 % 256 + ((s.dev.dat1 % 256) <<< 8) := by
  obtain ⟨t1, t2, t3, t4, _, _⟩ := loopback_program_transaction context.smba PIIX4_WORD_DATA
    (transfer_setup (loopback context.smba) context.smba addr I2C_SMBUS_READ command
      I2C_SMBUS_WORD_DATA s).2
  rw [transfer_read_ok (loopback context.smba) context addr flags command _ s PIIX4_WORD_DATA
    (transfer_setup_word_read _ _ _ _ s) (by decide) t1]
  unfold transfer_transaction
  generalize smbus_piix4_transaction (loopback context.smba) context.smba
    (transfer_program (loopback context.smba) context.smba PIIX4_WORD_DATA
      (transfer_setup (loopback context.smba) context.smba addr I2C_SMBUS_READ command
        I2C_SMBUS_WORD_DATA s).2) = t at t1 t2 t3 t4
  have hs0 : (transfer_setup (loopback context.smba) context.smba addr I2C_SMBUS_READ command
      I2C_SMBUS_WORD_DATA s).2.dev.dat0 = s.dev.dat0 := by
    simp [transfer_setup, outb_p, loopback, SMBHSTSTS, SMBHSTCNT, SMBHSTCMD,
      SMBHSTADD, SMBHSTDAT0, SMBHSTDAT1, SMBBLKDAT]
  have hs1 : (transfer_setup (loopback context.smba) context.smba addr I2C_SMBUS_READ command
      I2C_SMBUS_WORD_DATA s).2.dev.dat1 = s.dev.dat1 := by
    simp [transfer_setup, outb_p, loopback, SMBHSTSTS, SMBHSTCNT, SMBHSTCMD,
      SMBHSTADD, SMBHSTDAT0, SMBHSTDAT1, SMBBLKDAT]
  have hb : 2 ≤ t.2.block.length := by
    rw [t2, transfer_setup_block]; exact hbuf
  obtain ⟨r1, _, r3⟩ := transfer_readback_word (loopback context.smba) context.smba t.2 hb
  refine ⟨r1, ?_⟩
  rw [r3, ← hs0, ← hs1, ← t3, ← t4]
  simp [inb_p, loopback, SMBHSTSTS, SMBHSTCNT, SMBHSTCMD, SMBHSTADD, SMBHSTDAT0, SMBHSTDAT1,
    SMBBLKDAT]

/-! ## Fuel is never exhausted -/

/-- The poll loop does not depend on its fuel once the fuel covers the remaining
evaluations of the loop condition; `MAX_TIMEOUT` units cover them from `timeout = 0`. -/
theorem poll_loop_fuel {σ : Type} (p : Ports σ) (smba : Nat) (fuel1 : Nat) :
    ∀ (fuel2 timeout temp : Nat) (s : Sys σ), timeout < MAX_TIMEOUT →
      MAX_TIMEOUT ≤ timeout + fuel1 → MAX_TIMEOUT ≤ timeout + fuel2 →
      poll_loop p smba fuel1 timeout temp s = poll_loop p smba fuel2 timeout temp s := by
  induction fuel1 with
  | zero => intro fuel2 timeout temp s h1 h2; omega
  | succ n ih =>
    intro fuel2 timeout temp s h1 h2 h3
    cases fuel2 with
    | zero => omega
    | succ m =>
      simp only [poll_loop]
      split_ifs with hlt hbit
      · exact ih m (timeout + 1) _ _ hlt (by omega) (by omega)
      · rfl
      · rfl

/-- The write loop does not depend on its fuel once the fuel covers the remaining
evaluations of the loop condition; `I2C_SMBUS_BLOCK_MAX + 1` units cover them for every
length that passes the check of line 176. -/
theorem block_out_loop_fuel {σ : Type} (p : Ports σ) (smba len : Nat) (fuel1 : Nat) :
    ∀ (fuel2 i : Nat) (s : Sys σ), len + 1 - i < fuel1 → len + 1 - i < fuel2 →
      block_out_loop p smba len fuel1 i s = block_out_loop p smba len fuel2 i s := by
  induction fuel1 with
  | zero => intro fuel2 i s h1; omega
  | succ n ih =>
    intro fuel2 i s h1 h2
    cases fuel2 with
    | zero => omega
    | succ m =>
      simp only [block_out_loop]
      split_ifs with hc
      · exact ih m (i + 1) _ (by omega) (by omega)
      · rfl

/-- The read loop does not depend on its fuel once the fuel covers the remaining
evaluations of the loop condition; `I2C_SMBUS_BLOCK_MAX + 1` units cover them for every
length byte that passes the check of line 209. -/
theorem block_in_loop_fuel {σ : Type} (p : Ports σ) (smba : Nat) (fuel1 : Nat) :
    ∀ (fuel2 i : Nat) (s : Sys σ), 1 ≤ i → s.block.getD 0 0 % 256 + 1 - i < fuel1 →
      s.block.getD 0 0 % 256 + 1 - i < fuel2 →
      block_in_loop p smba fuel1 i s = block_in_loop p smba fuel2 i s := by
  induction fuel1 with
  | zero => intro fuel2 i s _ h1; omega
  | succ n ih =>
    intro fuel2 i s hi h1 h2
    cases fuel2 with
    | zero => omega
    | succ m =>
      simp only [block_in_loop, rd_block]
      split_ifs with hc
      · have h0 : (wr_block i (inb_p p (SMBBLKDAT smba) { s with idx := s.idx ++ [0] }).1
            (inb_p p (SMBBLKDAT smba) { s with idx := s.idx ++ [0] }).2).block.getD 0 0
            = s.block.getD 0 0 := by
          rw [wr_block_block, inb_p_block, getD_set_ne _ _ _ _ (by omega)]
        exact ih m (i + 1) _ (by omega) (by rw [h0]; omega) (by rw [h0]; omega)
      · rfl


/-! ## BlockData on the loopback double -/

/-- The first switch on a BlockData write with a length byte in 1..32. -/
theorem transfer_setup_block_write {σ : Type} (p : Ports σ) (smba addr command : Nat)
    (s : Sys σ) (h1 : 1 ≤ (rd_block 0 s).1) (h32 : (rd_block 0 s).1 ≤ I2C_SMBUS_BLOCK_MAX) :
    transfer_setup p smba addr I2C_SMBUS_WRITE command I2C_SMBUS_BLOCK_DATA s
      = (Except.ok PIIX4_BLOCK_DATA,
          block_out_loop p smba (rd_block 0 s).1 (I2C_SMBUS_BLOCK_MAX + 1) 1
            (inb_p p (SMBHSTCNT smba) (outb_p p (rd_block 0 s).1 (SMBHSTDAT0 smba)
              (rd_block 0 (outb_p p command (SMBHSTCMD smba)
                (outb_p p ((addr <<< 1) ||| I2C_SMBUS_WRITE) (SMBHSTADD smba) s))).2)).2) := by
  have e : (rd_block 0 (outb_p p command (SMBHSTCMD smba)
      (outb_p p ((addr <<< 1) ||| I2C_SMBUS_WRITE) (SMBHSTADD smba) s))).1 = (rd_block 0 s).1 :=
    rfl
  have hne : ¬ ((rd_block 0 s).1 = 0 ∨ (rd_block 0 s).1 > I2C_SMBUS_BLOCK_MAX) := by omega
  simp only [transfer_setup]
  simp only [show ¬ (I2C_SMBUS_BLOCK_DATA = I2C_SMBUS_QUICK) by decide,
    show ¬ (I2C_SMBUS_BLOCK_DATA = I2C_SMBUS_BYTE) by decide,
    show ¬ (I2C_SMBUS_BLOCK_DATA = I2C_SMBUS_BYTE_DATA) by decide,
    show ¬ (I2C_SMBUS_BLOCK_DATA = I2C_SMBUS_WORD_DATA) by decide, if_false, if_true, e,
    if_neg hne]

/-- The write loop on the loopback double pushes `block[i], ..., block[len]` into the
FIFO, starting at the FIFO pointer. -/
theorem loopback_block_out_loop (smba len : Nat) (fuel : Nat) :
    ∀ (i : Nat) (s : Sys LoopDev), i ≤ len + 1 → len + 1 - i < fuel →
      (block_out_loop (loopback smba) smba len fuel i s).block = s.block ∧
      (block_out_loop (loopback smba) smba len fuel i s).dev.dat0 = s.dev.dat0 ∧
      (block_out_loop (loopback smba) smba len fuel i s).dev.ptr
        = s.dev.ptr + (len + 1 - i) ∧
      (∀ j < s.dev.ptr, (block_out_loop (loopback smba) smba len fuel i s).dev.fifo j
        = s.dev.fifo j) ∧
      (∀ k < len + 1 - i,
        (block_out_loop (loopback smba) smba len fuel i s).dev.fifo (s.dev.ptr + k)
          = s.block.getD (i + k) 0 % 256) := by
  induction fuel with
  | zero => intro i s _ h; omega
  | succ n ih =>
    intro i s hi hfuel
    simp only [block_out_loop]
    by_cases hc : i ≤ len
    · rw [if_pos hc]
      generalize hs1 : outb_p (loopback smba) (rd_block i s).1 (SMBBLKDAT smba) (rd_block i s).2
        = s1
      have b1 : s1.block = s.block := by rw [← hs1]; rfl
      have d1 : s1.dev.dat0 = s.dev.dat0 := by
        rw [← hs1]
        simp [outb_p, rd_block, loopback, SMBHSTCNT, SMBHSTCMD, SMBHSTADD, SMBHSTDAT0,
          SMBHSTDAT1, SMBBLKDAT]
      have p1 : s1.dev.ptr = s.dev.ptr + 1 := by
        rw [← hs1]
        simp [outb_p, rd_block, loopback, SMBHSTCNT, SMBHSTCMD, SMBHSTADD, SMBHSTDAT0,
          SMBHSTDAT1, SMBBLKDAT]
      have f1 : ∀ j, s1.dev.fifo j
          = if j = s.dev.ptr then s.block.getD i 0 % 256 else s.dev.fifo j := by
        intro j
        rw [← hs1]
        simp [outb_p, rd_block, loopback, SMBHSTCNT, SMBHSTCMD, SMBHSTADD, SMBHSTDAT0,
          SMBHSTDAT1, SMBBLKDAT]
      obtain ⟨r1, r2, r3, r4, r5⟩ := ih (i + 1) s1 (by omega) (by omega)
      refine ⟨r1.trans b1, r2.trans d1, ?_, ?_, ?_⟩
      · rw [r3, p1]; omega
      · intro j hj
        rw [r4 j (by omega), f1, if_neg (by omega)]
      · intro k hk
        cases k with
        | zero =>
          show (block_out_loop (loopback smba) smba len n (i + 1) s1).dev.fifo s.dev.ptr
            = s.block.getD i 0 % 256
          rw [r4 _ (by omega), f1, if_pos rfl]
        | succ k =>
          have := r5 k (by omega)
          rw [p1, b1] at this
          rw [show s.dev.ptr + (k + 1) = s.dev.ptr + 1 + k by omega,
            show i + (k + 1) = i + 1 + k by omega]
          exact this
    · rw [if_neg hc]
      refine ⟨rfl, rfl, by omega, fun _ _ => rfl, ?_⟩
      intro k hk
      omega

/-- The second switch on a BlockData read with a reported length in 1..32. -/
theorem transfer_readback_block_loop {σ : Type} (p : Ports σ) (smba : Nat) (s : Sys σ)
    (hbuf : 0 < s.block.length) (h1 : 1 ≤ (inb_p p (SMBHSTDAT0 smba) s).1)
    (h32 : (inb_p p (SMBHSTDAT0 smba) s).1 ≤ I2C_SMBUS_BLOCK_MAX) :
    transfer_readback p smba PIIX4_BLOCK_DATA s
      = (0, block_in_loop p smba (I2C_SMBUS_BLOCK_MAX + 1) 1
          (inb_p p (SMBHSTCNT smba) (rd_block 0 (rd_block 0
            (wr_block 0 (inb_p p (SMBHSTDAT0 smba) s).1 (inb_p p (SMBHSTDAT0 smba) s).2)).2).2).2)
    := by
  have hrlt := inb_p_lt p (SMBHSTDAT0 smba) s
  have hn : (inb_p p (SMBHSTDAT0 smba) s).1 % 256 = (inb_p p (SMBHSTDAT0 smba) s).1 :=
    Nat.mod_eq_of_lt hrlt
  have hget : (s.block.set 0 (inb_p p (SMBHSTDAT0 smba) s).1).getD 0 0 % 256
      = (inb_p p (SMBHSTDAT0 smba) s).1 := by
    rw [getD_set_self _ _ _ hbuf, hn]
  have e1 : (rd_block 0 (wr_block 0 (inb_p p (SMBHSTDAT0 smba) s).1
      (inb_p p (SMBHSTDAT0 smba) s).2)).1 = (inb_p p (SMBHSTDAT0 smba) s).1 := by
    simp only [rd_block, wr_block, inb_p_block, hn, hget]
  have e2 : (rd_block 0 (rd_block 0 (wr_block 0 (inb_p p (SMBHSTDAT0 smba) s).1
      (inb_p p (SMBHSTDAT0 smba) s).2)).2).1 = (inb_p p (SMBHSTDAT0 smba) s).1 := e1
  have hne : ¬ (inb_p p (SMBHSTDAT0 smba) s).1 = 0 := by omega
  have hnot : ¬ (inb_p p (SMBHSTDAT0 smba) s).1 > I2C_SMBUS_BLOCK_MAX := by omega
  simp only [transfer_readback]
  simp only [show ¬ (PIIX4_BLOCK_DATA = PIIX4_BYTE ∨ PIIX4_BLOCK_DATA = PIIX4_BYTE_DATA) by
    decide, show ¬ (PIIX4_BLOCK_DATA = PIIX4_WORD_DATA) by decide, if_false, if_true, e1, e2,
    if_neg hne, if_neg hnot]

/-- The read loop on the loopback double pops the FIFO into `block[i], ..., block[n]`,
where `n` is the length byte in `block[0]`. -/
theorem loopback_block_in_loop (smba : Nat) (fuel : Nat) :
    ∀ (i : Nat) (s : Sys LoopDev), 1 ≤ i → i ≤ s.block.getD 0 0 % 256 + 1 →
      s.block.getD 0 0 % 256 + 1 - i < fuel → s.block.getD 0 0 % 256 < s.block.length →
      (∀ j < i, (block_in_loop (loopback smba) smba fuel i s).block.getD j 0
        = s.block.getD j 0) ∧
      (∀ k < s.block.getD 0 0 % 256 + 1 - i,
        (block_in_loop (loopback smba) smba fuel i s).block.getD (i + k) 0
          = s.dev.fifo (s.dev.ptr + k) % 256) := by
  induction fuel with
  | zero => intro i s _ _ h; omega
  | succ n ih =>
    intro i s hi hle hfuel hlen
    simp only [block_in_loop, rd_block]
    by_cases hc : i ≤ s.block.getD 0 0 % 256
    · rw [if_pos hc]
      generalize hr : inb_p (loopback smba) (SMBBLKDAT smba) { s with idx := s.idx ++ [0] } = r
      have hrv : r.1 = s.dev.fifo s.dev.ptr % 256 := by
        rw [← hr]
        simp [inb_p, loopback, SMBHSTCNT, SMBHSTCMD, SMBHSTADD, SMBHSTDAT0, SMBHSTDAT1,
          SMBBLKDAT]
      have hrp : r.2.dev.ptr = s.dev.ptr + 1 := by
        rw [← hr]
        simp [inb_p, loopback, SMBHSTCNT, SMBHSTCMD, SMBHSTADD, SMBHSTDAT0, SMBHSTDAT1,
          SMBBLKDAT]
      have hrf : r.2.dev.fifo = s.dev.fifo := by
        rw [← hr]
        simp [inb_p, loopback, SMBHSTCNT, SMBHSTCMD, SMBHSTADD, SMBHSTDAT0, SMBHSTDAT1,
          SMBBLKDAT]
      have hrblock : r.2.block = s.block := by rw [← hr]; rfl
      have h0 : (wr_block i r.1 r.2).block.getD 0 0 = s.block.getD 0 0 := by
        rw [wr_block_block, hrblock, getD_set_ne _ _ _ _ (by omega)]
      have hl : (wr_block i r.1 r.2).block.length = s.block.length := by
        rw [wr_block_block, hrblock, List.length_set]
      have hd : (wr_block i r.1 r.2).dev = r.2.dev := rfl
      obtain ⟨hv4, hv5⟩ := ih (i + 1) (wr_block i r.1 r.2) (by omega)
        (by rw [h0]; omega) (by rw [h0]; omega) (by rw [h0, hl]; exact hlen)
      refine ⟨?_, ?_⟩
      · intro j hj
        rw [hv4 j (by omega), wr_block_block, hrblock, getD_set_ne _ _ _ _ (by omega)]
      · intro k hk
        cases k with
        | zero =>
          show (block_in_loop (loopback smba) smba n (i + 1) (wr_block i r.1 r.2)).block.getD i 0
            = s.dev.fifo s.dev.ptr % 256
          rw [hv4 i (by omega), wr_block_block, hrblock, getD_set_self _ _ _ (by omega), hrv,
            Nat.mod_mod]
        | succ k =>
          have := hv5 k (by rw [h0]; omega)
          rw [hd, hrp, hrf] at this
          rw [show i + (k + 1) = i + 1 + k by omega,
            show s.dev.ptr + (k + 1) = s.dev.ptr + 1 + k by omega]
          exact this
    · rw [if_neg hc]
      refine ⟨fun _ _ => rfl, ?_⟩
      intro k hk
      omega

theorem getD_lt_of_all_lt (l : List Nat) (k : Nat) (h : ∀ x ∈ l, x < 256) :
    l.getD k 0 < 256 := by
  rw [List.getD_eq_getElem?_getD]
  cases hk : l[k]? with
  | none => simp
  | some x => exact h x (List.getElem?_mem hk)

/-- A BlockData write on the loopback double: it succeeds, leaves the length in Data0
and the bytes `block[1..len]` at the start of the FIFO. -/
theorem loopback_block_write (context : smbus_context) (addr flags command : Nat)
    (s : Sys LoopDev) (h1 : 1 ≤ (rd_block 0 s).1)
    (h32 : (rd_block 0 s).1 ≤ I2C_SMBUS_BLOCK_MAX) :
    (smbus_piix4_transfer (loopback context.smba) (some context) addr flags I2C_SMBUS_WRITE
      command I2C_SMBUS_BLOCK_DATA s).1 = 0 ∧
    (smbus_piix4_transfer (loopback context.smba) (some context) addr flags I2C_SMBUS_WRITE
      command I2C_SMBUS_BLOCK_DATA s).2.dev.dat0 = (rd_block 0 s).1 ∧
    (∀ k < (rd_block 0 s).1,
      (smbus_piix4_transfer (loopback context.smba) (some context) addr flags I2C_SMBUS_WRITE
        command I2C_SMBUS_BLOCK_DATA s).2.dev.fifo k = s.block.getD (1 + k) 0 % 256) := by
  have hsetup := transfer_setup_block_write (loopback context.smba) context.smba addr command
    s h1 h32
  have hok : (transfer_setup (loopback context.smba) context.smba addr I2C_SMBUS_WRITE command
      I2C_SMBUS_BLOCK_DATA s).1 = Except.ok PIIX4_BLOCK_DATA := by rw [hsetup]
  rw [transfer_write (loopback context.smba) context addr flags command _ s _ hok]
  unfold transfer_transaction
  obtain ⟨t1, _, t3, _, t5, _⟩ := loopback_program_transaction context.smba PIIX4_BLOCK_DATA
    (transfer_setup (loopback context.smba) context.smba addr I2C_SMBUS_WRITE command
      I2C_SMBUS_BLOCK_DATA s).2
  have hs2 : (transfer_setup (loopback context.smba) context.smba addr I2C_SMBUS_WRITE command
      I2C_SMBUS_BLOCK_DATA s).2
      = block_out_loop (loopback context.smba) context.smba (rd_block 0 s).1
          (I2C_SMBUS_BLOCK_MAX + 1) 1
          (inb_p (loopback context.smba) (SMBHSTCNT context.smba)
            (outb_p (loopback context.smba) (rd_block 0 s).1 (SMBHSTDAT0 context.smba)
              (rd_block 0 (outb_p (loopback context.smba) command (SMBHSTCMD context.smba)
                (outb_p (loopback context.smba) ((addr <<< 1) ||| I2C_SMBUS_WRITE)
                  (SMBHSTADD context.smba) s))).2)).2 := by
    rw [hsetup]
  have key : (transfer_setup (loopback context.smba) context.smba addr I2C_SMBUS_WRITE command
        I2C_SMBUS_BLOCK_DATA s).2.dev.dat0 = (rd_block 0 s).1 ∧
      ∀ k < (rd_block 0 s).1,
        (transfer_setup (loopback context.smba) context.smba addr I2C_SMBUS_WRITE command
          I2C_SMBUS_BLOCK_DATA s).2.dev.fifo k = s.block.getD (1 + k) 0 % 256 := by
    rw [hs2]
    generalize hs0 : (inb_p (loopback context.smba) (SMBHSTCNT context.smba)
      (outb_p (loopback context.smba) (rd_block 0 s).1 (SMBHSTDAT0 context.smba)
        (rd_block 0 (outb_p (loopback context.smba) command (SMBHSTCMD context.smba)
          (outb_p (loopback context.smba) ((addr <<< 1) ||| I2C_SMBUS_WRITE)
            (SMBHSTADD context.smba) s))).2)).2 = s0
    have hlt : (rd_block 0 s).1 % 256 = (rd_block 0 s).1 := by
      simp only [rd_block, Nat.mod_mod]
    have b0 : s0.block = s.block := by rw [← hs0]; rfl
    have d0 : s0.dev.dat0 = (rd_block 0 s).1 := by
      rw [← hs0, ← hlt]
      simp [inb_p, outb_p, rd_block, loopback, SMBHSTCNT, SMBHSTCMD, SMBHSTADD, SMBHSTDAT0,
        SMBHSTDAT1, SMBBLKDAT]
    have p0 : s0.dev.ptr = 0 := by
      rw [← hs0]
      simp [inb_p, outb_p, rd_block, loopback, SMBHSTCNT, SMBHSTCMD, SMBHSTADD, SMBHSTDAT0,
        SMBHSTDAT1, SMBBLKDAT]
    obtain ⟨_, r2, _, _, r5⟩ := loopback_block_out_loop context.smba (rd_block 0 s).1
      (I2C_SMBUS_BLOCK_MAX + 1) 1 s0 (by omega) (by omega)
    refine ⟨r2.trans d0, ?_⟩
    intro k hk
    have := r5 k (by omega)
    rw [p0, Nat.zero_add, b0] at this
    exact this
  refine ⟨t1, t3.trans key.1, ?_⟩
  intro k hk
  rw [t5]
  exact key.2 k hk

/-- A BlockData read on the loopback double whose Data0 holds a length `n` in 1..32: it
succeeds, reports `n` in `block[0]` and the first `n` bytes of the FIFO in
`block[1..n]`. -/
theorem loopback_block_read (context : smbus_context) (addr flags command : Nat)
    (s : Sys LoopDev) (hbuf : s.block.length = I2C_SMBUS_BLOCK_MAX + 2)
    (h1 : 1 ≤ s.dev.dat0) (h32 : s.dev.dat0 ≤ I2C_SMBUS_BLOCK_MAX) :
    (smbus_piix4_transfer (loopback context.smba) (some context) addr flags I2C_SMBUS_READ
      command I2C_SMBUS_BLOCK_DATA s).1 = 0 ∧
    (smbus_piix4_transfer (loopback context.smba) (some context) addr flags I2C_SMBUS_READ
      command I2C_SMBUS_BLOCK_DATA s).2.block.getD 0 0 = s.dev.dat0 ∧
    (∀ k < s.dev.dat0,
      (smbus_piix4_transfer (loopback context.smba) (some context) addr flags I2C_SMBUS_READ
        command I2C_SMBUS_BLOCK_DATA s).2.block.getD (1 + k) 0 = s.dev.fifo k % 256) := by
  have h32n : s.dev.dat0 ≤ 32 := h32
  have hbufn : s.block.length = 34 := hbuf
  obtain ⟨t1, t2, t3, _, t5, _⟩ := loopback_program_transaction context.smba PIIX4_BLOCK_DATA
    (transfer_setup (loopback context.smba) context.smba addr I2C_SMBUS_READ command
      I2C_SMBUS_BLOCK_DATA s).2
  rw [transfer_read_ok (loopback context.smba) context addr flags command _ s PIIX4_BLOCK_DATA
    (transfer_setup_block_read _ _ _ _ s) (by decide) t1]
  unfold transfer_transaction
  have hs0 : (transfer_setup (loopback context.smba) context.smba addr I2C_SMBUS_READ command
      I2C_SMBUS_BLOCK_DATA s).2.dev.dat0 = s.dev.dat0 := by
    simp [transfer_setup, outb_p, loopback, SMBHSTSTS, SMBHSTCNT, SMBHSTCMD,
      SMBHSTADD, SMBHSTDAT0, SMBHSTDAT1, SMBBLKDAT]
  have hs1 : (transfer_setup (loopback context.smba) context.smba addr I2C_SMBUS_READ command
      I2C_SMBUS_BLOCK_DATA s).2.dev.fifo = s.dev.fifo := by
    simp [transfer_setup, outb_p, loopback, SMBHSTSTS, SMBHSTCNT, SMBHSTCMD,
      SMBHSTADD, SMBHSTDAT0, SMBHSTDAT1, SMBBLKDAT]
  rw [hs0] at t3
  rw [hs1] at t5
  rw [transfer_setup_block] at t2
  generalize smbus_piix4_transaction (loopback context.smba) context.smba
    (transfer_program (loopback context.smba) context.smba PIIX4_BLOCK_DATA
      (transfer_setup (loopback context.smba) context.smba addr I2C_SMBUS_READ command
        I2C_SMBUS_BLOCK_DATA s).2) = t at t1 t2 t3 t5
  have hn : (inb_p (loopback context.smba) (SMBHSTDAT0 context.smba) t.2).1 = s.dev.dat0 := by
    rw [← t3, ← Nat.mod_eq_of_lt (show t.2.dev.dat0 < 256 by rw [t3]; omega)]
    simp [inb_p, loopback, SMBHSTSTS, SMBHSTCNT, SMBHSTCMD, SMBHSTADD, SMBHSTDAT0, SMBHSTDAT1,
      SMBBLKDAT]
  rw [transfer_readback_block_loop (loopback context.smba) context.smba t.2
    (by rw [t2, hbuf]; decide) (by rw [hn]; exact h1) (by rw [hn]; exact h32), hn]
  generalize hs3 : (inb_p (loopback context.smba) (SMBHSTCNT context.smba)
    (rd_block 0 (rd_block 0 (wr_block 0 s.dev.dat0
      (inb_p (loopback context.smba) (SMBHSTDAT0 context.smba) t.2).2)).2).2).2 = s3
  have b3 : s3.block = s.block.set 0 s.dev.dat0 := by
    rw [← hs3, ← t2, ← Nat.mod_eq_of_lt (show s.dev.dat0 < 256 by omega)]
    simp [inb_p, rd_block, wr_block]
  have p3 : s3.dev.ptr = 0 := by
    rw [← hs3]
    simp [inb_p, rd_block, wr_block, loopback, SMBHSTSTS, SMBHSTCNT, SMBHSTCMD, SMBHSTADD,
      SMBHSTDAT0, SMBHSTDAT1, SMBBLKDAT]
  have f3 : s3.dev.fifo = s.dev.fifo := by
    rw [← hs3, ← t5]
    simp [inb_p, rd_block, wr_block, loopback, SMBHSTSTS, SMBHSTCNT, SMBHSTCMD, SMBHSTADD,
      SMBHSTDAT0, SMBHSTDAT1, SMBBLKDAT]
  have g3 : s3.block.getD 0 0 = s.dev.dat0 := by
    rw [b3, getD_set_self _ _ _ (by rw [hbuf]; decide)]
  have g3m : s3.block.getD 0 0 % 256 = s.dev.dat0 := by
    rw [g3]; exact Nat.mod_eq_of_lt (by omega)
  obtain ⟨q1, q2⟩ := loopback_block_in_loop context.smba (I2C_SMBUS_BLOCK_MAX + 1) 1 s3
    (le_refl 1) (by omega) (by rw [g3m]; omega)
    (by rw [g3m, b3, List.length_set, hbufn]; omega)
  refine ⟨rfl, ?_, ?_⟩
  · show (block_in_loop (loopback context.smba) context.smba (I2C_SMBUS_BLOCK_MAX + 1) 1
      s3).block.getD 0 0 = s.dev.dat0
    rw [q1 0 (by decide), g3]
  · intro k hk
    show (block_in_loop (loopback context.smba) context.smba (I2C_SMBUS_BLOCK_MAX + 1) 1
      s3).block.getD (1 + k) 0 = s.dev.fifo k % 256
    have := q2 k (by rw [g3m]; omega)
    rw [p3, Nat.zero_add, f3] at this
    exact this

/-! ## The address resolver -/

theorem select_smb_en_cases (dev : pci_dev) :
    select_smb_en dev = 0x00 ∨ select_smb_en dev = 0x28 := by
  unfold select_smb_en
  split_ifs
  · exact Or.inl rfl
  · exact Or.inr rfl

/-- On bytes, the truncations of `resolve_smba` lose nothing and the result is the
arithmetic of the specification. -/
theorem resolve_smba_spec (smb_en lo hi : Nat) (hhi : hi < 256) :
    (decide ((resolve_smba smb_en lo hi).1 ≠ 0), (resolve_smba smb_en lo hi).2)
      = spec_resolve (decide (smb_en = 0)) lo hi := by
  have hsh : hi <<< 8 < 2 ^ 16 := by
    rw [Nat.shiftLeft_eq]
    omega
  unfold resolve_smba spec_resolve
  by_cases h : smb_en = 0
  · have h1 : (lo &&& 0x10) % 256 = lo &&& 0x10 :=
      Nat.mod_eq_of_lt (lt_of_le_of_lt Nat.and_le_right (by decide))
    have h2 : ((hi <<< 8) ||| 0x20) % 65536 = (hi <<< 8) ||| 0x20 :=
      Nat.mod_eq_of_lt (Nat.or_lt_two_pow hsh (by decide))
    simp only [h, if_true, decide_True, h1, h2]
  · have h1 : (lo &&& 0x01) % 256 = lo &&& 0x01 :=
      Nat.mod_eq_of_lt (lt_of_le_of_lt Nat.and_le_right (by decide))
    have h2 : (((hi <<< 8) ||| lo) &&& 0xffe0) % 65536 = ((hi <<< 8) ||| lo) &&& 0xffe0 :=
      Nat.mod_eq_of_lt (lt_of_le_of_lt Nat.and_le_right (by decide))
    simp only [h, if_false, decide_False, h1, h2]
    rfl

/-- Once the region is acquired, `smbus_piix4_context_create` makes four port accesses
and its result is the specification outcome on the two bytes read. -/
theorem context_create_acquired {σ : Type} (k : Kernel) (p : Ports σ) (dev : pci_dev)
    (s : Sys σ) (hreg : k.request_muxed_region SB800_PIIX4_SMB_IDX 2 = true) :
    (smbus_piix4_context_create k p dev s).2
      = (inb_p p (SB800_PIIX4_SMB_IDX + 1) (outb_p p (select_smb_en dev + 1)
          SB800_PIIX4_SMB_IDX (inb_p p (SB800_PIIX4_SMB_IDX + 1)
            (outb_p p (select_smb_en dev) SB800_PIIX4_SMB_IDX s)).2)).2 ∧
    (smbus_piix4_context_create k p dev s).1
      = spec_create k (spec_resolve (decide (select_smb_en dev = 0))
          (inb_p p (SB800_PIIX4_SMB_IDX + 1)
            (outb_p p (select_smb_en dev) SB800_PIIX4_SMB_IDX s)).1
          (inb_p p (SB800_PIIX4_SMB_IDX + 1) (outb_p p (select_smb_en dev + 1)
            SB800_PIIX4_SMB_IDX (inb_p p (SB800_PIIX4_SMB_IDX + 1)
              (outb_p p (select_smb_en dev) SB800_PIIX4_SMB_IDX s)).2)).1) := by
  generalize hlo : inb_p p (SB800_PIIX4_SMB_IDX + 1)
    (outb_p p (select_smb_en dev) SB800_PIIX4_SMB_IDX s) = lo
  generalize hhi : inb_p p (SB800_PIIX4_SMB_IDX + 1) (outb_p p (select_smb_en dev + 1)
    SB800_PIIX4_SMB_IDX lo.2) = hi
  have hhilt : hi.1 < 256 := by rw [← hhi]; exact inb_p_lt p _ _
  have hspec := resolve_smba_spec (select_smb_en dev) lo.1 hi.1 hhilt
  simp only [smbus_piix4_context_create, hreg, hlo, hhi]
  rw [← hspec]
  simp only [spec_create]
  by_cases h1 : (resolve_smba (select_smb_en dev) lo.1 hi.1).1 = 0
  · simp [h1]
  · by_cases h2 : k.acpi_check_region (resolve_smba (select_smb_en dev) lo.1 hi.1).2
        SMBIOSIZE = 0
    · by_cases h3 : k.kzalloc = false
      · simp [h1, h2, h3]
      · simp [h1, h2, h3]
    · simp [h1, h2]

/-! ## Which results a transfer can have -/

theorem transfer_readback_status {σ : Type} (p : Ports σ) (smba c : Nat) (s : Sys σ) :
    (transfer_readback p smba c s).1 = 0 ∨ (transfer_readback p smba c s).1 = -EPROTO := by
  simp only [transfer_readback]
  split_ifs <;> simp

/-- For the five kinds the first switch never returns -EOPNOTSUPP. -/
theorem transfer_setup_supported {σ : Type} (p : Ports σ) (smba addr read_write command : Nat)
    (size : Int) (s : Sys σ) (hsize : size ∈ five_kinds) :
    (transfer_setup p smba addr read_write command size s).1
      ≠ Except.error (-EOPNOTSUPP) := by
  simp only [five_kinds, List.mem_cons, List.mem_singleton, List.not_mem_nil, or_false] at hsize
  intro h
  simp only [transfer_setup] at h
  split_ifs at h with c0 c1 c2 c3 c5 cw clen
  all_goals first
    | (cases h; done)
    | (rcases hsize with g | g | g | g | g <;> contradiction)

/-- A transfer returns -EOPNOTSUPP exactly for the sizes outside the five kinds. -/
theorem transfer_unsupported_iff {σ : Type} (p : Ports σ) (context : smbus_context)
    (addr flags read_write command : Nat) (size : Int) (s : Sys σ) :
    (smbus_piix4_transfer p (some context) addr flags read_write command size s).1
      = -EOPNOTSUPP ↔ size ∉ five_kinds := by
  constructor
  · intro h hsize
    have hsup := transfer_setup_supported p context.smba addr read_write command size s hsize
    cases hs : (transfer_setup p context.smba addr read_write command size s).1 with
    | error e =>
      rw [transfer_of_setup_error p context addr flags read_write command size s e hs] at h
      simp only at h
      rw [hs, h] at hsup
      exact hsup rfl
    | ok c =>
      rw [transfer_of_setup_ok p context addr flags read_write command size s c hs] at h
      split_ifs at h with h1 h2
      · rcases transaction_status p context.smba (transfer_program p context.smba c
          (transfer_setup p context.smba addr read_write command size s).2)
          with g | g | g | g | g <;> rw [g] at h <;> simp at h
      · simp at h
      · rcases transfer_readback_status p context.smba c
          (smbus_piix4_transaction p context.smba (transfer_program p context.smba c
            (transfer_setup p context.smba addr read_write command size s).2)).2
          with g | g <;> rw [g] at h <;> simp at h
  · intro hsize
    simp only [five_kinds, List.mem_cons, List.mem_singleton, List.not_mem_nil, or_false,
      not_or] at hsize
    obtain ⟨h0, h1, h2, h3, h5⟩ := hsize
    simp [smbus_piix4_transfer, transfer_setup, h0, h1, h2, h3, h5]

/-! ## Counting the polls -/

theorem read_values_map_read (port : Nat) (vals : List Nat) :
    read_values (vals.map (PortEvent.read port)) = vals := by
  induction vals with
  | nil => rfl
  | cons v vs ih =>
    simp only [read_values, List.map_cons, List.filterMap_cons] at ih ⊢
    rw [ih]

/-- The poll loop from `timeout`, characterised by the status bytes `vals` it reads:
either it leaves at the cap, having read `MAX_TIMEOUT - 1 - timeout` bytes that all
have the in-progress bit set, or it leaves below the cap on the first byte with the
in-progress bit clear. -/
theorem poll_loop_char {σ : Type} (p : Ports σ) (smba : Nat) (fuel : Nat) :
    ∀ (timeout temp : Nat) (s : Sys σ), timeout < MAX_TIMEOUT →
      MAX_TIMEOUT ≤ timeout + fuel →
      ∃ vals : List Nat,
        (poll_loop p smba fuel timeout temp s).2.2.log
          = s.log ++ vals.map (PortEvent.read (SMBHSTSTS smba)) ∧
        (((poll_loop p smba fuel timeout temp s).1 = MAX_TIMEOUT ∧
            vals.length = MAX_TIMEOUT - 1 - timeout ∧ (∀ v ∈ vals, v &&& 0x01 ≠ 0) ∧
            (poll_loop p smba fuel timeout temp s).2.1 = vals.getLastD temp) ∨
          ((poll_loop p smba fuel timeout temp s).1 < MAX_TIMEOUT ∧
            (poll_loop p smba fuel timeout temp s).1 = timeout + vals.length ∧
            (poll_loop p smba fuel timeout temp s).2.1 &&& 0x01 = 0 ∧
            ∃ init, vals = init ++ [(poll_loop p smba fuel timeout temp s).2.1] ∧
              ∀ v ∈ init, v &&& 0x01 ≠ 0)) := by
  induction fuel with
  | zero => intro timeout temp s h1 h2; omega
  | succ n ih =>
    intro timeout temp s h1 h2
    simp only [poll_loop]
    by_cases hlt : timeout + 1 < MAX_TIMEOUT
    · rw [if_pos hlt]
      by_cases hbit : (inb_p p (SMBHSTSTS smba) s).1 &&& 0x01 ≠ 0
      · rw [if_pos hbit]
        obtain ⟨vals, hv, hcase⟩ := ih (timeout + 1) (inb_p p (SMBHSTSTS smba) s).1
          (inb_p p (SMBHSTSTS smba) s).2 hlt (by omega)
        refine ⟨(inb_p p (SMBHSTSTS smba) s).1 :: vals, by rw [hv]; simp, ?_⟩
        rcases hcase with ⟨a1, a2, a3, a4⟩ | ⟨b1, b2, b3, init, b4, b5⟩
        · refine Or.inl ⟨a1, ?_, ?_, ?_⟩
          · rw [List.length_cons, a2]; omega
          · intro v hv'
            rcases List.mem_cons.mp hv' with rfl | h
            · exact hbit
            · exact a3 v h
          · rw [a4, List.getLastD_cons]
        · refine Or.inr ⟨b1, ?_, b3, (inb_p p (SMBHSTSTS smba) s).1 :: init, ?_, ?_⟩
          · rw [b2, List.length_cons]; omega
          · rw [List.cons_append, ← b4]
          · intro v hv'
            rcases List.mem_cons.mp hv' with rfl | h
            · exact hbit
            · exact b5 v h
      · rw [if_neg hbit]
        refine ⟨[(inb_p p (SMBHSTSTS smba) s).1], by simp, Or.inr ⟨hlt, rfl, ?_, [], rfl, ?_⟩⟩
        · simpa using hbit
        · intro v hv'; simp at hv'
    · rw [if_neg hlt]
      refine ⟨[], by simp, Or.inl ⟨?_, ?_, ?_, rfl⟩⟩
      · show timeout + 1 = MAX_TIMEOUT
        omega
      · show 0 = MAX_TIMEOUT - 1 - timeout
        omega
      · intro v hv'; simp at hv'

/-- The poll loop of a transaction, characterised by the status bytes `polls` it reads. -/
theorem polled_char {σ : Type} (p : Ports σ) (smba : Nat) (s : Sys σ) :
    (polled p smba s).2.2.log
      = (armed p smba s).log ++ (polls p smba s).map (PortEvent.read (SMBHSTSTS smba)) ∧
    (((polled p smba s).1 = MAX_TIMEOUT ∧ (polls p smba s).length = MAX_TIMEOUT - 1 ∧
        (∀ v ∈ polls p smba s, v &&& 0x01 ≠ 0) ∧
        (polled p smba s).2.1 = (polls p smba s).getLastD (host_ready p smba s).1) ∨
      ((polled p smba s).1 < MAX_TIMEOUT ∧ (polled p smba s).1 = (polls p smba s).length ∧
        (polled p smba s).2.1 &&& 0x01 = 0 ∧
        ∃ init, polls p smba s = init ++ [(polled p smba s).2.1] ∧
          ∀ v ∈ init, v &&& 0x01 ≠ 0)) := by
  obtain ⟨vals, hv, hcase⟩ := poll_loop_char p smba MAX_TIMEOUT 0 (host_ready p smba s).1
    (armed p smba s) (by decide) (by omega)
  have hp : polls p smba s = vals := by
    unfold polls polled
    rw [hv, List.drop_left, read_values_map_read]
  rw [hp]
  refine ⟨hv, ?_⟩
  rcases hcase with ⟨a1, a2, a3, a4⟩ | ⟨b1, b2, b3, init, b4, b5⟩
  · exact Or.inl ⟨a1, by rw [a2]; rfl, a3, a4⟩
  · exact Or.inr ⟨b1, by unfold polled; rw [b2, Nat.zero_add], b3, init, b4, b5⟩

/-- The poll loop reads the status register at least once. -/
theorem polls_ne_nil {σ : Type} (p : Ports σ) (smba : Nat) (s : Sys σ) :
    polls p smba s ≠ [] := by
  rcases (polled_char p smba s).2 with ⟨_, a2, _, _⟩ | ⟨_, _, _, init, b4, _⟩
  · intro h
    rw [h] at a2
    exact absurd a2 (by decide)
  · rw [b4]
    simp

/-- The `temp` left by the poll loop is the last status byte it read. -/
theorem polled_temp_last {σ : Type} (p : Ports σ) (smba : Nat) (s : Sys σ) :
    (polls p smba s).getLast? = some (polled p smba s).2.1 := by
  rcases (polled_char p smba s).2 with ⟨_, _, _, a4⟩ | ⟨_, _, _, init, b4, _⟩
  · rw [a4]
    cases h : polls p smba s with
    | nil => exact absurd h (polls_ne_nil p smba s)
    | cons v vs =>
      rw [List.getLastD_cons, List.getLast?_cons, List.getLastD_eq_getLast?]
  · rw [b4]
    simp

/-- The poll loop leaves at the cap exactly when the last byte it read has the
in-progress bit set, and exactly when all the bytes it read have it set. -/
theorem polled_cap_iff {σ : Type} (p : Ports σ) (smba : Nat) (s : Sys σ) :
    ((polled p smba s).1 = MAX_TIMEOUT ↔ (polled p smba s).2.1 &&& 0x01 ≠ 0) ∧
    ((polled p smba s).1 = MAX_TIMEOUT ↔ ∀ v ∈ polls p smba s, v &&& 0x01 ≠ 0) := by
  have hlast := polled_temp_last p smba s
  rcases (polled_char p smba s).2 with ⟨a1, _, a3, _⟩ | ⟨b1, _, b3, init, b4, _⟩
  · have hmem : (polled p smba s).2.1 ∈ polls p smba s := List.mem_of_getLast?_eq_some hlast
    exact ⟨⟨fun _ => a3 _ hmem, fun _ => a1⟩, ⟨fun _ => a3, fun _ => a1⟩⟩
  · refine ⟨⟨fun h => by omega, fun h => absurd b3 h⟩, ⟨fun h => by omega, fun h => ?_⟩⟩
    have := h (polled p smba s).2.1 (by rw [b4]; simp)
    exact absurd b3 this

/-! ## The ready check and the arming -/

theorem or_start_bit (c : Nat) (hc : c < 256) : (c ||| 0x040) % 256 = c ||| 0x040 :=
  Nat.mod_eq_of_lt (Nat.or_lt_two_pow (n := 8) hc (by decide))

/-- The ready check: one status read when it returns 0, else that read, the write-back
of the value and a second status read, whose value is the `temp` returned. -/
theorem host_ready_shape {σ : Type} (p : Ports σ) (smba : Nat) (s : Sys σ) :
    ((inb_p p (SMBHSTSTS smba) s).1 = 0 ∧ (host_ready p smba s).1 = 0 ∧
      (host_ready p smba s).2.log = s.log ++ [PortEvent.read (SMBHSTSTS smba) 0]) ∨
    ((inb_p p (SMBHSTSTS smba) s).1 ≠ 0 ∧
      (host_ready p smba s).1 = (inb_p p (SMBHSTSTS smba)
        (outb_p p (inb_p p (SMBHSTSTS smba) s).1 (SMBHSTSTS smba)
          (inb_p p (SMBHSTSTS smba) s).2)).1 ∧
      (host_ready p smba s).2.log
        = s.log ++ [PortEvent.read (SMBHSTSTS smba) (inb_p p (SMBHSTSTS smba) s).1,
            PortEvent.write (SMBHSTSTS smba) (inb_p p (SMBHSTSTS smba) s).1,
            PortEvent.read (SMBHSTSTS smba) (host_ready p smba s).1]) := by
  have hlt := inb_p_lt p (SMBHSTSTS smba) s
  by_cases h : (inb_p p (SMBHSTSTS smba) s).1 = 0
  · left
    have e : host_ready p smba s = inb_p p (SMBHSTSTS smba) s := by
      simp [host_ready, h]
    refine ⟨h, by rw [e, h], ?_⟩
    rw [e, inb_p_log, h]
  · right
    have e : host_ready p smba s = inb_p p (SMBHSTSTS smba)
        (outb_p p (inb_p p (SMBHSTSTS smba) s).1 (SMBHSTSTS smba)
          (inb_p p (SMBHSTSTS smba) s).2) := by
      simp [host_ready, h]
    refine ⟨h, by rw [e], ?_⟩
    rw [e, inb_p_log, outb_p_log, inb_p_log, Nat.mod_eq_of_lt hlt]
    simp

/-- Arming: one read of the control register and one write of the value read with the
start bit set. -/
theorem armed_log {σ : Type} (p : Ports σ) (smba : Nat) (s : Sys σ) :
    (armed p smba s).log = (host_ready p smba s).2.log ++
      [PortEvent.read (SMBHSTCNT smba) (inb_p p (SMBHSTCNT smba) (host_ready p smba s).2).1,
       PortEvent.write (SMBHSTCNT smba)
        ((inb_p p (SMBHSTCNT smba) (host_ready p smba s).2).1 ||| 0x040)] := by
  simp only [armed, start_transaction, outb_p_log, inb_p_log,
    or_start_bit _ (inb_p_lt p _ _), List.append_assoc, List.singleton_append]

/-- After arming, a transaction only accesses the status register. -/
theorem transaction_after_armed {σ : Type} (p : Ports σ) (smba : Nat) (s : Sys σ)
    (hready : (host_ready p smba s).1 = 0) :
    (smbus_piix4_transaction p smba s).2.log
      = (polled p smba s).2.2.log ++
        ((smbus_piix4_transaction p smba s).2.log.drop (polled p smba s).2.2.log.length) ∧
    ∀ e ∈ (smbus_piix4_transaction p smba s).2.log.drop (polled p smba s).2.2.log.length,
      e.port = SMBHSTSTS smba := by
  have hr : ∀ v, (fun e : PortEvent => e.port = SMBHSTSTS smba)
      (PortEvent.read (SMBHSTSTS smba) v) := fun _ => rfl
  have hw : ∀ v, (fun e : PortEvent => e.port = SMBHSTSTS smba)
      (PortEvent.write (SMBHSTSTS smba) v) := fun _ => rfl
  have hext : Extends (fun e => e.port = SMBHSTSTS smba) (polled p smba s).2.2.log
      (end_reset p smba (polled p smba s).2.2).log := by
    simp only [end_reset]
    split_ifs
    · exact (((Extends.by_read p _ _ hr).trans (Extends.by_read p _ _ hr)).trans
        (Extends.by_write p _ _ _ hw)).trans (Extends.by_read p _ _ hr)
    · exact (Extends.by_read p _ _ hr).trans (Extends.by_read p _ _ hr)
  have ht : (smbus_piix4_transaction p smba s).2 = end_reset p smba (polled p smba s).2.2 := by
    simp [smbus_piix4_transaction, hready]
  obtain ⟨evs, h1, h2⟩ := hext
  rw [ht, h1, List.drop_left]
  exact ⟨rfl, h2⟩

/-- A transaction that finds the host ready does not return -EBUSY. -/
theorem transaction_ready_status {σ : Type} (p : Ports σ) (smba : Nat) (s : Sys σ)
    (hready : (host_ready p smba s).1 = 0) :
    (smbus_piix4_transaction p smba s).1 ≠ -EBUSY := by
  simp only [smbus_piix4_transaction, decode_status, hready]
  split_ifs <;> simp_all

/-- The status of a transaction that finds the host ready is a function of the last
status byte polled. -/
theorem transaction_status_of_temp {σ : Type} (p : Ports σ) (smba : Nat) (s : Sys σ)
    (hready : (host_ready p smba s).1 = 0) :
    (smbus_piix4_transaction p smba s).1
      = decode_status (if (polled p smba s).2.1 &&& 0x01 ≠ 0 then MAX_TIMEOUT else 0)
          (polled p smba s).2.1 := by
  have hcap := (polled_cap_iff p smba s).1
  have ht : (smbus_piix4_transaction p smba s).1
      = decode_status (polled p smba s).1 (polled p smba s).2.1 := by
    simp [smbus_piix4_transaction, hready]
  rw [ht]
  by_cases h : (polled p smba s).2.1 &&& 0x01 ≠ 0
  · rw [if_pos h, hcap.mpr h]
  · rw [if_neg h]
    have hne : (polled p smba s).1 ≠ MAX_TIMEOUT := fun g => h (hcap.mp g)
    simp only [decode_status, hne, if_false]
    rfl

/-- The recorder at the point where the status is decided: three accesses when the
host is stuck, else at least four, the last one being the last poll. -/
theorem decided_shape {σ : Type} (p : Ports σ) (smba : Nat) (s : Sys σ) :
    ∃ evs, decided_log p smba s = s.log ++ evs ∧
      (((host_ready p smba s).1 ≠ 0 ∧ evs.length = 3) ∨
        ((host_ready p smba s).1 = 0 ∧ 4 ≤ evs.length ∧
          evs.getLast? = some (PortEvent.read (SMBHSTSTS smba) (polled p smba s).2.1))) := by
  by_cases hst : (host_ready p smba s).1 = 0
  · have hd : decided_log p smba s = (polled p smba s).2.2.log := by
      simp [decided_log, hst]
    obtain ⟨init, hinit⟩ := List.getLast?_eq_some_iff.mp (polled_temp_last p smba s)
    have hpl := (polled_char p smba s).1
    rw [armed_log, hinit] at hpl
    rcases host_ready_shape p smba s with ⟨_, _, z3⟩ | ⟨_, _, n3⟩
    · rw [z3, List.append_assoc, List.append_assoc] at hpl
      refine ⟨_, hd.trans hpl, Or.inr ⟨hst, ?_, ?_⟩⟩
      · simp
      · rw [List.map_append, ← List.append_assoc, ← List.append_assoc]
        exact List.getLast?_concat _
    · rw [n3, List.append_assoc, List.append_assoc] at hpl
      refine ⟨_, hd.trans hpl, Or.inr ⟨hst, ?_, ?_⟩⟩
      · simp
      · rw [List.map_append, ← List.append_assoc, ← List.append_assoc]
        exact List.getLast?_concat _
  · have hd : decided_log p smba s = (host_ready p smba s).2.log := by
      simp [decided_log, hst]
    rcases host_ready_shape p smba s with ⟨_, z2, _⟩ | ⟨_, _, n3⟩
    · exact absurd z2 hst
    · exact ⟨_, hd.trans n3, Or.inl ⟨hst, rfl⟩⟩

/-! ## Byte operations -/

/-- An access of the engine is not a write to the Command, Address, Data0, Data1 or
BlockData register. -/
theorem engine_port_not_write (smba : Nat) (e : PortEvent) (h : EnginePort smba e) :
    e.isWriteTo (SMBHSTCMD smba) = false ∧ e.isWriteTo (SMBHSTADD smba) = false ∧
    e.isWriteTo (SMBHSTDAT0 smba) = false ∧ e.isWriteTo (SMBHSTDAT1 smba) = false ∧
    e.isWriteTo (SMBBLKDAT smba) = false := by
  cases e with
  | read q v => simp [PortEvent.isWriteTo]
  | write q v =>
    have hq : q = SMBHSTSTS smba ∨ q = SMBHSTCNT smba := h
    rcases hq with rfl | rfl <;>
      simp [PortEvent.isWriteTo, SMBHSTSTS, SMBHSTCNT, SMBHSTCMD, SMBHSTADD, SMBHSTDAT0,
        SMBHSTDAT1, SMBBLKDAT]

theorem addr_byte (addr rw : Nat) (haddr : addr < 128) (hrw : rw < 2) :
    ((addr <<< 1) ||| rw) % 256 = (addr <<< 1) ||| rw := by
  have key : ∀ a < 128, ∀ r < 2, ((a <<< 1) ||| r) % 256 = (a <<< 1) ||| r := by decide
  exact key addr haddr rw hrw

/-- The first switch on a Byte write: Address, then Command. -/
theorem transfer_setup_byte_write {σ : Type} (p : Ports σ) (smba addr command : Nat)
    (s : Sys σ) :
    transfer_setup p smba addr I2C_SMBUS_WRITE command I2C_SMBUS_BYTE s
      = (Except.ok PIIX4_BYTE, outb_p p command (SMBHSTCMD smba)
          (outb_p p ((addr <<< 1) ||| I2C_SMBUS_WRITE) (SMBHSTADD smba) s)) := by
  simp [transfer_setup]

/-- The first switch on a Byte read: Address only. -/
theorem transfer_setup_byte_read {σ : Type} (p : Ports σ) (smba addr command : Nat)
    (s : Sys σ) :
    transfer_setup p smba addr I2C_SMBUS_READ command I2C_SMBUS_BYTE s
      = (Except.ok PIIX4_BYTE,
          outb_p p ((addr <<< 1) ||| I2C_SMBUS_READ) (SMBHSTADD smba) s) := by
  simp [transfer_setup]

/-- The second switch on a Byte read: one read of Data0, stored in `data->byte`. -/
theorem transfer_readback_byte {σ : Type} (p : Ports σ) (smba : Nat) (s : Sys σ) :
    transfer_readback p smba PIIX4_BYTE s
      = (0, wr_block 0 (inb_p p (SMBHSTDAT0 smba) s).1 (inb_p p (SMBHSTDAT0 smba) s).2) := by
  simp [transfer_readback]

/-! ## Size codes and the start bit -/

/-- The code that the first switch leaves in `size`, for each accepted kind. -/
theorem transfer_setup_code {σ : Type} (p : Ports σ) (smba addr read_write command : Nat)
    (size : Int) (s : Sys σ) (c : Nat)
    (h : (transfer_setup p smba addr read_write command size s).1 = Except.ok c) :
    (size = I2C_SMBUS_QUICK ∧ c = PIIX4_QUICK) ∨ (size = I2C_SMBUS_BYTE ∧ c = PIIX4_BYTE) ∨
    (size = I2C_SMBUS_BYTE_DATA ∧ c = PIIX4_BYTE_DATA) ∨
    (size = I2C_SMBUS_WORD_DATA ∧ c = PIIX4_WORD_DATA) ∨
    (size = I2C_SMBUS_BLOCK_DATA ∧ c = PIIX4_BLOCK_DATA) := by
  simp only [transfer_setup] at h
  split_ifs at h
  all_goals first
    | (cases h; done)
    | (injection h with h; subst h; simp_all)

/-- The second switch fails for the BlockData code only. -/
theorem transfer_readback_failure_code {σ : Type} (p : Ports σ) (smba c : Nat) (s : Sys σ)
    (hfail : (transfer_readback p smba c s).1 ≠ 0) : c = PIIX4_BLOCK_DATA := by
  simp only [transfer_readback] at hfail
  split_ifs at hfail with h1 h2 h3 h4 h5
  · exact absurd rfl hfail
  · exact absurd rfl hfail
  · exact h3
  · exact h3
  · exact h3
  · exact absurd rfl hfail

/-- The first switch yields the BlockData code for the BlockData kind only. -/
theorem transfer_setup_block_code {σ : Type} (p : Ports σ) (smba addr read_write command : Nat)
    (size : Int) (s : Sys σ)
    (h : (transfer_setup p smba addr read_write command size s).1 = Except.ok PIIX4_BLOCK_DATA) :
    size = I2C_SMBUS_BLOCK_DATA := by
  rcases transfer_setup_code p smba addr read_write command size s _ h
    with ⟨_, g⟩ | ⟨_, g⟩ | ⟨_, g⟩ | ⟨_, g⟩ | ⟨g, _⟩
  · exact absurd g (by decide)
  · exact absurd g (by decide)
  · exact absurd g (by decide)
  · exact absurd g (by decide)
  · exact g

/-- Setting bit 6 changes no other bit. -/
theorem or_start_bit_testBit (r i : Nat) :
    (r ||| 0x40).testBit i = if i = 6 then true else r.testBit i := by
  rw [Nat.testBit_or, show (0x40 : Nat) = 2 ^ 6 from rfl, Nat.testBit_two_pow]
  by_cases h : i = 6
  · subst h; simp
  · have h' : ¬ 6 = i := fun g => h g.symm
    simp [h, h']

/-- A transaction that finds the host ready: the ready check, then the read of Control
and the write of the value read with the start bit set, then the rest. -/
theorem transaction_ready_log {σ : Type} (p : Ports σ) (smba : Nat) (s : Sys σ)
    (hready : (host_ready p smba s).1 = 0) :
    ∃ pre rest, (∀ e ∈ pre, e.port = SMBHSTSTS smba) ∧
      (host_ready p smba s).2.log = s.log ++ pre ∧
      (smbus_piix4_transaction p smba s).2.log
        = s.log ++ pre ++
          [PortEvent.read (SMBHSTCNT smba) (inb_p p (SMBHSTCNT smba) (host_ready p smba s).2).1,
           PortEvent.write (SMBHSTCNT smba)
            ((inb_p p (SMBHSTCNT smba) (host_ready p smba s).2).1 ||| 0x40)] ++ rest := by
  obtain ⟨h1, _⟩ := transaction_after_armed p smba s hready
  obtain ⟨h2, _⟩ := polled_char p smba s
  have hall : (smbus_piix4_transaction p smba s).2.log
      = (host_ready p smba s).2.log ++
        [PortEvent.read (SMBHSTCNT smba) (inb_p p (SMBHSTCNT smba) (host_ready p smba s).2).1,
         PortEvent.write (SMBHSTCNT smba)
          ((inb_p p (SMBHSTCNT smba) (host_ready p smba s).2).1 ||| 0x40)] ++
        ((polls p smba s).map (PortEvent.read (SMBHSTSTS smba)) ++
          (smbus_piix4_transaction p smba s).2.log.drop (polled p smba s).2.2.log.length) := by
    rw [← armed_log, ← List.append_assoc, ← h2]
    exact h1
  rcases host_ready_shape p smba s with ⟨_, _, z3⟩ | ⟨_, _, n3⟩
  · refine ⟨_, _, ?_, z3, by rw [hall, z3]⟩
    intro e he
    simp only [List.mem_singleton] at he
    rw [he]; rfl
  · refine ⟨_, _, ?_, n3, by rw [hall, n3]⟩
    intro e he
    simp only [List.mem_cons, List.mem_singleton, List.not_mem_nil, or_false] at he
    rcases he with rfl | rfl | rfl <;> rfl

/-! ## Indices of the caller bytes -/

theorem idxExtends_refl (Q : Nat → Prop) (l : List Nat) : IdxExtends Q l l :=
  ⟨[], by simp, by simp⟩

theorem idxExtends_trans {Q : Nat → Prop} {l0 l1 l2 : List Nat}
    (h1 : IdxExtends Q l0 l1) (h2 : IdxExtends Q l1 l2) : IdxExtends Q l0 l2 := by
  obtain ⟨e1, rfl, q1⟩ := h1
  obtain ⟨e2, rfl, q2⟩ := h2
  refine ⟨e1 ++ e2, by simp, ?_⟩
  intro e he
  rcases List.mem_append.mp he with h | h
  · exact q1 e h
  · exact q2 e h

theorem idxExtends_of_eq {Q : Nat → Prop} {l0 l1 : List Nat} (h : l1 = l0) :
    IdxExtends Q l0 l1 := by
  rw [h]; exact idxExtends_refl Q l0

theorem idxExtends_by_rd_block {σ : Type} {Q : Nat → Prop} (i : Nat) (s : Sys σ) (h : Q i) :
    IdxExtends Q s.idx (rd_block i s).2.idx :=
  ⟨[i], rfl, by simpa using h⟩

theorem idxExtends_by_wr_block {σ : Type} {Q : Nat → Prop} (i v : Nat) (s : Sys σ) (h : Q i) :
    IdxExtends Q s.idx (wr_block i v s).idx :=
  ⟨[i], rfl, by simpa using h⟩

theorem idxExtends_by_rd_word {σ : Type} {Q : Nat → Prop} (s : Sys σ) (h0 : Q 0) (h1 : Q 1) :
    IdxExtends Q s.idx (rd_word s).2.idx :=
  ⟨[0, 1], rfl, by simp [h0, h1]⟩

theorem idxExtends_by_wr_word {σ : Type} {Q : Nat → Prop} (v : Nat) (s : Sys σ)
    (h0 : Q 0) (h1 : Q 1) : IdxExtends Q s.idx (wr_word v s).idx :=
  ⟨[0, 1], rfl, by simp [h0, h1]⟩

theorem host_ready_idx {σ : Type} (p : Ports σ) (smba : Nat) (s : Sys σ) :
    (host_ready p smba s).2.idx = s.idx := by
  simp only [host_ready]
  split_ifs <;> simp

theorem start_transaction_idx {σ : Type} (p : Ports σ) (smba : Nat) (s : Sys σ) :
    (start_transaction p smba s).idx = s.idx := by
  simp [start_transaction]

theorem poll_loop_idx {σ : Type} (p : Ports σ) (smba : Nat) (fuel : Nat) :
    ∀ (timeout temp : Nat) (s : Sys σ),
      (poll_loop p smba fuel timeout temp s).2.2.idx = s.idx := by
  induction fuel with
  | zero => intro timeout temp s; rfl
  | succ n ih =>
    intro timeout temp s
    simp only [poll_loop]
    split_ifs
    · rw [ih]; simp
    · simp
    · rfl

theorem end_reset_idx {σ : Type} (p : Ports σ) (smba : Nat) (s : Sys σ) :
    (end_reset p smba s).idx = s.idx := by
  simp only [end_reset]
  split_ifs <;> simp

/-- The engine accesses no caller byte. -/
theorem transaction_idx {σ : Type} (p : Ports σ) (smba : Nat) (s : Sys σ) :
    (smbus_piix4_transaction p smba s).2.idx = s.idx := by
  unfold smbus_piix4_transaction
  split_ifs
  · exact host_ready_idx p smba s
  · simp only [end_reset_idx, polled, armed, poll_loop_idx, start_transaction_idx,
      host_ready_idx]

/-- The write loop started at `i` accesses the indices `i, ..., len` only. -/
theorem block_out_loop_idx {σ : Type} (p : Ports σ) (smba len : Nat) (fuel : Nat) :
    ∀ (i : Nat) (s : Sys σ),
      IdxExtends (fun j => j ≤ len) s.idx (block_out_loop p smba len fuel i s).idx := by
  induction fuel with
  | zero => intro i s; exact idxExtends_refl _ _
  | succ n ih =>
    intro i s
    simp only [block_out_loop]
    split_ifs with h
    · refine idxExtends_trans ?_ (ih _ _)
      rw [outb_p_idx]
      exact idxExtends_by_rd_block i s h
    · exact idxExtends_refl _ _

/-- The read loop started at `i ≥ 1` accesses index 0 and indices up to the length byte
held in `block[0]`, which it never overwrites. -/
theorem block_in_loop_idx {σ : Type} (p : Ports σ) (smba : Nat) (fuel : Nat) :
    ∀ (i : Nat) (s : Sys σ), 1 ≤ i →
      IdxExtends (fun j => j ≤ s.block.getD 0 0 % 256) s.idx
        (block_in_loop p smba fuel i s).idx := by
  induction fuel with
  | zero => intro i s _; exact idxExtends_refl _ _
  | succ n ih =>
    intro i s hi
    simp only [block_in_loop]
    split_ifs with h
    · have h0 : (wr_block i (inb_p p (SMBBLKDAT smba) (rd_block 0 s).2).1
          (inb_p p (SMBBLKDAT smba) (rd_block 0 s).2).2).block.getD 0 0
          = s.block.getD 0 0 := by
        rw [wr_block_block, inb_p_block, rd_block_block]
        exact getD_set_ne _ _ _ _ (by omega)
      have step := ih (i + 1) (wr_block i (inb_p p (SMBBLKDAT smba) (rd_block 0 s).2).1
          (inb_p p (SMBBLKDAT smba) (rd_block 0 s).2).2) (by omega)
      rw [h0] at step
      refine idxExtends_trans ?_ step
      refine idxExtends_trans (idxExtends_by_rd_block 0 s (Nat.zero_le _)) ?_
      have hw := idxExtends_by_wr_block (Q := fun j => j ≤ s.block.getD 0 0 % 256) i
        (inb_p p (SMBBLKDAT smba) (rd_block 0 s).2).1
        (inb_p p (SMBBLKDAT smba) (rd_block 0 s).2).2 h
      rw [inb_p_idx] at hw
      exact hw
    · exact idxExtends_by_rd_block 0 s (Nat.zero_le _)

theorem idxExtends_mono {Q R : Nat → Prop} {l0 l1 : List Nat} (h : IdxExtends Q l0 l1)
    (hqr : ∀ i, Q i → R i) : IdxExtends R l0 l1 := by
  obtain ⟨e, he, q⟩ := h
  exact ⟨e, he, fun i hi => hqr i (q i hi)⟩

/-- The first switch accesses indices up to `I2C_SMBUS_BLOCK_MAX` only. -/
theorem transfer_setup_idx {σ : Type} (p : Ports σ) (smba addr read_write command : Nat)
    (size : Int) (s : Sys σ) :
    IdxExtends (fun j => j ≤ I2C_SMBUS_BLOCK_MAX) s.idx
      (transfer_setup p smba addr read_write command size s).2.idx := by
  simp only [transfer_setup]
  split_ifs with c0 c1 cw1 c2 cw2 c3 cw3 c5 cw5 clen
  · exact idxExtends_of_eq rfl
  · exact idxExtends_of_eq rfl
  · exact idxExtends_of_eq rfl
  · exact ⟨[0], rfl, by simp⟩
  · exact idxExtends_of_eq rfl
  · exact ⟨[0, 1, 0, 1], by simp [rd_word, outb_p], by simp⟩
  · exact idxExtends_of_eq rfl
  · exact ⟨[0], rfl, by simp⟩
  · have hlen : (rd_block 0 (outb_p p command (SMBHSTCMD smba)
        (outb_p p ((addr <<< 1) ||| read_write) (SMBHSTADD smba) s))).1 ≤ 32 := by
      have := not_or.mp clen
      have h32 : I2C_SMBUS_BLOCK_MAX = 32 := rfl
      rw [h32] at this
      omega
    refine idxExtends_trans ⟨[0], rfl, by simp⟩
      (idxExtends_mono (block_out_loop_idx p smba _ _ _ _) ?_)
    intro i hi
    exact le_trans hi hlen
  · exact idxExtends_of_eq rfl
  · exact idxExtends_of_eq rfl

/-- The first switch leaves the length of the caller buffer unchanged. -/
theorem transfer_setup_length {σ : Type} (p : Ports σ) (smba addr read_write command : Nat)
    (size : Int) (s : Sys σ) :
    (transfer_setup p smba addr read_write command size s).2.block.length = s.block.length := by
  rw [transfer_setup_block]

theorem block_in_loop_length {σ : Type} (p : Ports σ) (smba : Nat) (fuel : Nat) :
    ∀ (i : Nat) (s : Sys σ), (block_in_loop p smba fuel i s).block.length = s.block.length := by
  induction fuel with
  | zero => intro i s; rfl
  | succ n ih =>
    intro i s
    simp only [block_in_loop]
    split_ifs
    · rw [ih]; simp
    · rfl

theorem transfer_readback_length {σ : Type} (p : Ports σ) (smba size : Nat) (s : Sys σ) :
    (transfer_readback p smba size s).2.block.length = s.block.length := by
  simp only [transfer_readback]
  split_ifs <;> simp [block_in_loop_length, wr_word]

/-- The second switch accesses indices up to `I2C_SMBUS_BLOCK_MAX` only. -/
theorem transfer_readback_idx {σ : Type} (p : Ports σ) (smba size : Nat) (s : Sys σ) :
    IdxExtends (fun j => j ≤ I2C_SMBUS_BLOCK_MAX) s.idx
      (transfer_readback p smba size s).2.idx := by
  simp only [transfer_readback]
  split_ifs with c1 c3 c5 cz cbig
  · exact ⟨[0], rfl, by simp⟩
  · exact ⟨[0, 1], rfl, by simp⟩
  · exact ⟨[0, 0], by simp [rd_block, wr_block, inb_p], by simp⟩
  · exact ⟨[0, 0, 0], by simp [rd_block, wr_block, inb_p], by simp⟩
  · refine idxExtends_trans ⟨[0, 0, 0], by simp [rd_block, wr_block, inb_p], by simp⟩
      (idxExtends_mono (block_in_loop_idx p smba _ 1 _ (le_refl 1)) ?_)
    intro i hi
    have hb : ¬ (rd_block 0 (rd_block 0 (wr_block 0 (inb_p p (SMBHSTDAT0 smba) s).1
        (inb_p p (SMBHSTDAT0 smba) s).2)).2).1 > I2C_SMBUS_BLOCK_MAX := cbig
    simp only [rd_block, inb_p_block, rd_block_block] at hb hi ⊢
    exact le_trans hi (not_lt.mp hb)
  · exact idxExtends_of_eq rfl

/-- Every index at which a transfer accesses the caller bytes is at most
`I2C_SMBUS_BLOCK_MAX`. -/
theorem transfer_idx {σ : Type} (p : Ports σ) (adapter : Option smbus_context)
    (addr flags read_write command : Nat) (size : Int) (s : Sys σ) :
    IdxExtends (fun j => j ≤ I2C_SMBUS_BLOCK_MAX) s.idx
      (smbus_piix4_transfer p adapter addr flags read_write command size s).2.idx := by
  cases adapter with
  | none => exact idxExtends_of_eq rfl
  | some context =>
    have hset := transfer_setup_idx p context.smba addr read_write command size s
    cases hs : (transfer_setup p context.smba addr read_write command size s).1 with
    | error e =>
      rw [transfer_of_setup_error p context addr flags read_write command size s e hs]
      exact hset
    | ok c =>
      rw [transfer_of_setup_ok p context addr flags read_write command size s c hs]
      have htr : (smbus_piix4_transaction p context.smba (transfer_program p context.smba c
          (transfer_setup p context.smba addr read_write command size s).2)).2.idx
          = (transfer_setup p context.smba addr read_write command size s).2.idx := by
        rw [transaction_idx, transfer_program, outb_p_idx]
      split_ifs
      · rw [htr]; exact hset
      · show IdxExtends _ _ (smbus_piix4_transaction p context.smba _).2.idx
        rw [htr]; exact hset
      · refine idxExtends_trans hset ?_
        rw [← htr]
        exact transfer_readback_idx p context.smba c _

/-- A transfer leaves the length of the caller buffer unchanged. -/
theorem transfer_length {σ : Type} (p : Ports σ) (adapter : Option smbus_context)
    (addr flags read_write command : Nat) (size : Int) (s : Sys σ) :
    (smbus_piix4_transfer p adapter addr flags read_write command size s).2.block.length
      = s.block.length := by
  cases adapter with
  | none => rfl
  | some context =>
    have hset := transfer_setup_length p context.smba addr read_write command size s
    cases hs : (transfer_setup p context.smba addr read_write command size s).1 with
    | error e =>
      rw [transfer_of_setup_error p context addr flags read_write command size s e hs]
      exact hset
    | ok c =>
      rw [transfer_of_setup_ok p context addr flags read_write command size s c hs]
      have htr : (smbus_piix4_transaction p context.smba (transfer_program p context.smba c
          (transfer_setup p context.smba addr read_write command size s).2)).2.block.length
          = s.block.length := by
        rw [transaction_block, transfer_program]
        exact hset
      split_ifs
      · exact htr
      · exact htr
      · rw [transfer_readback_length]; exact htr

/-! ## Theorems -/

/-- C1, as stated, fails: after a poll that returns 0x14 (failed-transaction and
no-response bits) the engine returns - ENXIO, not - EIO, and likewise after a poll that
returns 0x0C (bus-collision and no-response bits). -/
theorem c1_precedence_counterexample :
    ((polled (fixedStatus 0 0x14) 0 (Sys.init false [])).2.1 = 0x14 ∧
      (smbus_piix4_transaction (fixedStatus 0 0x14) 0 (Sys.init false [])).1 = - ENXIO ∧
      (smbus_piix4_transaction (fixedStatus 0 0x14) 0 (Sys.init false [])).1 ≠ - EIO) ∧
    ((polled (fixedStatus 0 0x0C) 0 (Sys.init false [])).2.1 = 0x0C ∧
      (smbus_piix4_transaction (fixedStatus 0 0x0C) 0 (Sys.init false [])).1 = - ENXIO ∧
      (smbus_piix4_transaction (fixedStatus 0 0x0C) 0 (Sys.init false [])).1 ≠ - EIO) := by
  decide

/-- C1, amended: when the host is ready, the engine decodes the last polled status byte
with the precedence no-response (0x04) over bus-collision (0x08) and failed-transaction
(0x10), both - EIO, over Timeout over Success; a stuck host gives -EBUSY. -/
theorem c1_status_precedence {σ : Type} (p : Ports σ) (smba : Nat) (s : Sys σ) :
    (smbus_piix4_transaction p smba s).1 =
      if (host_ready p smba s).1 ≠ 0 then -EBUSY
      else if (polled p smba s).2.1 &&& 0x04 ≠ 0 then - ENXIO
      else if (polled p smba s).2.1 &&& 0x08 ≠ 0 ∨ (polled p smba s).2.1 &&& 0x10 ≠ 0 then - EIO
      else if (polled p smba s).1 = MAX_TIMEOUT then -ETIMEDOUT
      else 0 := by
  unfold smbus_piix4_transaction decode_status
  split_ifs <;> simp_all
  tauto

/-- C2, as stated, fails: a BlockData write with length byte 0 returns -EINVAL after
the Address and Command registers have been written. -/
theorem c2_block_write_counterexample :
    (smbus_piix4_transfer (fixedStatus 0x0B20 0) (some ⟨0x0B20⟩) 0x50 0 I2C_SMBUS_WRITE 7
        I2C_SMBUS_BLOCK_DATA (Sys.init false [0, 1, 2])).1 = -EINVAL ∧
    (smbus_piix4_transfer (fixedStatus 0x0B20 0) (some ⟨0x0B20⟩) 0x50 0 I2C_SMBUS_WRITE 7
        I2C_SMBUS_BLOCK_DATA (Sys.init false [0, 1, 2])).2.log =
      [PortEvent.write 0x0B24 0xA0, PortEvent.write 0x0B23 7] ∧
    (smbus_piix4_transfer (fixedStatus 0x0B20 0) (some ⟨0x0B20⟩) 0x50 0 I2C_SMBUS_WRITE 7
        I2C_SMBUS_BLOCK_DATA (Sys.init false [0, 1, 2])).2.log ≠ [] := by
  decide

/-- C2, amended: a BlockData write whose length byte `data->block[0]` is 0 or greater
than 32 returns -EINVAL, and the port accesses of the call are exactly two writes:
`(addr << 1) | read_write` to the Address register, then `command` to the Command
register.  The caller bytes are unchanged. -/
theorem c2_block_write_bad_length {σ : Type} (p : Ports σ) (context : smbus_context)
    (addr flags command : Nat) (s : Sys σ)
    (hlen : (rd_block 0 s).1 = 0 ∨ (rd_block 0 s).1 > I2C_SMBUS_BLOCK_MAX) :
    (smbus_piix4_transfer p (some context) addr flags I2C_SMBUS_WRITE command
        I2C_SMBUS_BLOCK_DATA s).1 = -EINVAL ∧
    (smbus_piix4_transfer p (some context) addr flags I2C_SMBUS_WRITE command
        I2C_SMBUS_BLOCK_DATA s).2.log =
      s.log ++ [PortEvent.write (SMBHSTADD context.smba) (((addr <<< 1) ||| I2C_SMBUS_WRITE) % 256),
                PortEvent.write (SMBHSTCMD context.smba) (command % 256)] ∧
    (smbus_piix4_transfer p (some context) addr flags I2C_SMBUS_WRITE command
        I2C_SMBUS_BLOCK_DATA s).2.block = s.block := by
  have h : s.block[0]?.getD 0 % 256 = 0 ∨ I2C_SMBUS_BLOCK_MAX < s.block[0]?.getD 0 % 256 := by
    simpa [rd_block] using hlen
  simp [smbus_piix4_transfer, transfer_setup, rd_block, outb_p, h]

/-- Witness for `c2_block_write_bad_length`: length byte 33. -/
theorem c2_block_write_bad_length_witness :
    (smbus_piix4_transfer (fixedStatus 0x0B20 0) (some ⟨0x0B20⟩) 0x50 0 I2C_SMBUS_WRITE 7
        I2C_SMBUS_BLOCK_DATA (Sys.init false [33, 1, 2])).1 = -EINVAL ∧
    (smbus_piix4_transfer (fixedStatus 0x0B20 0) (some ⟨0x0B20⟩) 0x50 0 I2C_SMBUS_WRITE 7
        I2C_SMBUS_BLOCK_DATA (Sys.init false [33, 1, 2])).2.log =
      (Sys.init false [33, 1, 2]).log ++
        [PortEvent.write (SMBHSTADD 0x0B20) (((0x50 <<< 1) ||| I2C_SMBUS_WRITE) % 256),
         PortEvent.write (SMBHSTCMD 0x0B20) (7 % 256)] ∧
    (smbus_piix4_transfer (fixedStatus 0x0B20 0) (some ⟨0x0B20⟩) 0x50 0 I2C_SMBUS_WRITE 7
        I2C_SMBUS_BLOCK_DATA (Sys.init false [33, 1, 2])).2.block =
      (Sys.init false [33, 1, 2]).block :=
  c2_block_write_bad_length (fixedStatus 0x0B20 0) ⟨0x0B20⟩ 0x50 0 7 (Sys.init false [33, 1, 2])
    (by decide)

/-- C5: a size that is none of the five recognised kinds makes the transfer return
-EOPNOTSUPP with the whole state unchanged: no port read, no port write, no access to
the caller bytes. -/
theorem c5_unsupported_size {σ : Type} (p : Ports σ) (context : smbus_context)
    (addr flags read_write command : Nat) (size : Int) (s : Sys σ)
    (hsize : size ≠ I2C_SMBUS_QUICK ∧ size ≠ I2C_SMBUS_BYTE ∧ size ≠ I2C_SMBUS_BYTE_DATA ∧
      size ≠ I2C_SMBUS_WORD_DATA ∧ size ≠ I2C_SMBUS_BLOCK_DATA) :
    smbus_piix4_transfer p (some context) addr flags read_write command size s
      = (-EOPNOTSUPP, s) := by
  obtain ⟨h0, h1, h2, h3, h5⟩ := hsize
  simp [smbus_piix4_transfer, transfer_setup, h0, h1, h2, h3, h5]

/-- Witness for `c5_unsupported_size`: size 4 (`I2C_SMBUS_PROC_CALL`). -/
theorem c5_unsupported_size_witness :
    smbus_piix4_transfer (fixedStatus 0x0B20 0) (some ⟨0x0B20⟩) 0x50 0 I2C_SMBUS_READ 7 4
        (Sys.init false [1, 2, 3])
      = (-EOPNOTSUPP, Sys.init false [1, 2, 3]) :=
  c5_unsupported_size (fixedStatus 0x0B20 0) ⟨0x0B20⟩ 0x50 0 I2C_SMBUS_READ 7 4
    (Sys.init false [1, 2, 3]) (by decide)

/-- C3: for an operation accepted by the first switch whose transaction finds the host
ready, if every status byte read by the poll loop has the in-progress bit 0x01 set and
the last polled byte has none of the bits 0x10, 0x08, 0x04 set, the transfer returns
-ETIMEDOUT. -/
theorem c3_timeout {σ : Type} (p : Ports σ) (context : smbus_context)
    (addr flags read_write command : Nat) (size : Int) (s : Sys σ) (c : Nat)
    (hsetup : (transfer_setup p context.smba addr read_write command size s).1 = Except.ok c)
    (hready : (host_ready p context.smba (transfer_program p context.smba c
      (transfer_setup p context.smba addr read_write command size s).2)).1 = 0)
    (hbusy : ∀ e ∈ (polled p context.smba (transfer_program p context.smba c
        (transfer_setup p context.smba addr read_write command size s).2)).2.2.log.drop
        (armed p context.smba (transfer_program p context.smba c
          (transfer_setup p context.smba addr read_write command size s).2)).log.length,
      e.value &&& 0x01 ≠ 0)
    (hlast : (polled p context.smba (transfer_program p context.smba c
        (transfer_setup p context.smba addr read_write command size s).2)).2.1 &&& 0x10 = 0 ∧
      (polled p context.smba (transfer_program p context.smba c
        (transfer_setup p context.smba addr read_write command size s).2)).2.1 &&& 0x08 = 0 ∧
      (polled p context.smba (transfer_program p context.smba c
        (transfer_setup p context.smba addr read_write command size s).2)).2.1 &&& 0x04 = 0) :
    (smbus_piix4_transfer p (some context) addr flags read_write command size s).1
      = -ETIMEDOUT := by
  have htime : (polled p context.smba (transfer_program p context.smba c
      (transfer_setup p context.smba addr read_write command size s).2)).1 = MAX_TIMEOUT :=
    poll_loop_all_busy p context.smba MAX_TIMEOUT 0 _ _ (by omega) (by decide) hbusy
  have hres : (smbus_piix4_transaction p context.smba (transfer_program p context.smba c
      (transfer_setup p context.smba addr read_write command size s).2)).1 = -ETIMEDOUT := by
    obtain ⟨h10, h08, h04⟩ := hlast
    simp [smbus_piix4_transaction, decode_status, hready, htime, h10, h08, h04]
  rw [transfer_of_setup_ok p context addr flags read_write command size s c hsetup]
  rw [if_pos (by rw [hres]; decide)]
  exact hres

set_option maxRecDepth 1000000 in
/-- Witness for `c3_timeout`: a Quick write on a device whose status register reads 0x01
on every read after the start bit has been written. -/
theorem c3_timeout_witness :
    (smbus_piix4_transfer (fixedStatus 0x0B20 0x01) (some ⟨0x0B20⟩) 0x50 0 I2C_SMBUS_WRITE 0
        I2C_SMBUS_QUICK (Sys.init false [])).1 = -ETIMEDOUT :=
  c3_timeout (fixedStatus 0x0B20 0x01) ⟨0x0B20⟩ 0x50 0 I2C_SMBUS_WRITE 0 I2C_SMBUS_QUICK
    (Sys.init false []) PIIX4_QUICK rfl (by decide) (by decide) (by decide)

/-- C10: when the transaction of an accepted operation returns a non-zero status, the
transfer returns that status in the state the transaction left: no port is read or
written after the transaction, whatever the kind and the direction. -/
theorem c10_failure_propagates {σ : Type} (p : Ports σ) (context : smbus_context)
    (addr flags read_write command : Nat) (size : Int) (s : Sys σ) (c : Nat)
    (hsetup : (transfer_setup p context.smba addr read_write command size s).1 = Except.ok c)
    (hfail : (smbus_piix4_transaction p context.smba (transfer_program p context.smba c
      (transfer_setup p context.smba addr read_write command size s).2)).1 ≠ 0) :
    smbus_piix4_transfer p (some context) addr flags read_write command size s
      = smbus_piix4_transaction p context.smba (transfer_program p context.smba c
          (transfer_setup p context.smba addr read_write command size s).2) := by
  rw [transfer_of_setup_ok p context addr flags read_write command size s c hsetup]
  rw [if_pos hfail]

/-- Witness for `c10_failure_propagates`: a ByteData read on a device that answers with
the no-response bit. -/
theorem c10_failure_propagates_witness :
    smbus_piix4_transfer (fixedStatus 0x0B20 0x04) (some ⟨0x0B20⟩) 0x50 0 I2C_SMBUS_READ 7
        I2C_SMBUS_BYTE_DATA (Sys.init false [9])
      = smbus_piix4_transaction (fixedStatus 0x0B20 0x04) 0x0B20
          (transfer_program (fixedStatus 0x0B20 0x04) 0x0B20 PIIX4_BYTE_DATA
            (transfer_setup (fixedStatus 0x0B20 0x04) 0x0B20 0x50 I2C_SMBUS_READ 7
              I2C_SMBUS_BYTE_DATA (Sys.init false [9])).2) :=
  c10_failure_propagates (fixedStatus 0x0B20 0x04) ⟨0x0B20⟩ 0x50 0 I2C_SMBUS_READ 7
    I2C_SMBUS_BYTE_DATA (Sys.init false [9]) PIIX4_BYTE_DATA rfl (by decide)

/-- C4, as stated, fails: a BlockData read on a device whose Data0 register reads 0
returns -EPROTO after `data->block[0]` has been overwritten (5 before, 0 after). -/
theorem c4_payload_counterexample :
    (smbus_piix4_transfer (fixedStatus 0x0B20 0) (some ⟨0x0B20⟩) 0x50 0 I2C_SMBUS_READ 7
        I2C_SMBUS_BLOCK_DATA (Sys.init false (5 :: List.replicate 33 1))).1 = -EPROTO ∧
    (smbus_piix4_transfer (fixedStatus 0x0B20 0) (some ⟨0x0B20⟩) 0x50 0 I2C_SMBUS_READ 7
        I2C_SMBUS_BLOCK_DATA (Sys.init false (5 :: List.replicate 33 1))).2.block
      = 0 :: List.replicate 33 1 ∧
    (smbus_piix4_transfer (fixedStatus 0x0B20 0) (some ⟨0x0B20⟩) 0x50 0 I2C_SMBUS_READ 7
        I2C_SMBUS_BLOCK_DATA (Sys.init false (5 :: List.replicate 33 1))).2.block
      ≠ (Sys.init false (5 :: List.replicate 33 1)).block := by
  decide

/-- C4, amended: when the transfer fails, either the failure is not -EPROTO and the
caller bytes are exactly what they were, or it is -EPROTO; then the operation is a
BlockData operation whose direction is not Write (so Read, for the two directions of an
Operation), the last port access is the read of Data0 that returned a length `n` that
is 0 or greater than 32, and the caller bytes differ from what they were only in
`block[0]`, which holds `n`. -/
theorem c4_failure_payload {σ : Type} (p : Ports σ) (adapter : Option smbus_context)
    (addr flags read_write command : Nat) (size : Int) (s : Sys σ)
    (hbuf : s.block.length = I2C_SMBUS_BLOCK_MAX + 2)
    (hfail : (smbus_piix4_transfer p adapter addr flags read_write command size s).1 ≠ 0) :
    ((smbus_piix4_transfer p adapter addr flags read_write command size s).1 ≠ -EPROTO ∧
      (smbus_piix4_transfer p adapter addr flags read_write command size s).2.block = s.block) ∨
    ((smbus_piix4_transfer p adapter addr flags read_write command size s).1 = -EPROTO ∧
      size = I2C_SMBUS_BLOCK_DATA ∧ read_write ≠ I2C_SMBUS_WRITE ∧
      (read_write = I2C_SMBUS_READ ∨ read_write = I2C_SMBUS_WRITE →
        read_write = I2C_SMBUS_READ) ∧
      ∃ (context : smbus_context) (n : Nat), adapter = some context ∧
        (n = 0 ∨ I2C_SMBUS_BLOCK_MAX < n) ∧
        (smbus_piix4_transfer p adapter addr flags read_write command size s).2.log.getLast?
          = some (PortEvent.read (SMBHSTDAT0 context.smba) n) ∧
        (smbus_piix4_transfer p adapter addr flags read_write command size s).2.block
          = s.block.set 0 n) := by
  cases adapter with
  | none => exact Or.inl ⟨by simp [smbus_piix4_transfer], rfl⟩
  | some context =>
    cases hs : (transfer_setup p context.smba addr read_write command size s).1 with
    | error e =>
      rw [transfer_of_setup_error p context addr flags read_write command size s e hs]
      refine Or.inl ⟨?_, transfer_setup_block p _ _ _ _ _ s⟩
      rcases transfer_setup_error p _ _ _ _ _ s e hs with h | h <;> rw [h] <;> simp
    | ok c =>
      rw [transfer_of_setup_ok p context addr flags read_write command size s c hs] at hfail ⊢
      have hblock : (smbus_piix4_transaction p context.smba (transfer_program p context.smba c
          (transfer_setup p context.smba addr read_write command size s).2)).2.block
            = s.block := by
        rw [transaction_block, transfer_program, outb_p_block, transfer_setup_block]
      split_ifs at hfail ⊢ with h1 h2
      · refine Or.inl ⟨?_, hblock⟩
        rcases transaction_status p context.smba (transfer_program p context.smba c
          (transfer_setup p context.smba addr read_write command size s).2)
          with h | h | h | h | h
        · exact absurd h h1
        all_goals rw [h]; simp
      · exact absurd rfl hfail
      · obtain ⟨h3, h4, h5, h6⟩ := transfer_readback_failure p context.smba c _
          (by rw [hblock, hbuf]; decide) hfail
        have hc := transfer_readback_failure_code p context.smba c _ hfail
        have hsize : size = I2C_SMBUS_BLOCK_DATA :=
          transfer_setup_block_code p context.smba addr read_write command size s (hc ▸ hs)
        have hrw : read_write ≠ I2C_SMBUS_WRITE := fun g => h2 (Or.inl g)
        refine Or.inr ⟨h3, hsize, hrw, ?_, context, _, rfl, h4, ?_, ?_⟩
        · intro g
          rcases g with g | g
          · exact g
          · exact absurd g hrw
        · rw [h6]; simp
        · rw [h5, hblock]

/-- Witness for `c4_failure_payload`: the failing BlockData read of the counterexample. -/
theorem c4_failure_payload_witness :
    ((smbus_piix4_transfer (fixedStatus 0x0B20 0) (some ⟨0x0B20⟩) 0x50 0 I2C_SMBUS_READ 7
        I2C_SMBUS_BLOCK_DATA (Sys.init false (5 :: List.replicate 33 1))).1 ≠ -EPROTO ∧
      (smbus_piix4_transfer (fixedStatus 0x0B20 0) (some ⟨0x0B20⟩) 0x50 0 I2C_SMBUS_READ 7
        I2C_SMBUS_BLOCK_DATA (Sys.init false (5 :: List.replicate 33 1))).2.block
        = (Sys.init false (5 :: List.replicate 33 1)).block) ∨
    ((smbus_piix4_transfer (fixedStatus 0x0B20 0) (some ⟨0x0B20⟩) 0x50 0 I2C_SMBUS_READ 7
        I2C_SMBUS_BLOCK_DATA (Sys.init false (5 :: List.replicate 33 1))).1 = -EPROTO ∧
      I2C_SMBUS_BLOCK_DATA = I2C_SMBUS_BLOCK_DATA ∧ I2C_SMBUS_READ ≠ I2C_SMBUS_WRITE ∧
      (I2C_SMBUS_READ = I2C_SMBUS_READ ∨ I2C_SMBUS_READ = I2C_SMBUS_WRITE →
        I2C_SMBUS_READ = I2C_SMBUS_READ) ∧
      ∃ (context : smbus_context) (n : Nat), some ⟨0x0B20⟩ = some context ∧
        (n = 0 ∨ I2C_SMBUS_BLOCK_MAX < n) ∧
        (smbus_piix4_transfer (fixedStatus 0x0B20 0) (some ⟨0x0B20⟩) 0x50 0 I2C_SMBUS_READ 7
          I2C_SMBUS_BLOCK_DATA (Sys.init false (5 :: List.replicate 33 1))).2.log.getLast?
          = some (PortEvent.read (SMBHSTDAT0 context.smba) n) ∧
        (smbus_piix4_transfer (fixedStatus 0x0B20 0) (some ⟨0x0B20⟩) 0x50 0 I2C_SMBUS_READ 7
          I2C_SMBUS_BLOCK_DATA (Sys.init false (5 :: List.replicate 33 1))).2.block
          = (Sys.init false (5 :: List.replicate 33 1)).block.set 0 n) :=
  c4_failure_payload (fixedStatus 0x0B20 0) (some ⟨0x0B20⟩) 0x50 0 I2C_SMBUS_READ 7
    I2C_SMBUS_BLOCK_DATA (Sys.init false (5 :: List.replicate 33 1)) (by decide) (by decide)

/-- C9: for a Quick operation (7-bit address, direction Read or Write, any command and
payload) on any device, every port access of the transfer is to the Address, Control or
Status register; Command, Data0, Data1 and BlockData are never written; and the
Address register is written exactly once, with `(addr << 1) | read_write`. -/
theorem c9_quick_writes {σ : Type} (p : Ports σ) (context : smbus_context)
    (addr flags read_write command : Nat) (s : Sys σ)
    (haddr : addr < 128)
    (hrw : read_write = I2C_SMBUS_READ ∨ read_write = I2C_SMBUS_WRITE) :
    ∃ evs, (smbus_piix4_transfer p (some context) addr flags read_write command
        I2C_SMBUS_QUICK s).2.log = s.log ++ evs ∧
      (∀ e ∈ evs, e.port = SMBHSTADD context.smba ∨ e.port = SMBHSTCNT context.smba ∨
        e.port = SMBHSTSTS context.smba) ∧
      (∀ e ∈ evs, e.isWriteTo (SMBHSTCMD context.smba) = false ∧
        e.isWriteTo (SMBHSTDAT0 context.smba) = false ∧
        e.isWriteTo (SMBHSTDAT1 context.smba) = false ∧
        e.isWriteTo (SMBBLKDAT context.smba) = false) ∧
      evs.filter (PortEvent.isWriteTo (SMBHSTADD context.smba))
        = [PortEvent.write (SMBHSTADD context.smba) ((addr <<< 1) ||| read_write)] := by
  have hval : ((addr <<< 1) ||| read_write) % 256 = (addr <<< 1) ||| read_write := by
    have key : ∀ a < 128, ∀ r < 2, ((a <<< 1) ||| r) % 256 = (a <<< 1) ||| r := by decide
    exact key addr haddr read_write (by rcases hrw with h | h <;> rw [h] <;> decide)
  have hsetup : (transfer_setup p context.smba addr read_write command I2C_SMBUS_QUICK s).1
      = Except.ok PIIX4_QUICK := by simp [transfer_setup]
  have hs2 : (transfer_setup p context.smba addr read_write command I2C_SMBUS_QUICK s).2
      = outb_p p ((addr <<< 1) ||| read_write) (SMBHSTADD context.smba) s := by
    simp [transfer_setup]
  obtain ⟨evt, hlog, hport⟩ := transaction_log p context.smba
    (transfer_program p context.smba PIIX4_QUICK
      (outb_p p ((addr <<< 1) ||| read_write) (SMBHSTADD context.smba) s))
  have hall : (smbus_piix4_transfer p (some context) addr flags read_write command
      I2C_SMBUS_QUICK s).2.log = s.log ++
        ([PortEvent.write (SMBHSTADD context.smba) ((addr <<< 1) ||| read_write),
          PortEvent.write (SMBHSTCNT context.smba) 0] ++ evt) := by
    rw [transfer_of_setup_ok p context addr flags read_write command _ s _ hsetup, hs2]
    have h2 : ∀ t : Int × Sys σ, (if t.1 ≠ 0 then t
        else if read_write = I2C_SMBUS_WRITE ∨ PIIX4_QUICK = PIIX4_QUICK then (0, t.2)
        else transfer_readback p context.smba PIIX4_QUICK t.2).2 = t.2 := by
      intro t
      split_ifs <;> simp_all
    rw [h2, hlog]
    simp [transfer_program, hval]
  have hevt : ∀ e ∈ evt, e.port = SMBHSTSTS context.smba ∨ e.port = SMBHSTCNT context.smba :=
    hport
  refine ⟨_, hall, ?_, ?_, ?_⟩
  · intro e he
    simp only [List.mem_append, List.mem_cons, List.mem_singleton, List.not_mem_nil,
      or_false] at he
    rcases he with (rfl | rfl) | he
    · exact Or.inl rfl
    · exact Or.inr (Or.inl rfl)
    · rcases hevt e he with h | h
      · exact Or.inr (Or.inr h)
      · exact Or.inr (Or.inl h)
  · intro e he
    simp only [List.mem_append, List.mem_cons, List.mem_singleton, List.not_mem_nil,
      or_false] at he
    rcases he with (rfl | rfl) | he
    · simp [PortEvent.isWriteTo, SMBHSTADD, SMBHSTCMD, SMBHSTDAT0, SMBHSTDAT1, SMBBLKDAT]
    · simp [PortEvent.isWriteTo, SMBHSTCNT, SMBHSTCMD, SMBHSTDAT0, SMBHSTDAT1, SMBBLKDAT]
    · cases e with
      | read q v => simp [PortEvent.isWriteTo]
      | write q v =>
        have hq : q = SMBHSTSTS context.smba ∨ q = SMBHSTCNT context.smba := hevt _ he
        rcases hq with rfl | rfl <;>
          simp [PortEvent.isWriteTo, SMBHSTSTS, SMBHSTCNT, SMBHSTCMD, SMBHSTDAT0, SMBHSTDAT1,
            SMBBLKDAT]
  · have hnone : evt.filter (PortEvent.isWriteTo (SMBHSTADD context.smba)) = [] := by
      rw [List.filter_eq_nil_iff]
      intro e he
      cases e with
      | read q v => simp [PortEvent.isWriteTo]
      | write q v =>
        have hq : q = SMBHSTSTS context.smba ∨ q = SMBHSTCNT context.smba := hevt _ he
        rcases hq with rfl | rfl <;>
          simp [PortEvent.isWriteTo, SMBHSTSTS, SMBHSTCNT, SMBHSTADD]
    have hne : (SMBHSTCNT context.smba == SMBHSTADD context.smba) = false := by
      rw [beq_eq_false_iff_ne]
      unfold SMBHSTCNT SMBHSTADD
      omega
    rw [List.filter_append, hnone]
    simp [List.filter, PortEvent.isWriteTo, hne]

/-- Witness for `c9_quick_writes`: a Quick read of address 0x50. -/
theorem c9_quick_writes_witness :
    ∃ evs, (smbus_piix4_transfer (fixedStatus 0x0B20 0) (some ⟨0x0B20⟩) 0x50 0 I2C_SMBUS_READ 7
        I2C_SMBUS_QUICK (Sys.init false [])).2.log = (Sys.init false []).log ++ evs ∧
      (∀ e ∈ evs, e.port = SMBHSTADD 0x0B20 ∨ e.port = SMBHSTCNT 0x0B20 ∨
        e.port = SMBHSTSTS 0x0B20) ∧
      (∀ e ∈ evs, e.isWriteTo (SMBHSTCMD 0x0B20) = false ∧
        e.isWriteTo (SMBHSTDAT0 0x0B20) = false ∧
        e.isWriteTo (SMBHSTDAT1 0x0B20) = false ∧
        e.isWriteTo (SMBBLKDAT 0x0B20) = false) ∧
      evs.filter (PortEvent.isWriteTo (SMBHSTADD 0x0B20))
        = [PortEvent.write (SMBHSTADD 0x0B20) ((0x50 <<< 1) ||| I2C_SMBUS_READ)] :=
  c9_quick_writes (fixedStatus 0x0B20 0) ⟨0x0B20⟩ 0x50 0 I2C_SMBUS_READ 7 (Sys.init false [])
    (by decide) (by decide)

/-- C6: on a BlockData read whose transaction succeeds, no access up to the end of the
transaction is to the BlockData register, and then the transfer reads the length `n`
from Data0.  If `n` is 0 or greater than 32 it returns -EPROTO (which is not -EINVAL)
and the read of Data0 is its last port access.  Otherwise it reads Control once, then
BlockData exactly `n` times, stores the k-th value read at `block[k]` for k = 1..n,
leaves `n` in `block[0]` and returns 0. -/
theorem c6_block_read {σ : Type} (p : Ports σ) (context : smbus_context)
    (addr flags command : Nat) (s : Sys σ)
    (hbuf : s.block.length = I2C_SMBUS_BLOCK_MAX + 2)
    (hok : (transfer_transaction p context.smba addr I2C_SMBUS_READ command
      I2C_SMBUS_BLOCK_DATA PIIX4_BLOCK_DATA s).1 = 0) :
    Extends (fun e => e.port ≠ SMBBLKDAT context.smba) s.log
      (transfer_transaction p context.smba addr I2C_SMBUS_READ command I2C_SMBUS_BLOCK_DATA
        PIIX4_BLOCK_DATA s).2.log ∧
    ((inb_p p (SMBHSTDAT0 context.smba) (transfer_transaction p context.smba addr
        I2C_SMBUS_READ command I2C_SMBUS_BLOCK_DATA PIIX4_BLOCK_DATA s).2).1 = 0 ∨
      I2C_SMBUS_BLOCK_MAX < (inb_p p (SMBHSTDAT0 context.smba) (transfer_transaction p
        context.smba addr I2C_SMBUS_READ command I2C_SMBUS_BLOCK_DATA PIIX4_BLOCK_DATA s).2).1 →
      (smbus_piix4_transfer p (some context) addr flags I2C_SMBUS_READ command
        I2C_SMBUS_BLOCK_DATA s).1 = -EPROTO ∧ -EPROTO ≠ -EINVAL ∧
      (smbus_piix4_transfer p (some context) addr flags I2C_SMBUS_READ command
        I2C_SMBUS_BLOCK_DATA s).2.log
        = (transfer_transaction p context.smba addr I2C_SMBUS_READ command
            I2C_SMBUS_BLOCK_DATA PIIX4_BLOCK_DATA s).2.log ++
          [PortEvent.read (SMBHSTDAT0 context.smba) (inb_p p (SMBHSTDAT0 context.smba)
            (transfer_transaction p context.smba addr I2C_SMBUS_READ command
              I2C_SMBUS_BLOCK_DATA PIIX4_BLOCK_DATA s).2).1]) ∧
    (1 ≤ (inb_p p (SMBHSTDAT0 context.smba) (transfer_transaction p context.smba addr
        I2C_SMBUS_READ command I2C_SMBUS_BLOCK_DATA PIIX4_BLOCK_DATA s).2).1 ∧
      (inb_p p (SMBHSTDAT0 context.smba) (transfer_transaction p context.smba addr
        I2C_SMBUS_READ command I2C_SMBUS_BLOCK_DATA PIIX4_BLOCK_DATA s).2).1
        ≤ I2C_SMBUS_BLOCK_MAX →
      (smbus_piix4_transfer p (some context) addr flags I2C_SMBUS_READ command
        I2C_SMBUS_BLOCK_DATA s).1 = 0 ∧
      ∃ (c : Nat) (vals : List Nat),
        vals.length = (inb_p p (SMBHSTDAT0 context.smba) (transfer_transaction p context.smba
          addr I2C_SMBUS_READ command I2C_SMBUS_BLOCK_DATA PIIX4_BLOCK_DATA s).2).1 ∧
        (smbus_piix4_transfer p (some context) addr flags I2C_SMBUS_READ command
          I2C_SMBUS_BLOCK_DATA s).2.log
          = (transfer_transaction p context.smba addr I2C_SMBUS_READ command
              I2C_SMBUS_BLOCK_DATA PIIX4_BLOCK_DATA s).2.log ++
            [PortEvent.read (SMBHSTDAT0 context.smba) (inb_p p (SMBHSTDAT0 context.smba)
              (transfer_transaction p context.smba addr I2C_SMBUS_READ command
                I2C_SMBUS_BLOCK_DATA PIIX4_BLOCK_DATA s).2).1,
             PortEvent.read (SMBHSTCNT context.smba) c] ++
            vals.map (PortEvent.read (SMBBLKDAT context.smba)) ∧
        (smbus_piix4_transfer p (some context) addr flags I2C_SMBUS_READ command
          I2C_SMBUS_BLOCK_DATA s).2.block.getD 0 0
          = (inb_p p (SMBHSTDAT0 context.smba) (transfer_transaction p context.smba addr
              I2C_SMBUS_READ command I2C_SMBUS_BLOCK_DATA PIIX4_BLOCK_DATA s).2).1 ∧
        ∀ k < (inb_p p (SMBHSTDAT0 context.smba) (transfer_transaction p context.smba addr
            I2C_SMBUS_READ command I2C_SMBUS_BLOCK_DATA PIIX4_BLOCK_DATA s).2).1,
          (smbus_piix4_transfer p (some context) addr flags I2C_SMBUS_READ command
            I2C_SMBUS_BLOCK_DATA s).2.block.getD (k + 1) 0 = vals.getD k 0) := by
  have hblock : (transfer_transaction p context.smba addr I2C_SMBUS_READ command
      I2C_SMBUS_BLOCK_DATA PIIX4_BLOCK_DATA s).2.block = s.block := by
    unfold transfer_transaction
    rw [transaction_block, transfer_program, outb_p_block, transfer_setup_block]
  rw [transfer_read_ok p context addr flags command _ s PIIX4_BLOCK_DATA
    (transfer_setup_block_read p _ _ _ s) (by decide) hok]
  obtain ⟨hbad, hgood⟩ := transfer_readback_block p context.smba
    (transfer_transaction p context.smba addr I2C_SMBUS_READ command
      I2C_SMBUS_BLOCK_DATA PIIX4_BLOCK_DATA s).2 (by rw [hblock, hbuf]; decide)
  exact ⟨block_read_prologue p context.smba addr command s,
    fun h => ⟨(hbad h).1, by decide, (hbad h).2⟩, hgood⟩

/-- Witness for `c6_block_read`: a BlockData read on the loopback double holding the
answer of length 3. -/
theorem c6_block_read_witness :
    (smbus_piix4_transfer (loopback 0x0B20) (some ⟨0x0B20⟩) 0x50 0 I2C_SMBUS_READ 7
        I2C_SMBUS_BLOCK_DATA (Sys.init loopAnswer3 (List.replicate 34 0))).1 = 0 ∧
      ∃ (c : Nat) (vals : List Nat),
        vals.length = (inb_p (loopback 0x0B20) (SMBHSTDAT0 0x0B20) (transfer_transaction
          (loopback 0x0B20) 0x0B20 0x50 I2C_SMBUS_READ 7 I2C_SMBUS_BLOCK_DATA PIIX4_BLOCK_DATA
          (Sys.init loopAnswer3 (List.replicate 34 0))).2).1 ∧
        (smbus_piix4_transfer (loopback 0x0B20) (some ⟨0x0B20⟩) 0x50 0 I2C_SMBUS_READ 7
          I2C_SMBUS_BLOCK_DATA (Sys.init loopAnswer3 (List.replicate 34 0))).2.log
          = (transfer_transaction (loopback 0x0B20) 0x0B20 0x50 I2C_SMBUS_READ 7
              I2C_SMBUS_BLOCK_DATA PIIX4_BLOCK_DATA
              (Sys.init loopAnswer3 (List.replicate 34 0))).2.log ++
            [PortEvent.read (SMBHSTDAT0 0x0B20) (inb_p (loopback 0x0B20) (SMBHSTDAT0 0x0B20)
              (transfer_transaction (loopback 0x0B20) 0x0B20 0x50 I2C_SMBUS_READ 7
                I2C_SMBUS_BLOCK_DATA PIIX4_BLOCK_DATA
                (Sys.init loopAnswer3 (List.replicate 34 0))).2).1,
             PortEvent.read (SMBHSTCNT 0x0B20) c] ++
            vals.map (PortEvent.read (SMBBLKDAT 0x0B20)) ∧
        (smbus_piix4_transfer (loopback 0x0B20) (some ⟨0x0B20⟩) 0x50 0 I2C_SMBUS_READ 7
          I2C_SMBUS_BLOCK_DATA (Sys.init loopAnswer3 (List.replicate 34 0))).2.block.getD 0 0
          = (inb_p (loopback 0x0B20) (SMBHSTDAT0 0x0B20) (transfer_transaction
              (loopback 0x0B20) 0x0B20 0x50 I2C_SMBUS_READ 7 I2C_SMBUS_BLOCK_DATA
              PIIX4_BLOCK_DATA (Sys.init loopAnswer3 (List.replicate 34 0))).2).1 ∧
        ∀ k < (inb_p (loopback 0x0B20) (SMBHSTDAT0 0x0B20) (transfer_transaction
            (loopback 0x0B20) 0x0B20 0x50 I2C_SMBUS_READ 7 I2C_SMBUS_BLOCK_DATA
            PIIX4_BLOCK_DATA (Sys.init loopAnswer3 (List.replicate 34 0))).2).1,
          (smbus_piix4_transfer (loopback 0x0B20) (some ⟨0x0B20⟩) 0x50 0 I2C_SMBUS_READ 7
            I2C_SMBUS_BLOCK_DATA
            (Sys.init loopAnswer3 (List.replicate 34 0))).2.block.getD (k + 1) 0
            = vals.getD k 0 :=
  (c6_block_read (loopback 0x0B20) ⟨0x0B20⟩ 0x50 0 7
    (Sys.init loopAnswer3 (List.replicate 34 0)) (by decide) (by decide)).2.2
    ⟨by decide, by decide⟩

/-- C7: with the caller word `w` in `data->word`, a WordData write writes Address,
Command, then `w & 0xFF` to Data0 and then `w >> 8` to Data1, and after that accesses
only the Control and Status registers; a WordData read whose transaction succeeds reads
Data0 and then Data1 and returns `Data0 + (Data1 << 8)`; and on the loopback double a
WordData write of `w` leaves `w & 0xFF` in Data0 and `w >> 8` in Data1, and a WordData
read after it, into any buffer, succeeds and yields `w`. -/
theorem c7_word_round_trip {σ : Type} (p : Ports σ) (context : smbus_context)
    (addr flags command w : Nat) (s : Sys σ) (sl : Sys LoopDev) (b : List Nat)
    (hw : (rd_word s).1 = w) (hbuf : s.block.length = I2C_SMBUS_BLOCK_MAX + 2)
    (hwl : (rd_word sl).1 = w) (hb : b.length = I2C_SMBUS_BLOCK_MAX + 2) :
    (∃ evs, (smbus_piix4_transfer p (some context) addr flags I2C_SMBUS_WRITE command
        I2C_SMBUS_WORD_DATA s).2.log
        = s.log ++ [PortEvent.write (SMBHSTADD context.smba)
                      (((addr <<< 1) ||| I2C_SMBUS_WRITE) % 256),
            PortEvent.write (SMBHSTCMD context.smba) (command % 256),
            PortEvent.write (SMBHSTDAT0 context.smba) (w &&& 0xFF),
            PortEvent.write (SMBHSTDAT1 context.smba) (w >>> 8)] ++ evs ∧
      ∀ e ∈ evs, EnginePort context.smba e) ∧
    ((transfer_transaction p context.smba addr I2C_SMBUS_READ command I2C_SMBUS_WORD_DATA
        PIIX4_WORD_DATA s).1 = 0 →
      (smbus_piix4_transfer p (some context) addr flags I2C_SMBUS_READ command
        I2C_SMBUS_WORD_DATA s).1 = 0 ∧
      ∃ v0 v1, (smbus_piix4_transfer p (some context) addr flags I2C_SMBUS_READ command
          I2C_SMBUS_WORD_DATA s).2.log
          = (transfer_transaction p context.smba addr I2C_SMBUS_READ command
              I2C_SMBUS_WORD_DATA PIIX4_WORD_DATA s).2.log ++
            [PortEvent.read (SMBHSTDAT0 context.smba) v0,
             PortEvent.read (SMBHSTDAT1 context.smba) v1] ∧
        (rd_word (smbus_piix4_transfer p (some context) addr flags I2C_SMBUS_READ command
          I2C_SMBUS_WORD_DATA s).2).1 = v0 + (v1 <<< 8)) ∧
    ((smbus_piix4_transfer (loopback context.smba) (some context) addr flags I2C_SMBUS_WRITE
        command I2C_SMBUS_WORD_DATA sl).1 = 0 ∧
      (smbus_piix4_transfer (loopback context.smba) (some context) addr flags I2C_SMBUS_WRITE
        command I2C_SMBUS_WORD_DATA sl).2.dev.dat0 = w &&& 0xFF ∧
      (smbus_piix4_transfer (loopback context.smba) (some context) addr flags I2C_SMBUS_WRITE
        command I2C_SMBUS_WORD_DATA sl).2.dev.dat1 = w >>> 8 ∧
      (smbus_piix4_transfer (loopback context.smba) (some context) addr flags I2C_SMBUS_READ
        command I2C_SMBUS_WORD_DATA
        { (smbus_piix4_transfer (loopback context.smba) (some context) addr flags
            I2C_SMBUS_WRITE command I2C_SMBUS_WORD_DATA sl).2 with block := b }).1 = 0 ∧
      (rd_word (smbus_piix4_transfer (loopback context.smba) (some context) addr flags
        I2C_SMBUS_READ command I2C_SMBUS_WORD_DATA
        { (smbus_piix4_transfer (loopback context.smba) (some context) addr flags
            I2C_SMBUS_WRITE command I2C_SMBUS_WORD_DATA sl).2 with block := b }).2).1 = w) := by
  refine ⟨?_, ?_, ?_⟩
  · obtain ⟨h1, h2⟩ := transfer_setup_word_write p context.smba addr command s
    rw [transfer_write p context addr flags command _ s _ h1]
    unfold transfer_transaction
    obtain ⟨evt, hlog, hport⟩ := transaction_log p context.smba
      (transfer_program p context.smba PIIX4_WORD_DATA
        (transfer_setup p context.smba addr I2C_SMBUS_WRITE command I2C_SMBUS_WORD_DATA s).2)
    refine ⟨PortEvent.write (SMBHSTCNT context.smba) 0x0C :: evt, ?_, ?_⟩
    · rw [hlog, transfer_program, outb_p_log, h2, hw]
      simp
      decide
    · intro e he
      rcases List.mem_cons.mp he with rfl | h
      · exact Or.inr rfl
      · exact hport e h
  · intro hok
    have hblock : (transfer_transaction p context.smba addr I2C_SMBUS_READ command
        I2C_SMBUS_WORD_DATA PIIX4_WORD_DATA s).2.block = s.block := by
      unfold transfer_transaction
      rw [transaction_block, transfer_program, outb_p_block, transfer_setup_block]
    rw [transfer_read_ok p context addr flags command _ s PIIX4_WORD_DATA
      (transfer_setup_word_read p _ _ _ s) (by decide) hok]
    obtain ⟨r1, r2, r3⟩ := transfer_readback_word p context.smba
      (transfer_transaction p context.smba addr I2C_SMBUS_READ command I2C_SMBUS_WORD_DATA
        PIIX4_WORD_DATA s).2 (by rw [hblock, hbuf]; decide)
    exact ⟨r1, _, _, r2, r3⟩
  · have hwlt : w < 65536 := by rw [← hwl]; exact rd_word_lt sl
    obtain ⟨h1, _⟩ := transfer_setup_word_write (loopback context.smba) context.smba addr
      command sl
    obtain ⟨d0, d1⟩ := loopback_setup_word_write context.smba addr command sl
    obtain ⟨t1, _, t3, t4, _, _⟩ := loopback_program_transaction context.smba PIIX4_WORD_DATA
      (transfer_setup (loopback context.smba) context.smba addr I2C_SMBUS_WRITE command
        I2C_SMBUS_WORD_DATA sl).2
    rw [transfer_write (loopback context.smba) context addr flags command _ sl _ h1]
    unfold transfer_transaction
    rw [hwl] at d0 d1
    have e0 := t3.trans d0
    have e1 := t4.trans d1
    refine ⟨t1, e0, e1, ?_⟩
    obtain ⟨r1, r2⟩ := loopback_word_read context addr flags command
      { (smbus_piix4_transaction (loopback context.smba) context.smba
          (transfer_program (loopback context.smba) context.smba PIIX4_WORD_DATA
            (transfer_setup (loopback context.smba) context.smba addr I2C_SMBUS_WRITE command
              I2C_SMBUS_WORD_DATA sl).2)).2 with block := b } (by rw [hb]; decide)
    refine ⟨r1, ?_⟩
    rw [r2]
    show (smbus_piix4_transaction (loopback context.smba) context.smba
          (transfer_program (loopback context.smba) context.smba PIIX4_WORD_DATA
            (transfer_setup (loopback context.smba) context.smba addr I2C_SMBUS_WRITE command
              I2C_SMBUS_WORD_DATA sl).2)).2.dev.dat0 % 256 +
        ((smbus_piix4_transaction (loopback context.smba) context.smba
          (transfer_program (loopback context.smba) context.smba PIIX4_WORD_DATA
            (transfer_setup (loopback context.smba) context.smba addr I2C_SMBUS_WRITE command
              I2C_SMBUS_WORD_DATA sl).2)).2.dev.dat1 % 256) <<< 8 = w
    rw [e0, e1, and_ff, shr8, shl8]
    omega

/-- Witness for `c7_word_round_trip`: the word 0xABCD goes out as Data0 = 0xCD and
Data1 = 0xAB and is read back as 0xABCD. -/
theorem c7_word_round_trip_witness :
    (smbus_piix4_transfer (loopback 0x0B20) (some ⟨0x0B20⟩) 0x50 0 I2C_SMBUS_WRITE 7
        I2C_SMBUS_WORD_DATA (Sys.init loopZero (0xCD :: 0xAB :: List.replicate 32 0))).1 = 0 ∧
      (smbus_piix4_transfer (loopback 0x0B20) (some ⟨0x0B20⟩) 0x50 0 I2C_SMBUS_WRITE 7
        I2C_SMBUS_WORD_DATA
        (Sys.init loopZero (0xCD :: 0xAB :: List.replicate 32 0))).2.dev.dat0 = 0xCD ∧
      (smbus_piix4_transfer (loopback 0x0B20) (some ⟨0x0B20⟩) 0x50 0 I2C_SMBUS_WRITE 7
        I2C_SMBUS_WORD_DATA
        (Sys.init loopZero (0xCD :: 0xAB :: List.replicate 32 0))).2.dev.dat1 = 0xAB ∧
      (smbus_piix4_transfer (loopback 0x0B20) (some ⟨0x0B20⟩) 0x50 0 I2C_SMBUS_READ 7
        I2C_SMBUS_WORD_DATA
        { (smbus_piix4_transfer (loopback 0x0B20) (some ⟨0x0B20⟩) 0x50 0 I2C_SMBUS_WRITE 7
            I2C_SMBUS_WORD_DATA (Sys.init loopZero (0xCD :: 0xAB :: List.replicate 32 0))).2
          with block := List.replicate 34 0 }).1 = 0 ∧
      (rd_word (smbus_piix4_transfer (loopback 0x0B20) (some ⟨0x0B20⟩) 0x50 0 I2C_SMBUS_READ 7
        I2C_SMBUS_WORD_DATA
        { (smbus_piix4_transfer (loopback 0x0B20) (some ⟨0x0B20⟩) 0x50 0 I2C_SMBUS_WRITE 7
            I2C_SMBUS_WORD_DATA (Sys.init loopZero (0xCD :: 0xAB :: List.replicate 32 0))).2
          with block := List.replicate 34 0 }).2).1 = 0xABCD :=
  (c7_word_round_trip (loopback 0x0B20) ⟨0x0B20⟩ 0x50 0 7 0xABCD
    (Sys.init loopZero (0xCD :: 0xAB :: List.replicate 32 0))
    (Sys.init loopZero (0xCD :: 0xAB :: List.replicate 32 0)) (List.replicate 34 0)
    (by decide) (by decide) (by decide) (by decide)).2.2

/-- C8: on the loopback double, for a block of `L` bytes with 1 <= L <= 32 held in the
caller buffer (`block[0] = L`, bytes in `block[1..L]`), a BlockData write succeeds, and
a BlockData read after it, into any buffer `b`, succeeds, reports length `L` in
`block[0]` and returns the same `L` bytes in the same order in `block[1..L]`. -/
theorem c8_block_round_trip (context : smbus_context) (addr flags command L : Nat)
    (sl : Sys LoopDev) (b : List Nat)
    (hL1 : 1 ≤ L) (hL32 : L ≤ I2C_SMBUS_BLOCK_MAX) (hlen : (rd_block 0 sl).1 = L)
    (hbytes : ∀ x ∈ sl.block, x < 256) (hb : b.length = I2C_SMBUS_BLOCK_MAX + 2) :
    (smbus_piix4_transfer (loopback context.smba) (some context) addr flags I2C_SMBUS_WRITE
      command I2C_SMBUS_BLOCK_DATA sl).1 = 0 ∧
    (smbus_piix4_transfer (loopback context.smba) (some context) addr flags I2C_SMBUS_READ
      command I2C_SMBUS_BLOCK_DATA
      { (smbus_piix4_transfer (loopback context.smba) (some context) addr flags
          I2C_SMBUS_WRITE command I2C_SMBUS_BLOCK_DATA sl).2 with block := b }).1 = 0 ∧
    (smbus_piix4_transfer (loopback context.smba) (some context) addr flags I2C_SMBUS_READ
      command I2C_SMBUS_BLOCK_DATA
      { (smbus_piix4_transfer (loopback context.smba) (some context) addr flags
          I2C_SMBUS_WRITE command I2C_SMBUS_BLOCK_DATA sl).2 with block := b }).2.block.getD 0 0
      = L ∧
    ∀ k, 1 ≤ k → k ≤ L →
      (smbus_piix4_transfer (loopback context.smba) (some context) addr flags I2C_SMBUS_READ
        command I2C_SMBUS_BLOCK_DATA
        { (smbus_piix4_transfer (loopback context.smba) (some context) addr flags
            I2C_SMBUS_WRITE command I2C_SMBUS_BLOCK_DATA sl).2 with block := b }).2.block.getD k 0
        = sl.block.getD k 0 := by
  obtain ⟨w1, w2, w3⟩ := loopback_block_write context addr flags command sl
    (by rw [hlen]; exact hL1) (by rw [hlen]; exact hL32)
  rw [hlen] at w2 w3
  obtain ⟨r1, r2, r3⟩ := loopback_block_read context addr flags command
    { (smbus_piix4_transfer (loopback context.smba) (some context) addr flags
        I2C_SMBUS_WRITE command I2C_SMBUS_BLOCK_DATA sl).2 with block := b } hb
    (by show 1 ≤ (smbus_piix4_transfer (loopback context.smba) (some context) addr flags
          I2C_SMBUS_WRITE command I2C_SMBUS_BLOCK_DATA sl).2.dev.dat0
        rw [w2]; exact hL1)
    (by show (smbus_piix4_transfer (loopback context.smba) (some context) addr flags
          I2C_SMBUS_WRITE command I2C_SMBUS_BLOCK_DATA sl).2.dev.dat0 ≤ I2C_SMBUS_BLOCK_MAX
        rw [w2]; exact hL32)
  refine ⟨w1, r1, r2.trans w2, ?_⟩
  intro k hk1 hkL
  obtain ⟨j, rfl⟩ : ∃ j, k = 1 + j := ⟨k - 1, by omega⟩
  have hj : j < L := by omega
  have h := r3 j (by
    show j < (smbus_piix4_transfer (loopback context.smba) (some context) addr flags
      I2C_SMBUS_WRITE command I2C_SMBUS_BLOCK_DATA sl).2.dev.dat0
    rw [w2]; exact hj)
  rw [h]
  show (smbus_piix4_transfer (loopback context.smba) (some context) addr flags
    I2C_SMBUS_WRITE command I2C_SMBUS_BLOCK_DATA sl).2.dev.fifo j % 256 = _
  rw [w3 j hj, Nat.mod_mod, Nat.mod_eq_of_lt (getD_lt_of_all_lt _ _ hbytes)]

/-- Witness for `c8_block_round_trip`: the block 0x01, 0x02, 0x03 of length 3. -/
theorem c8_block_round_trip_witness :
    (smbus_piix4_transfer (loopback 0x0B20) (some ⟨0x0B20⟩) 0x50 0 I2C_SMBUS_WRITE 7
      I2C_SMBUS_BLOCK_DATA
      (Sys.init loopZero (3 :: 0x01 :: 0x02 :: 0x03 :: List.replicate 30 0))).1 = 0 ∧
    (smbus_piix4_transfer (loopback 0x0B20) (some ⟨0x0B20⟩) 0x50 0 I2C_SMBUS_READ 7
      I2C_SMBUS_BLOCK_DATA
      { (smbus_piix4_transfer (loopback 0x0B20) (some ⟨0x0B20⟩) 0x50 0 I2C_SMBUS_WRITE 7
          I2C_SMBUS_BLOCK_DATA
          (Sys.init loopZero (3 :: 0x01 :: 0x02 :: 0x03 :: List.replicate 30 0))).2
        with block := List.replicate 34 0 }).1 = 0 ∧
    (smbus_piix4_transfer (loopback 0x0B20) (some ⟨0x0B20⟩) 0x50 0 I2C_SMBUS_READ 7
      I2C_SMBUS_BLOCK_DATA
      { (smbus_piix4_transfer (loopback 0x0B20) (some ⟨0x0B20⟩) 0x50 0 I2C_SMBUS_WRITE 7
          I2C_SMBUS_BLOCK_DATA
          (Sys.init loopZero (3 :: 0x01 :: 0x02 :: 0x03 :: List.replicate 30 0))).2
        with block := List.replicate 34 0 }).2.block.getD 0 0 = 3 ∧
    ∀ k, 1 ≤ k → k ≤ 3 →
      (smbus_piix4_transfer (loopback 0x0B20) (some ⟨0x0B20⟩) 0x50 0 I2C_SMBUS_READ 7
        I2C_SMBUS_BLOCK_DATA
        { (smbus_piix4_transfer (loopback 0x0B20) (some ⟨0x0B20⟩) 0x50 0 I2C_SMBUS_WRITE 7
            I2C_SMBUS_BLOCK_DATA
            (Sys.init loopZero (3 :: 0x01 :: 0x02 :: 0x03 :: List.replicate 30 0))).2
          with block := List.replicate 34 0 }).2.block.getD k 0
        = (3 :: 0x01 :: 0x02 :: 0x03 :: List.replicate 30 0).getD k 0 :=
  c8_block_round_trip ⟨0x0B20⟩ 0x50 0 7 3
    (Sys.init loopZero (3 :: 0x01 :: 0x02 :: 0x03 :: List.replicate 30 0))
    (List.replicate 34 0) (by decide) (by decide) (by decide) (by decide) (by decide)

/-- C11: once the index region is acquired, `smbus_piix4_context_create` writes the
selector (0x00 in the new scheme, 0x28 in the legacy one) to the index port, reads the
low byte, writes selector + 1 and reads the high byte; its result is decided by
`enabled = (low & 0x10) != 0`, `base = (high << 8) | 0x20` in the new scheme and by
`enabled = (low & 0x01) != 0`, `base = ((high << 8) | low) & 0xFFE0` in the legacy one,
and the context it returns holds that base. -/
theorem c11_resolver_arithmetic {σ : Type} (k : Kernel) (p : Ports σ) (dev : pci_dev)
    (s : Sys σ) (hreg : k.request_muxed_region SB800_PIIX4_SMB_IDX 2 = true) :
    ∃ low high, low < 256 ∧ high < 256 ∧
      (smbus_piix4_context_create k p dev s).2.log
        = s.log ++ [PortEvent.write SB800_PIIX4_SMB_IDX (select_smb_en dev),
            PortEvent.read (SB800_PIIX4_SMB_IDX + 1) low,
            PortEvent.write SB800_PIIX4_SMB_IDX (select_smb_en dev + 1),
            PortEvent.read (SB800_PIIX4_SMB_IDX + 1) high] ∧
      (select_smb_en dev = 0x00 →
        (smbus_piix4_context_create k p dev s).1
          = spec_create k (decide ((low &&& 0x10) ≠ 0), (high <<< 8) ||| 0x20)) ∧
      (select_smb_en dev = 0x28 →
        (smbus_piix4_context_create k p dev s).1
          = spec_create k (decide ((low &&& 0x01) ≠ 0), ((high <<< 8) ||| low) &&& 0xFFE0)) := by
  obtain ⟨h1, h2⟩ := context_create_acquired k p dev s hreg
  refine ⟨(inb_p p (SB800_PIIX4_SMB_IDX + 1)
      (outb_p p (select_smb_en dev) SB800_PIIX4_SMB_IDX s)).1,
    (inb_p p (SB800_PIIX4_SMB_IDX + 1) (outb_p p (select_smb_en dev + 1)
      SB800_PIIX4_SMB_IDX (inb_p p (SB800_PIIX4_SMB_IDX + 1)
        (outb_p p (select_smb_en dev) SB800_PIIX4_SMB_IDX s)).2)).1,
    inb_p_lt p _ _, inb_p_lt p _ _, ?_, ?_, ?_⟩
  · rw [h1]
    rcases select_smb_en_cases dev with h | h <;> rw [h] <;> simp
  · intro h
    rw [h2, h]
    rfl
  · intro h
    rw [h2, h]
    rfl

/-- Witness for `c11_resolver_arithmetic`: the new scheme with low 0x10 and high 0x0B
and the legacy scheme with low 0x29 and high 0x0B both resolve base 0x0B20, enabled. -/
theorem c11_resolver_arithmetic_witness :
    (∃ low high, low < 256 ∧ high < 256 ∧
      (smbus_piix4_context_create kernelOk (cfgPair cfgSample) pciNew (Sys.init 0 [])).2.log
        = (Sys.init 0 []).log ++ [PortEvent.write SB800_PIIX4_SMB_IDX (select_smb_en pciNew),
            PortEvent.read (SB800_PIIX4_SMB_IDX + 1) low,
            PortEvent.write SB800_PIIX4_SMB_IDX (select_smb_en pciNew + 1),
            PortEvent.read (SB800_PIIX4_SMB_IDX + 1) high] ∧
      (select_smb_en pciNew = 0x00 →
        (smbus_piix4_context_create kernelOk (cfgPair cfgSample) pciNew (Sys.init 0 [])).1
          = spec_create kernelOk (decide ((low &&& 0x10) ≠ 0), (high <<< 8) ||| 0x20)) ∧
      (select_smb_en pciNew = 0x28 →
        (smbus_piix4_context_create kernelOk (cfgPair cfgSample) pciNew (Sys.init 0 [])).1
          = spec_create kernelOk
              (decide ((low &&& 0x01) ≠ 0), ((high <<< 8) ||| low) &&& 0xFFE0))) ∧
    (smbus_piix4_context_create kernelOk (cfgPair cfgSample) pciNew (Sys.init 0 [])).1
      = Except.ok { smba := 0x0B20 } ∧
    (smbus_piix4_context_create kernelOk (cfgPair cfgSample) pciLegacy (Sys.init 0 [])).1
      = Except.ok { smba := 0x0B20 } ∧
    spec_resolve true 0x10 0x0B = (true, 0x0B20) ∧
    spec_resolve false 0x29 0x0B = (true, 0x0B20) :=
  ⟨c11_resolver_arithmetic kernelOk (cfgPair cfgSample) pciNew (Sys.init 0 []) rfl,
    rfl, rfl, by decide, by decide⟩

/-- C12, as stated, fails: a disabled controller (enable bit clear) and a reserved
region (enabled, base 0x0B20 reserved by the firmware) give the same error result,
-ENODEV. -/
theorem c12_same_error_counterexample :
    (create_resolved (cfgPair fun _ => 0) pciNew (Sys.init 0 [])).1 = false ∧
    (smbus_piix4_context_create kernelOk (cfgPair fun _ => 0) pciNew (Sys.init 0 [])).1
      = Except.error (-ENODEV) ∧
    (create_resolved (cfgPair cfgSample) pciNew (Sys.init 0 [])) = (true, 0x0B20) ∧
    (kernelReserving 0x0B20).acpi_check_region 0x0B20 SMBIOSIZE ≠ 0 ∧
    (smbus_piix4_context_create (kernelReserving 0x0B20) (cfgPair cfgSample) pciNew
      (Sys.init 0 [])).1 = Except.error (-ENODEV) ∧
    (smbus_piix4_context_create kernelOk (cfgPair fun _ => 0) pciNew (Sys.init 0 [])).1
      = (smbus_piix4_context_create (kernelReserving 0x0B20) (cfgPair cfgSample) pciNew
          (Sys.init 0 [])).1 := by
  refine ⟨by decide, rfl, by decide, by decide, rfl, rfl⟩

/-- C12, amended: `smbus_piix4_context_create` returns -EBUSY, with no port access,
when the index region cannot be acquired; once it is acquired it returns -ENODEV when
the enable bit of the low byte is clear, and the same -ENODEV when the controller is
enabled and the range of `SMBIOSIZE` ports at the resolved base conflicts with a
firmware region.  -EBUSY differs from -ENODEV. -/
theorem c12_create_failures {σ : Type} (k : Kernel) (p : Ports σ) (dev : pci_dev)
    (s : Sys σ) :
    (k.request_muxed_region SB800_PIIX4_SMB_IDX 2 = false →
      smbus_piix4_context_create k p dev s = (Except.error (-EBUSY), s)) ∧
    (k.request_muxed_region SB800_PIIX4_SMB_IDX 2 = true →
      (create_resolved p dev s).1 = false →
      (smbus_piix4_context_create k p dev s).1 = Except.error (-ENODEV)) ∧
    (k.request_muxed_region SB800_PIIX4_SMB_IDX 2 = true →
      (create_resolved p dev s).1 = true →
      k.acpi_check_region (create_resolved p dev s).2 SMBIOSIZE ≠ 0 →
      (smbus_piix4_context_create k p dev s).1 = Except.error (-ENODEV)) ∧
    (-EBUSY : Int) ≠ -ENODEV := by
  refine ⟨?_, ?_, ?_, by decide⟩
  · intro h
    simp [smbus_piix4_context_create, h]
  · intro h hen
    rw [(context_create_acquired k p dev s h).2]
    unfold create_resolved at hen
    simp [spec_create, hen]
  · intro h hen hacpi
    rw [(context_create_acquired k p dev s h).2]
    unfold create_resolved at hen hacpi
    simp [spec_create, hen, hacpi]

/-- Witness for `c12_create_failures`: a busy region, a disabled controller and a
reserved region. -/
theorem c12_create_failures_witness :
    smbus_piix4_context_create kernelBusy (cfgPair cfgSample) pciNew (Sys.init 0 [])
      = (Except.error (-EBUSY), Sys.init 0 []) ∧
    (smbus_piix4_context_create kernelOk (cfgPair fun _ => 0) pciLegacy (Sys.init 0 [])).1
      = Except.error (-ENODEV) ∧
    (smbus_piix4_context_create (kernelReserving 0x0B20) (cfgPair cfgSample) pciLegacy
      (Sys.init 0 [])).1 = Except.error (-ENODEV) :=
  ⟨(c12_create_failures kernelBusy (cfgPair cfgSample) pciNew (Sys.init 0 [])).1 rfl,
    (c12_create_failures kernelOk (cfgPair fun _ => 0) pciLegacy (Sys.init 0 [])).2.1 rfl
      (by decide),
    (c12_create_failures (kernelReserving 0x0B20) (cfgPair cfgSample) pciLegacy
      (Sys.init 0 [])).2.2.1 rfl (by decide) (by decide)⟩

/-- C13: `smbus_piix4_func` ignores its adapter argument and has no access to the
ports; its value is the union of the functionality bits of Quick, Byte, ByteData,
WordData and BlockData; among the transaction kinds of `linux/i2c.h` it announces
exactly those five; and a transfer returns -EOPNOTSUPP exactly for the sizes that are
none of those five. -/
theorem c13_capabilities {σ : Type} (p : Ports σ) (adapter adapter2 : Option smbus_context)
    (context : smbus_context) (addr flags read_write command : Nat) (size : Int)
    (s : Sys σ) :
    smbus_piix4_func adapter = smbus_piix4_func adapter2 ∧
    smbus_piix4_func adapter = 0x037f0000 ∧
    (∀ kind ∈ smbus_kinds,
      (smbus_piix4_func adapter &&& kind.2 = kind.2 ↔ kind.1 ∈ five_kinds)) ∧
    ((smbus_piix4_transfer p (some context) addr flags read_write command size s).1
      ≠ -EOPNOTSUPP ↔ size ∈ five_kinds) := by
  have hf : smbus_piix4_func adapter = 0x037f0000 := rfl
  refine ⟨rfl, hf, ?_, ?_⟩
  · rw [hf]
    decide
  · rw [ne_eq, transfer_unsupported_iff]
    exact not_not

set_option maxRecDepth 1000000 in
/-- C14, as stated, fails: on a device whose status register shows the in-progress bit
on the first 499 reads after arming and 0x00 on the next read, the poll loop reads the
status register 499 times, not 500, and the transaction returns -ETIMEDOUT, not
Success. -/
theorem c14_poll_count_counterexample :
    polls (statusScript 0x0B20) 0x0B20 (Sys.init (0 :: List.replicate 499 1 ++ [0]) [])
      = List.replicate 499 1 ∧
    (polled (statusScript 0x0B20) 0x0B20
      (Sys.init (0 :: List.replicate 499 1 ++ [0]) [])).2.2.dev = [0] ∧
    (smbus_piix4_transaction (statusScript 0x0B20) 0x0B20
      (Sys.init (0 :: List.replicate 499 1 ++ [0]) [])).1 = -ETIMEDOUT ∧
    (-ETIMEDOUT : Int) ≠ 0 := by
  decide

/-- C14, amended: the poll loop only reads the status register, at least once and at
most 499 times (`MAX_TIMEOUT - 1`) on any device; when every byte it reads has the
in-progress bit set it reads exactly 499 bytes and leaves with `timeout = MAX_TIMEOUT`,
the Timeout candidate, which arises in no other way; and when the host is ready and the
last byte polled (the 499th or an earlier one) has the in-progress bit and the three
error bits clear, the transaction returns 0. -/
theorem c14_poll_bound {σ : Type} (p : Ports σ) (smba : Nat) (s : Sys σ) :
    (polled p smba s).2.2.log
      = (armed p smba s).log ++ (polls p smba s).map (PortEvent.read (SMBHSTSTS smba)) ∧
    1 ≤ (polls p smba s).length ∧ (polls p smba s).length ≤ MAX_TIMEOUT - 1 ∧
    MAX_TIMEOUT - 1 = 499 ∧
    ((∀ v ∈ polls p smba s, v &&& 0x01 ≠ 0) →
      (polls p smba s).length = MAX_TIMEOUT - 1 ∧ (polled p smba s).1 = MAX_TIMEOUT) ∧
    ((polled p smba s).1 = MAX_TIMEOUT → ∀ v ∈ polls p smba s, v &&& 0x01 ≠ 0) ∧
    (∀ init last, (host_ready p smba s).1 = 0 → polls p smba s = init ++ [last] →
      last &&& 0x01 = 0 → last &&& 0x10 = 0 → last &&& 0x08 = 0 → last &&& 0x04 = 0 →
      (smbus_piix4_transaction p smba s).1 = 0) := by
  obtain ⟨hlog, hcase⟩ := polled_char p smba s
  obtain ⟨hcap1, hcap2⟩ := polled_cap_iff p smba s
  have hne := polls_ne_nil p smba s
  have hlast := polled_temp_last p smba s
  refine ⟨hlog, ?_, ?_, rfl, ?_, hcap2.mp, ?_⟩
  · cases h : polls p smba s with
    | nil => exact absurd h hne
    | cons v vs => simp
  · rcases hcase with ⟨_, a2, _, _⟩ | ⟨b1, b2, _, _⟩
    · rw [a2]
    · rw [← b2]
      have : (500 : Nat) = MAX_TIMEOUT := rfl
      omega
  · intro hall
    have hcap := hcap2.mpr hall
    rcases hcase with ⟨_, a2, _, _⟩ | ⟨b1, _, _, _⟩
    · exact ⟨a2, hcap⟩
    · omega
  · intro init last hready hpolls h01 h10 h08 h04
    have htemp : (polled p smba s).2.1 = last := by
      rw [hpolls, List.getLast?_concat] at hlast
      exact (Option.some.inj hlast).symm
    have hnocap : (polled p smba s).1 ≠ MAX_TIMEOUT := by
      intro h
      exact (hcap1.mp h) (by rw [htemp]; exact h01)
    simp [smbus_piix4_transaction, decode_status, hready, htemp, h10, h08, h04, hnocap]

set_option maxRecDepth 1000000 in
/-- Witness for `c14_poll_bound`: the in-progress bit is set on polls 1..498 and clear
on poll 499, and the transaction returns 0. -/
theorem c14_poll_bound_witness :
    (smbus_piix4_transaction (statusScript 0x0B20) 0x0B20
      (Sys.init (0 :: List.replicate 498 1 ++ [0]) [])).1 = 0 :=
  (c14_poll_bound (statusScript 0x0B20) 0x0B20
    (Sys.init (0 :: List.replicate 498 1 ++ [0]) [])).2.2.2.2.2.2
    (List.replicate 498 1) 0 (by decide) (by decide) (by decide) (by decide) (by decide)
    (by decide)

/-- C15: with `v` the first byte read from the status register and `v2` the byte read
after writing `v` back: if both are non-zero the engine returns -EBUSY and its port
accesses are exactly the read of `v`, the write of `v` and the read of `v2`, with no
access to the Control register; if `v` is non-zero and `v2` is zero, or if `v` is zero,
the engine does not return -EBUSY and goes on to read the Control register and to write
the value read with the start bit 0x40 set. -/
theorem c15_stuck_host {σ : Type} (p : Ports σ) (smba : Nat) (s : Sys σ) (v v2 : Nat)
    (hv : (inb_p p (SMBHSTSTS smba) s).1 = v)
    (hv2 : (inb_p p (SMBHSTSTS smba)
      (outb_p p v (SMBHSTSTS smba) (inb_p p (SMBHSTSTS smba) s).2)).1 = v2) :
    (v ≠ 0 ∧ v2 ≠ 0 →
      (smbus_piix4_transaction p smba s).1 = -EBUSY ∧
      (smbus_piix4_transaction p smba s).2.log
        = s.log ++ [PortEvent.read (SMBHSTSTS smba) v, PortEvent.write (SMBHSTSTS smba) v,
            PortEvent.read (SMBHSTSTS smba) v2]) ∧
    (v ≠ 0 ∧ v2 = 0 →
      (smbus_piix4_transaction p smba s).1 ≠ -EBUSY ∧
      ∃ c rest, (smbus_piix4_transaction p smba s).2.log
        = s.log ++ [PortEvent.read (SMBHSTSTS smba) v, PortEvent.write (SMBHSTSTS smba) v,
            PortEvent.read (SMBHSTSTS smba) 0, PortEvent.read (SMBHSTCNT smba) c,
            PortEvent.write (SMBHSTCNT smba) (c ||| 0x40)] ++ rest) ∧
    (v = 0 →
      (smbus_piix4_transaction p smba s).1 ≠ -EBUSY ∧
      ∃ c rest, (smbus_piix4_transaction p smba s).2.log
        = s.log ++ [PortEvent.read (SMBHSTSTS smba) 0, PortEvent.read (SMBHSTCNT smba) c,
            PortEvent.write (SMBHSTCNT smba) (c ||| 0x40)] ++ rest) := by
  subst hv
  have hready_log : (host_ready p smba s).1 = 0 →
      ∃ rest, (smbus_piix4_transaction p smba s).2.log
        = (host_ready p smba s).2.log ++
          [PortEvent.read (SMBHSTCNT smba)
            (inb_p p (SMBHSTCNT smba) (host_ready p smba s).2).1,
           PortEvent.write (SMBHSTCNT smba)
            ((inb_p p (SMBHSTCNT smba) (host_ready p smba s).2).1 ||| 0x040)] ++ rest := by
    intro hready
    obtain ⟨h1, _⟩ := transaction_after_armed p smba s hready
    obtain ⟨h2, _⟩ := polled_char p smba s
    refine ⟨(polls p smba s).map (PortEvent.read (SMBHSTSTS smba)) ++
      (smbus_piix4_transaction p smba s).2.log.drop (polled p smba s).2.2.log.length, ?_⟩
    rw [← armed_log, ← List.append_assoc, ← h2]
    exact h1
  rcases host_ready_shape p smba s with ⟨z1, z2, z3⟩ | ⟨n1, n2, n3⟩
  · refine ⟨fun h => absurd z1 h.1, fun h => absurd z1 h.1, fun _ => ?_⟩
    obtain ⟨rest, hrest⟩ := hready_log z2
    refine ⟨transaction_ready_status p smba s z2,
      (inb_p p (SMBHSTCNT smba) (host_ready p smba s).2).1, rest, ?_⟩
    rw [hrest, z3]
    simp
  · rw [hv2] at n2
    refine ⟨fun h => ?_, fun h => ?_, fun h => absurd h n1⟩
    · have hstuck : (host_ready p smba s).1 ≠ 0 := by rw [n2]; exact h.2
      have ht : smbus_piix4_transaction p smba s = (-EBUSY, (host_ready p smba s).2) := by
        simp [smbus_piix4_transaction, hstuck]
      rw [ht]
      refine ⟨rfl, ?_⟩
      rw [n3, n2]
    · have hready : (host_ready p smba s).1 = 0 := by rw [n2]; exact h.2
      obtain ⟨rest, hrest⟩ := hready_log hready
      refine ⟨transaction_ready_status p smba s hready,
        (inb_p p (SMBHSTCNT smba) (host_ready p smba s).2).1, rest, ?_⟩
      rw [hrest, n3, hready]
      simp

/-- Witness for `c15_stuck_host`: a status register that reads 0x02 twice. -/
theorem c15_stuck_host_witness :
    (smbus_piix4_transaction (statusScript 0x0B20) 0x0B20 (Sys.init [0x02, 0x02] [])).1
      = -EBUSY ∧
    (smbus_piix4_transaction (statusScript 0x0B20) 0x0B20 (Sys.init [0x02, 0x02] [])).2.log
      = (Sys.init [0x02, 0x02] ([] : List Nat)).log ++
          [PortEvent.read (SMBHSTSTS 0x0B20) 0x02, PortEvent.write (SMBHSTSTS 0x0B20) 0x02,
            PortEvent.read (SMBHSTSTS 0x0B20) 0x02] :=
  (c15_stuck_host (statusScript 0x0B20) 0x0B20 (Sys.init [0x02, 0x02] []) 0x02 0x02
    (by decide) (by decide)).1 ⟨by decide, by decide⟩

/-- C16: two runs of the engine at the same base, on any two devices, that start from
the same recorder and have the same recorder at the point where the status is decided
(after the second status read of a stuck host, else after the last poll) return the
same status, whatever the devices do afterwards; and what a run records after that
point are accesses to the status register only. -/
theorem c16_status_decided_by_polls {σ τ : Type} (p : Ports σ) (q : Ports τ) (smba : Nat)
    (s : Sys σ) (t : Sys τ) (hstart : s.log = t.log)
    (hagree : decided_log p smba s = decided_log q smba t) :
    (smbus_piix4_transaction p smba s).1 = (smbus_piix4_transaction q smba t).1 ∧
    ∃ tail, (smbus_piix4_transaction p smba s).2.log = decided_log p smba s ++ tail ∧
      ∀ e ∈ tail, e.port = SMBHSTSTS smba := by
  obtain ⟨e1, hd1, hc1⟩ := decided_shape p smba s
  obtain ⟨e2, hd2, hc2⟩ := decided_shape q smba t
  have hevs : e1 = e2 := by
    rw [hd1, hd2, hstart] at hagree
    exact List.append_cancel_left hagree
  subst hevs
  constructor
  · rcases hc1 with ⟨a1, a2⟩ | ⟨b1, b2, b3⟩
    · rcases hc2 with ⟨c1, _⟩ | ⟨_, d2, _⟩
      · simp [smbus_piix4_transaction, a1, c1]
      · omega
    · rcases hc2 with ⟨_, c2⟩ | ⟨d1, _, d3⟩
      · omega
      · rw [b3] at d3
        have htemp : (polled p smba s).2.1 = (polled q smba t).2.1 := by
          injection d3 with d3
          injection d3
        rw [transaction_status_of_temp p smba s b1, transaction_status_of_temp q smba t d1,
          htemp]
  · by_cases hst : (host_ready p smba s).1 = 0
    · have hd : decided_log p smba s = (polled p smba s).2.2.log := by
        simp [decided_log, hst]
      rw [hd]
      exact ⟨_, (transaction_after_armed p smba s hst).1,
        (transaction_after_armed p smba s hst).2⟩
    · have hd : decided_log p smba s = (host_ready p smba s).2.log := by
        simp [decided_log, hst]
      have ht : (smbus_piix4_transaction p smba s).2 = (host_ready p smba s).2 := by
        simp [smbus_piix4_transaction, hst]
      exact ⟨[], by rw [hd, ht, List.append_nil], by simp⟩

/-- Witness for `c16_status_decided_by_polls`: two status scripts that agree up to the
first poll; the first then shows 0xFF on every end-of-transaction read, the second 0. -/
theorem c16_status_decided_by_polls_witness :
    ((smbus_piix4_transaction (statusScript 0x0B20) 0x0B20
        (Sys.init [0, 0, 0xFF, 0xFF, 0xFF] [])).1
      = (smbus_piix4_transaction (statusScript 0x0B20) 0x0B20 (Sys.init [0, 0] [])).1 ∧
      ∃ tail, (smbus_piix4_transaction (statusScript 0x0B20) 0x0B20
          (Sys.init [0, 0, 0xFF, 0xFF, 0xFF] [])).2.log
          = decided_log (statusScript 0x0B20) 0x0B20 (Sys.init [0, 0, 0xFF, 0xFF, 0xFF] [])
            ++ tail ∧
        ∀ e ∈ tail, e.port = SMBHSTSTS 0x0B20) ∧
    (smbus_piix4_transaction (statusScript 0x0B20) 0x0B20
        (Sys.init [0, 0, 0xFF, 0xFF, 0xFF] [])).1 = 0 ∧
    (smbus_piix4_transaction (statusScript 0x0B20) 0x0B20
        (Sys.init [0, 0, 0xFF, 0xFF, 0xFF] [])).2.log.getLast?
      = some (PortEvent.read (SMBHSTSTS 0x0B20) 0xFF) :=
  ⟨c16_status_decided_by_polls (statusScript 0x0B20) (statusScript 0x0B20) 0x0B20
      (Sys.init [0, 0, 0xFF, 0xFF, 0xFF] []) (Sys.init [0, 0] []) rfl (by decide),
    by decide, by decide⟩

/-- C17: for a Byte operation with a 7-bit address and a command byte.  A Byte write
writes `(addr << 1) | I2C_SMBUS_WRITE` to Address, then the command argument to
Command, and after that accesses only Control and Status, so that nothing is written
to Data0, Data1 or BlockData.  A Byte read writes `(addr << 1) | I2C_SMBUS_READ` to
Address and up to the end of its transaction accesses only Control and Status; no
access of the whole read is a write to Command; when the transaction fails the read
returns its result, and when it succeeds the read returns 0 after one read of Data0
whose value is stored in `data->byte`. -/
theorem c17_byte_operation {σ : Type} (p : Ports σ) (context : smbus_context)
    (addr flags command : Nat) (s : Sys σ)
    (haddr : addr < 128) (hcmd : command < 256) (hbuf : 0 < s.block.length) :
    (∃ evs, (smbus_piix4_transfer p (some context) addr flags I2C_SMBUS_WRITE command
        I2C_SMBUS_BYTE s).2.log
        = s.log ++ [PortEvent.write (SMBHSTADD context.smba) ((addr <<< 1) ||| I2C_SMBUS_WRITE),
            PortEvent.write (SMBHSTCMD context.smba) command] ++ evs ∧
      ∀ e ∈ evs, EnginePort context.smba e) ∧
    Extends (fun e => e.isWriteTo (SMBHSTDAT0 context.smba) = false ∧
        e.isWriteTo (SMBHSTDAT1 context.smba) = false ∧
        e.isWriteTo (SMBBLKDAT context.smba) = false) s.log
      (smbus_piix4_transfer p (some context) addr flags I2C_SMBUS_WRITE command
        I2C_SMBUS_BYTE s).2.log ∧
    (∃ evs, (transfer_transaction p context.smba addr I2C_SMBUS_READ command I2C_SMBUS_BYTE
        PIIX4_BYTE s).2.log
        = s.log ++ [PortEvent.write (SMBHSTADD context.smba) ((addr <<< 1) ||| I2C_SMBUS_READ)]
          ++ evs ∧
      ∀ e ∈ evs, EnginePort context.smba e) ∧
    Extends (fun e => e.isWriteTo (SMBHSTCMD context.smba) = false) s.log
      (smbus_piix4_transfer p (some context) addr flags I2C_SMBUS_READ command
        I2C_SMBUS_BYTE s).2.log ∧
    ((transfer_transaction p context.smba addr I2C_SMBUS_READ command I2C_SMBUS_BYTE
        PIIX4_BYTE s).1 ≠ 0 →
      smbus_piix4_transfer p (some context) addr flags I2C_SMBUS_READ command I2C_SMBUS_BYTE s
        = transfer_transaction p context.smba addr I2C_SMBUS_READ command I2C_SMBUS_BYTE
            PIIX4_BYTE s) ∧
    ((transfer_transaction p context.smba addr I2C_SMBUS_READ command I2C_SMBUS_BYTE
        PIIX4_BYTE s).1 = 0 →
      (smbus_piix4_transfer p (some context) addr flags I2C_SMBUS_READ command
        I2C_SMBUS_BYTE s).1 = 0 ∧
      (smbus_piix4_transfer p (some context) addr flags I2C_SMBUS_READ command
        I2C_SMBUS_BYTE s).2.log
        = (transfer_transaction p context.smba addr I2C_SMBUS_READ command I2C_SMBUS_BYTE
            PIIX4_BYTE s).2.log ++
          [PortEvent.read (SMBHSTDAT0 context.smba) (inb_p p (SMBHSTDAT0 context.smba)
            (transfer_transaction p context.smba addr I2C_SMBUS_READ command I2C_SMBUS_BYTE
              PIIX4_BYTE s).2).1] ∧
      (rd_block 0 (smbus_piix4_transfer p (some context) addr flags I2C_SMBUS_READ command
        I2C_SMBUS_BYTE s).2).1
        = (inb_p p (SMBHSTDAT0 context.smba) (transfer_transaction p context.smba addr
            I2C_SMBUS_READ command I2C_SMBUS_BYTE PIIX4_BYTE s).2).1) := by
  have hsw := transfer_setup_byte_write p context.smba addr command s
  have hsr := transfer_setup_byte_read p context.smba addr command s
  have hvw := addr_byte addr I2C_SMBUS_WRITE haddr (by decide)
  have hvr := addr_byte addr I2C_SMBUS_READ haddr (by decide)
  have hc := Nat.mod_eq_of_lt hcmd
  -- the write
  have hW : ∃ evs, (smbus_piix4_transfer p (some context) addr flags I2C_SMBUS_WRITE command
        I2C_SMBUS_BYTE s).2.log
        = s.log ++ [PortEvent.write (SMBHSTADD context.smba) ((addr <<< 1) ||| I2C_SMBUS_WRITE),
            PortEvent.write (SMBHSTCMD context.smba) command] ++ evs ∧
      ∀ e ∈ evs, EnginePort context.smba e := by
    rw [transfer_write p context addr flags command _ s PIIX4_BYTE (by rw [hsw])]
    unfold transfer_transaction
    rw [hsw]
    obtain ⟨evt, hlog, hport⟩ := transaction_log p context.smba
      (transfer_program p context.smba PIIX4_BYTE (outb_p p command (SMBHSTCMD context.smba)
        (outb_p p ((addr <<< 1) ||| I2C_SMBUS_WRITE) (SMBHSTADD context.smba) s)))
    refine ⟨PortEvent.write (SMBHSTCNT context.smba) 0x04 :: evt, ?_, ?_⟩
    · rw [hlog, transfer_program, outb_p_log, outb_p_log, outb_p_log, hvw, hc]
      simp
      decide
    · intro e he
      rcases List.mem_cons.mp he with rfl | h
      · exact Or.inr rfl
      · exact hport e h
  -- the read, up to the end of the transaction
  have hR : ∃ evs, (transfer_transaction p context.smba addr I2C_SMBUS_READ command
        I2C_SMBUS_BYTE PIIX4_BYTE s).2.log
        = s.log ++ [PortEvent.write (SMBHSTADD context.smba) ((addr <<< 1) ||| I2C_SMBUS_READ)]
          ++ evs ∧
      ∀ e ∈ evs, EnginePort context.smba e := by
    unfold transfer_transaction
    rw [hsr]
    obtain ⟨evt, hlog, hport⟩ := transaction_log p context.smba
      (transfer_program p context.smba PIIX4_BYTE
        (outb_p p ((addr <<< 1) ||| I2C_SMBUS_READ) (SMBHSTADD context.smba) s))
    refine ⟨PortEvent.write (SMBHSTCNT context.smba) 0x04 :: evt, ?_, ?_⟩
    · rw [hlog, transfer_program, outb_p_log, outb_p_log, hvr]
      simp
      decide
    · intro e he
      rcases List.mem_cons.mp he with rfl | h
      · exact Or.inr rfl
      · exact hport e h
  have hfail : (transfer_transaction p context.smba addr I2C_SMBUS_READ command I2C_SMBUS_BYTE
        PIIX4_BYTE s).1 ≠ 0 →
      smbus_piix4_transfer p (some context) addr flags I2C_SMBUS_READ command I2C_SMBUS_BYTE s
        = transfer_transaction p context.smba addr I2C_SMBUS_READ command I2C_SMBUS_BYTE
            PIIX4_BYTE s := by
    intro h
    rw [transfer_of_setup_ok p context addr flags I2C_SMBUS_READ command _ s PIIX4_BYTE
      (by rw [hsr])]
    unfold transfer_transaction at h ⊢
    rw [if_pos h]
  have hok : (transfer_transaction p context.smba addr I2C_SMBUS_READ command I2C_SMBUS_BYTE
        PIIX4_BYTE s).1 = 0 →
      smbus_piix4_transfer p (some context) addr flags I2C_SMBUS_READ command I2C_SMBUS_BYTE s
        = transfer_readback p context.smba PIIX4_BYTE
            (transfer_transaction p context.smba addr I2C_SMBUS_READ command I2C_SMBUS_BYTE
              PIIX4_BYTE s).2 :=
    transfer_read_ok p context addr flags command _ s PIIX4_BYTE (by rw [hsr]) (by decide)
  have hblock : (transfer_transaction p context.smba addr I2C_SMBUS_READ command
      I2C_SMBUS_BYTE PIIX4_BYTE s).2.block = s.block := by
    unfold transfer_transaction
    rw [transaction_block, transfer_program, outb_p_block, transfer_setup_block]
  refine ⟨hW, ?_, hR, ?_, hfail, ?_⟩
  · obtain ⟨evs, h1, h2⟩ := hW
    refine ⟨_, by rw [h1, List.append_assoc], ?_⟩
    intro e he
    rcases List.mem_append.mp he with h | h
    · simp only [List.mem_cons, List.mem_singleton, List.not_mem_nil, or_false] at h
      rcases h with rfl | rfl <;>
        simp [PortEvent.isWriteTo, SMBHSTCMD, SMBHSTADD, SMBHSTDAT0, SMBHSTDAT1, SMBBLKDAT]
    · obtain ⟨_, _, g3, g4, g5⟩ := engine_port_not_write context.smba e (h2 e h)
      exact ⟨g3, g4, g5⟩
  · obtain ⟨evs, h1, h2⟩ := hR
    have hpre : Extends (fun e => e.isWriteTo (SMBHSTCMD context.smba) = false) s.log
        (transfer_transaction p context.smba addr I2C_SMBUS_READ command I2C_SMBUS_BYTE
          PIIX4_BYTE s).2.log := by
      refine ⟨_, by rw [h1, List.append_assoc], ?_⟩
      intro e he
      rcases List.mem_append.mp he with h | h
      · simp only [List.mem_singleton] at h
        subst h
        simp [PortEvent.isWriteTo, SMBHSTCMD, SMBHSTADD]
      · exact (engine_port_not_write context.smba e (h2 e h)).1
    by_cases hst : (transfer_transaction p context.smba addr I2C_SMBUS_READ command
        I2C_SMBUS_BYTE PIIX4_BYTE s).1 = 0
    · rw [hok hst, transfer_readback_byte]
      exact hpre.trans (Extends.by_read p _ _ (fun _ => rfl))
    · rw [hfail hst]
      exact hpre
  · intro hst
    rw [hok hst, transfer_readback_byte]
    refine ⟨rfl, rfl, ?_⟩
    simp only [rd_block, wr_block, inb_p_block]
    rw [getD_set_self _ _ _ (by rw [hblock]; exact hbuf), Nat.mod_mod,
      Nat.mod_eq_of_lt (inb_p_lt p _ _)]

/-- Witness for `c17_byte_operation`: a Byte read on the loopback double whose Data0
holds 3 returns 0 and stores 3 in `data->byte`. -/
theorem c17_byte_operation_witness :
    ((smbus_piix4_transfer (loopback 0x0B20) (some ⟨0x0B20⟩) 0x50 0 I2C_SMBUS_READ 0
        I2C_SMBUS_BYTE (Sys.init loopAnswer3 [0xEE])).1 = 0 ∧
      (smbus_piix4_transfer (loopback 0x0B20) (some ⟨0x0B20⟩) 0x50 0 I2C_SMBUS_READ 0
        I2C_SMBUS_BYTE (Sys.init loopAnswer3 [0xEE])).2.log
        = (transfer_transaction (loopback 0x0B20) 0x0B20 0x50 I2C_SMBUS_READ 0 I2C_SMBUS_BYTE
            PIIX4_BYTE (Sys.init loopAnswer3 [0xEE])).2.log ++
          [PortEvent.read (SMBHSTDAT0 0x0B20) (inb_p (loopback 0x0B20) (SMBHSTDAT0 0x0B20)
            (transfer_transaction (loopback 0x0B20) 0x0B20 0x50 I2C_SMBUS_READ 0 I2C_SMBUS_BYTE
              PIIX4_BYTE (Sys.init loopAnswer3 [0xEE])).2).1] ∧
      (rd_block 0 (smbus_piix4_transfer (loopback 0x0B20) (some ⟨0x0B20⟩) 0x50 0
        I2C_SMBUS_READ 0 I2C_SMBUS_BYTE (Sys.init loopAnswer3 [0xEE])).2).1
        = (inb_p (loopback 0x0B20) (SMBHSTDAT0 0x0B20) (transfer_transaction (loopback 0x0B20)
            0x0B20 0x50 I2C_SMBUS_READ 0 I2C_SMBUS_BYTE PIIX4_BYTE
            (Sys.init loopAnswer3 [0xEE])).2).1) ∧
    (smbus_piix4_transfer (loopback 0x0B20) (some ⟨0x0B20⟩) 0x50 0 I2C_SMBUS_READ 0
        I2C_SMBUS_BYTE (Sys.init loopAnswer3 [0xEE])).2.block = [3] :=
  ⟨(c17_byte_operation (loopback 0x0B20) ⟨0x0B20⟩ 0x50 0 0 (Sys.init loopAnswer3 [0xEE])
      (by decide) (by decide) (by decide)).2.2.2.2.2 (by decide),
    by decide⟩

/-- C18: for an operation accepted by the first switch with code `c`.  The code is the
one of its kind (Quick 0x00, Byte 0x04, ByteData 0x08, WordData 0x0C, BlockData 0x14),
the five codes are pairwise distinct, `c` has bit 0x40 clear and is what line 190
writes to Control.  When the host is ready the transaction reads Control and writes
back the value read with bit 0x40 set; setting that bit changes no other bit of any
value; and when Control reads back the code written, the armed value is `c | 0x40`,
from which `c` is recovered by the mask 0x1C. -/
theorem c18_size_codes {σ : Type} (p : Ports σ) (context : smbus_context)
    (addr read_write command : Nat) (size : Int) (s : Sys σ) (c : Nat)
    (hsetup : (transfer_setup p context.smba addr read_write command size s).1 = Except.ok c)
    (hready : (host_ready p context.smba (transfer_program p context.smba c
      (transfer_setup p context.smba addr read_write command size s).2)).1 = 0) :
    ((size = I2C_SMBUS_QUICK ∧ c = 0x00) ∨ (size = I2C_SMBUS_BYTE ∧ c = 0x04) ∨
      (size = I2C_SMBUS_BYTE_DATA ∧ c = 0x08) ∨ (size = I2C_SMBUS_WORD_DATA ∧ c = 0x0C) ∨
      (size = I2C_SMBUS_BLOCK_DATA ∧ c = 0x14)) ∧
    [PIIX4_QUICK, PIIX4_BYTE, PIIX4_BYTE_DATA, PIIX4_WORD_DATA, PIIX4_BLOCK_DATA].Nodup ∧
    c &&& 0x40 = 0 ∧ (c ||| 0x40) &&& 0x1C = c ∧
    (∀ r i, (r ||| 0x40).testBit i = if i = 6 then true else r.testBit i) ∧
    ∃ pre r rest, (∀ e ∈ pre, e.port = SMBHSTSTS context.smba) ∧
      r = (inb_p p (SMBHSTCNT context.smba) (host_ready p context.smba
        (transfer_program p context.smba c
          (transfer_setup p context.smba addr read_write command size s).2)).2).1 ∧
      (transfer_transaction p context.smba addr read_write command size c s).2.log
        = (transfer_setup p context.smba addr read_write command size s).2.log ++
          [PortEvent.write (SMBHSTCNT context.smba) c] ++ pre ++
          [PortEvent.read (SMBHSTCNT context.smba) r,
           PortEvent.write (SMBHSTCNT context.smba) (r ||| 0x40)] ++ rest ∧
      (r = c → PortEvent.write (SMBHSTCNT context.smba) (r ||| 0x40)
        = PortEvent.write (SMBHSTCNT context.smba) (c ||| 0x40)) := by
  have hcode := transfer_setup_code p context.smba addr read_write command size s c hsetup
  have hc : c = 0x00 ∨ c = 0x04 ∨ c = 0x08 ∨ c = 0x0C ∨ c = 0x14 := by
    rcases hcode with ⟨_, h⟩ | ⟨_, h⟩ | ⟨_, h⟩ | ⟨_, h⟩ | ⟨_, h⟩ <;> simp [h]
  have hprog : (transfer_program p context.smba c
      (transfer_setup p context.smba addr read_write command size s).2).log
      = (transfer_setup p context.smba addr read_write command size s).2.log ++
        [PortEvent.write (SMBHSTCNT context.smba) c] := by
    rw [transfer_program, outb_p_log]
    rcases hc with h | h | h | h | h <;> subst h <;> rfl
  obtain ⟨pre, rest, hpre, _, hlog⟩ := transaction_ready_log p context.smba _ hready
  refine ⟨hcode, by decide, ?_, ?_, or_start_bit_testBit, pre, _, rest, hpre, rfl, ?_, ?_⟩
  · rcases hc with h | h | h | h | h <;> subst h <;> decide
  · rcases hc with h | h | h | h | h <;> subst h <;> decide
  · unfold transfer_transaction
    rw [hlog, hprog]
  · intro h
    rw [h]

/-- Witness for `c18_size_codes`: a BlockData read on the loopback double, whose
Control register reads back the code 0x14; the armed value is 0x54. -/
theorem c18_size_codes_witness :
    PortEvent.write (SMBHSTCNT 0x0B20) (0x14 ||| 0x40)
      ∈ (transfer_transaction (loopback 0x0B20) 0x0B20 0x50 I2C_SMBUS_READ 7
          I2C_SMBUS_BLOCK_DATA 0x14 (Sys.init loopAnswer3 (List.replicate 34 0))).2.log ∧
    (0x14 ||| 0x40) &&& 0x1C = 0x14 := by
  obtain ⟨_, _, _, hrec, _, pre, r, rest, _, hr, hlog, harm⟩ :=
    c18_size_codes (loopback 0x0B20) ⟨0x0B20⟩ 0x50 I2C_SMBUS_READ 7 I2C_SMBUS_BLOCK_DATA
      (Sys.init loopAnswer3 (List.replicate 34 0)) 0x14 rfl (by decide)
  refine ⟨?_, hrec⟩
  have hrc : r = 0x14 := by rw [hr]; decide
  rw [hlog, ← harm hrc]
  simp

/-- C19: the range checked against firmware reservation stops one port short of the
BlockData register.  The Status, Control, Command, Address, Data0 and Data1 ports lie
in the range of `SMBIOSIZE` ports at the base, but the BlockData port is the first port
after it.  With a firmware that reserves exactly the port 0x0B27,
`smbus_piix4_context_create` finds no conflict for the base 0x0B20 and creates the
Context, and a BlockData write through that Context writes the payload byte to the
reserved port 0x0B27. -/
theorem c19_blockdata_outside_checked_range (smba : Nat) :
    (∀ port ∈ [SMBHSTSTS smba, SMBHSTCNT smba, SMBHSTCMD smba, SMBHSTADD smba,
        SMBHSTDAT0 smba, SMBHSTDAT1 smba], smba ≤ port ∧ port < smba + SMBIOSIZE) ∧
    SMBBLKDAT smba = smba + SMBIOSIZE ∧
    ¬ (SMBBLKDAT smba < smba + SMBIOSIZE) ∧
    (kernelReserving 0x0B27).acpi_check_region 0x0B20 SMBIOSIZE = 0 ∧
    (smbus_piix4_context_create (kernelReserving 0x0B27) (cfgPair cfgSample) pciNew
      (Sys.init 0 [])).1 = Except.ok ⟨0x0B20⟩ ∧
    (smbus_piix4_transfer (loopback 0x0B20) (some ⟨0x0B20⟩) 0x50 0 I2C_SMBUS_WRITE 7
      I2C_SMBUS_BLOCK_DATA (Sys.init loopZero [1, 0xAA])).1 = 0 ∧
    PortEvent.write 0x0B27 0xAA
      ∈ (smbus_piix4_transfer (loopback 0x0B20) (some ⟨0x0B20⟩) 0x50 0 I2C_SMBUS_WRITE 7
          I2C_SMBUS_BLOCK_DATA (Sys.init loopZero [1, 0xAA])).2.log := by
  refine ⟨?_, ?_, ?_, by decide, rfl, by decide, by decide⟩
  · intro port hport
    simp only [List.mem_cons, List.mem_singleton, List.not_mem_nil, or_false] at hport
    simp only [SMBHSTSTS, SMBHSTCNT, SMBHSTCMD, SMBHSTADD, SMBHSTDAT0, SMBHSTDAT1] at hport
    have h7 : SMBIOSIZE = 7 := rfl
    rw [h7]
    omega
  · simp only [SMBBLKDAT]
    have h7 : SMBIOSIZE = 7 := rfl
    rw [h7]
    omega
  · simp only [SMBBLKDAT]
    have h7 : SMBIOSIZE = 7 := rfl
    rw [h7]
    omega

/-- C20: for every device, every caller buffer (so every length byte of a BlockData
write) and every byte the device reports (so every length byte of a BlockData read),
every index at which `smbus_piix4_transfer` reads or writes the caller bytes is at
most `I2C_SMBUS_BLOCK_MAX` = 32, hence below `I2C_SMBUS_BLOCK_MAX + 2` = 34, and the
buffer keeps its length; so on a buffer of 34 bytes no access is out of range. -/
theorem c20_block_indices_in_range {σ : Type} (p : Ports σ) (adapter : Option smbus_context)
    (addr flags read_write command : Nat) (size : Int) (s : Sys σ) :
    IdxExtends (fun i => i ≤ 32 ∧ i < I2C_SMBUS_BLOCK_MAX + 2) s.idx
      (smbus_piix4_transfer p adapter addr flags read_write command size s).2.idx ∧
    (smbus_piix4_transfer p adapter addr flags read_write command size s).2.block.length
      = s.block.length ∧
    (s.block.length = I2C_SMBUS_BLOCK_MAX + 2 →
      ∀ i ∈ (smbus_piix4_transfer p adapter addr flags read_write command size s).2.idx.drop
        s.idx.length, i < s.block.length) := by
  have h := transfer_idx p adapter addr flags read_write command size s
  have h32 : I2C_SMBUS_BLOCK_MAX = 32 := rfl
  refine ⟨idxExtends_mono h ?_, transfer_length p adapter addr flags read_write command size s, ?_⟩
  · intro i hi
    rw [h32] at hi ⊢
    omega
  · intro hlen i hi
    obtain ⟨new, hnew, hq⟩ := h
    rw [hnew, List.drop_left] at hi
    have := hq i hi
    rw [hlen]
    rw [h32] at this ⊢
    omega

end Piix4
